import Mathlib

/-!
# Verification of the `@propulsionworks/cloudformation` schema-to-type compiler

This development is a shallow embedding, in Lean 4, of the schema-to-type-model
compiler of the `@propulsionworks/cloudformation` package:

* `src/build-lib/object.ts` — generic object merging (`mergeObjectsWith`,
  `mergeObjects`, `pick`, `splitPick`, `assign`);
* `src/build-lib/type-nodes.ts` — the type-model IR (`Type`, `PropertyInfo`,
  `ResourceType`, …) and its structural operations (`isSameType`,
  `simplifyUnionType`);
* `src/build-lib/schema-paths.ts` — `getBreadcrumbs`;
* `src/build-lib/resource-builder.ts` — the schema walker (`ResourceBuilder`);
* `src/build-lib/resource-type-simplifier.ts` — the view simplifier;
* `src/build-lib/code-generator.ts` — the renderer (`CodeGenerator`);
* `src/build/generate.ts` — the "emit only referenced definitions" loop.

Modelling conventions:

* JavaScript values flowing through the walker are modelled by the `Json`
  inductive.  JS objects are association lists in insertion order, which is the
  enumeration order of `Object.entries`/`Object.keys`; keys are assumed
  duplicate-free, as produced by JSON parsing.  Assigning to an existing key
  keeps its slot; assigning a new key appends, mirroring JS semantics.
* `undefined` is modelled by absence (`Option.none` / a missing key).
* JS strict equality `===` on primitives is structural; on two distinct
  objects/arrays it is reference equality, which is `false` for the values
  compared by this program (they always come from distinct parsed fragments),
  so `jsStrictEq` returns `false` for composite values.
* Functions that can throw (`assert`, the `in` operator on a primitive) return
  `Except Err`; recursion that is unbounded in the source (reference chasing)
  takes explicit fuel and returns a fuel-exhaustion error when it runs out,
  which models non-termination / stack overflow of the original.
* In-place mutation of the type graph (classification flags) is modelled by
  threading a `BState` value, with mutation targets addressed by their location
  (`TyLoc`) in the graph; definitions are stored once and addressed by name,
  exactly like the single `definitions` table of the source, so sharing through
  references behaves as in the original.
-/

/-! ## JSON values (src/lib/json.ts) -/

/-- A JSON value.  `JsonValue` from `src/lib/json.ts`; objects keep insertion
order. -/
inductive Json where
  | null : Json
  | bool (b : Bool) : Json
  | num (n : Int) : Json
  | str (s : String) : Json
  | arr (items : List Json) : Json
  | obj (fields : List (String × Json)) : Json

namespace Json

/-- `object[key]`, returning `none` for `undefined`.  Lookup on non-objects
returns `none` (property access on primitives/arrays yields `undefined` for
the string keys used by this program). -/
def get (j : Json) (key : String) : Option Json :=
  match j with
  | .obj fields => fields.lookup key
  | _ => none

/-- `Object.keys`, for objects.  Non-objects have no own enumerable string
keys that this program ever inspects. -/
def keys (j : Json) : List String :=
  match j with
  | .obj fields => fields.map Prod.fst
  | _ => []

/-- `Object.entries`, for objects. -/
def entries (j : Json) : List (String × Json) :=
  match j with
  | .obj fields => fields
  | _ => []

/-- Set a key on an object's field list: an existing key keeps its slot, a new
key is appended (JS assignment semantics). -/
def setField : List (String × Json) → String → Json → List (String × Json)
  | [], key, v => [(key, v)]
  | (k, w) :: rest, key, v =>
    if k = key then (k, v) :: rest else (k, w) :: setField rest key v

/-- `object[key] = value` (no-op on non-objects, which never happens in the
modelled code paths). -/
def set (j : Json) (key : String) (v : Json) : Json :=
  match j with
  | .obj fields => .obj (setField fields key v)
  | _ => j

/-- `delete object[key]`. -/
def del (j : Json) (key : String) : Json :=
  match j with
  | .obj fields => .obj (fields.filter (fun f => f.1 ≠ key))
  | _ => j

/-- JS truthiness of a value standing for a defined property. -/
def truthy : Json → Bool
  | .null => false
  | .bool b => b
  | .num n => n ≠ 0
  | .str s => s ≠ ""
  | .arr _ => true
  | .obj _ => true

/-- JS truthiness of an optional value (`undefined` is falsy). -/
def truthyOpt : Option Json → Bool
  | none => false
  | some j => truthy j

/-- `Array.isArray`. -/
def isArr : Json → Bool
  | .arr _ => true
  | _ => false

/-- JS strict equality `===` as used by this program: structural on
primitives, `false` on composite values (which are compared by reference in
JS and always come from distinct parsed fragments here). -/
def jsStrictEq : Json → Json → Bool
  | .null, .null => true
  | .bool a, .bool b => a == b
  | .num a, .num b => a == b
  | .str a, .str b => a == b
  | _, _ => false

end Json

/-- The empty JS object `{}`. -/
def jsEmpty : Json := .obj []

/-! ### Character-list string primitives

The `String` library implements `startsWith`/`splitOn`/`endsWith`/`toNat?`
with `Substring` loops that the kernel cannot reduce; these equivalents work
on the underlying character list so that concrete runs evaluate by `rfl`. -/

/-- `s.startsWith p`. -/
def strStartsWith (s p : String) : Bool := p.data.isPrefixOf s.data

/-- `s.endsWith p`. -/
def strEndsWith (s p : String) : Bool := p.data.isSuffixOf s.data

/-- `s.contains c`. -/
def strContainsChar (s : String) (c : Char) : Bool := s.data.contains c

/-- Split a character list at a separator character. -/
def splitCharList (sep : Char) : List Char → List (List Char)
  | [] => [[]]
  | c :: rest =>
    let r := splitCharList sep rest
    if c = sep then [] :: r
    else
      match r with
      | h :: t => (c :: h) :: t
      | [] => [[c]]

/-- `s.split(sep)` / `s.splitOn sep` for a single-character separator. -/
def strSplitOn (s : String) (sep : Char) : List String :=
  (splitCharList sep s.data).map List.asString

/-- `parts.join(sep)` / `String.intercalate`. -/
def strJoin (sep : String) : List String → String
  | [] => ""
  | [p] => p
  | p :: rest => p ++ sep ++ strJoin sep rest

/-- Parse a decimal numeral (the canonical-index check of array `in`). -/
def strToNat? (s : String) : Option Nat :=
  if s.data ≠ [] && s.data.all Char.isDigit then
    some (s.data.foldl (fun acc c => acc * 10 + (c.toNat - 48)) 0)
  else none

/-! ## src/build-lib/object.ts -/

/-- `assign(target, obj)` for a single source object: merge `obj` into
`target`, only overwriting when the new value is defined. -/
def assign (target : Json) (obj : Json) : Json :=
  obj.entries.foldl (fun acc kv => acc.set kv.1 kv.2) target

/-- `mergeObjectsWith`, generalised over a value-merging function that may
carry state `σ` (the source passes a closure capturing the `conflicts`
array).  `objects.pop()` takes the **last** element as the base; the remaining
objects are then folded in, in order.  `none` models the
`expected non-empty array of objects` assertion failure. -/
def mergeObjectsWith (objects : List Json)
    (mergeValues : σ → Json → Json → String → σ × Json) (st : σ) :
    Option (Json × σ) :=
  match objects.getLast? with
  | none => none
  | some first =>
    let rest := objects.dropLast
    let step := fun (acc : Json × σ) (object : Json) =>
      object.entries.foldl
        (fun (acc : Json × σ) kv =>
          match acc.1.get kv.1 with
          | none => (acc.1.set kv.1 kv.2, acc.2)
          | some existing =>
            let (st', v) := mergeValues acc.2 existing kv.2 kv.1
            (acc.1.set kv.1 v, st'))
        acc
    some (rest.foldl step (.obj first.entries, st))

/-- Options for `mergeObjects`.  `mergeArrayValues` is
`boolean | keys[] | undefined`. -/
structure MergeObjectsOptions where
  mergeArrayValues : Option (Bool ⊕ List String) := none
  overwriteValues : Option (Bool ⊕ List String) := none
  uniqueArrayValues : Option Bool := none

/-- Dedup by JS `Set` insertion (SameValueZero, first occurrence kept);
composite values are compared by reference in JS, hence never equal here. -/
def jsSetDedup (items : List Json) : List Json :=
  items.foldl
    (fun acc v => if acc.any (fun w => Json.jsStrictEq w v) then acc else acc ++ [v])
    []

/-- The value-merging closure of `mergeObjects`, threading the `conflicts`
array as state. -/
def mergeObjectsValueFn (options : MergeObjectsOptions) (conflicts : List String)
    (a b : Json) (key : String) : List String × Json :=
  let mergeArrays :=
    match options.mergeArrayValues with
    | some (.inr keyList) => keyList.contains key
    | some (.inl b') => b' && a.isArr && b.isArr
    | none => false
  if mergeArrays then
    let result : List Json :=
      match a, b with
      | .arr xs, .arr ys => xs ++ ys
      | .arr xs, _ => xs ++ [b]
      | _, .arr ys => a :: ys
      | _, _ => [a, b]
    (conflicts, .arr (if options.uniqueArrayValues = some true then jsSetDedup result else result))
  else
    let overwrite :=
      match options.overwriteValues with
      | some (.inl true) => true
      | some (.inr keyList) => keyList.contains key
      | _ => false
    if overwrite then (conflicts, b)
    else if Json.jsStrictEq a b then (conflicts, a)
    else (conflicts ++ [key], a)

/-- Result of `mergeObjects`: the merged value and the (possibly empty)
conflicts list; `conflicts` is omitted in the source when empty, modelled here
by always returning the list. -/
def mergeObjects (objects : List Json) (options : MergeObjectsOptions) :
    Option (Json × List String) :=
  mergeObjectsWith objects (mergeObjectsValueFn options) []

/-- `pick(object, keys)`: iterate the key list, keeping defined values. -/
def pick (object : Json) (pickKeys : List String) : Json :=
  .obj (pickKeys.foldl
    (fun acc key =>
      match object.get key with
      | none => acc
      | some v => acc ++ [(key, v)])
    [])

/-- `splitPick(object, keys)`: partition the object's entries by key
membership, preserving order. -/
def splitPick (object : Json) (pickKeys : List String) : Json × Json :=
  let (picked, rest) := object.entries.partition (fun kv => pickKeys.contains kv.1)
  (.obj picked, .obj rest)

/-! ## src/build-lib/type-nodes.ts — the type-model IR -/

/-- `SymbolName = string | ImportedName | IndexedName`.  Composite names are
compared by reference in JS; that identity is modelled by a token. -/
inductive SymbolName where
  | str (s : String)
  | objToken (token : Nat)
deriving Repr, DecidableEq

mutual

/-- The IR `Type` union of `type-nodes.ts`.  `PrimitiveType` is split into one
constructor per tag; `ObjectType.properties` is an insertion-ordered record. -/
inductive Ty where
  | any (id : String)
  | unknown (id : String)
  | boolean (id : String)
  | integer (id : String)
  | number (id : String)
  | null (id : String)
  | string (id : String)
  | const (id : String) (value : Json)
  | enum (id : String) (values : List Json)
  | array (id : String) (items : ItemInfo)
  | object (id : String) (properties : List (String × PropertyInfo))
      (required : List String)
  | record (id : String) (value : Ty)
  | reference (id : String) (name : SymbolName)
  | union (id : String) (items : List Ty)

/-- `PropertyInfo`: documentation bag plus the classification flags mutated by
attribute analysis. -/
inductive PropertyInfo where
  | mk (documentation : Option Json) (isAttribute : Option Bool)
      (readOnly : Option Bool) (type : Ty)

/-- `ItemInfo` of an array type. -/
inductive ItemInfo where
  | mk (documentation : Option Json) (type : Ty)

end

namespace PropertyInfo

def documentation : PropertyInfo → Option Json
  | .mk d _ _ _ => d

def isAttribute : PropertyInfo → Option Bool
  | .mk _ a _ _ => a

def readOnly : PropertyInfo → Option Bool
  | .mk _ _ r _ => r

def type : PropertyInfo → Ty
  | .mk _ _ _ t => t

/-- Write the `isAttribute` flag. -/
def withIsAttribute (p : PropertyInfo) (v : Bool) : PropertyInfo :=
  match p with
  | .mk d _ r t => .mk d (some v) r t

/-- Write the `readOnly` flag. -/
def withReadOnly (p : PropertyInfo) (v : Bool) : PropertyInfo :=
  match p with
  | .mk d a _ t => .mk d a (some v) t

end PropertyInfo

namespace ItemInfo

def documentation : ItemInfo → Option Json
  | .mk d _ => d

def type : ItemInfo → Ty
  | .mk _ t => t

end ItemInfo

/-- `TypeDefinition`: documentation plus a type. -/
structure TypeDefinition where
  documentation : Option Json := none
  type : Ty

/-- `ResourceType`. -/
structure ResourceType where
  typeName : String
  attributes : Option TypeDefinition := none
  definitions : List (String × TypeDefinition) := []
  properties : TypeDefinition

/-- The tag of a node (`node.type` in the source). -/
def Ty.tag : Ty → String
  | .any _ => "any"
  | .unknown _ => "unknown"
  | .boolean _ => "boolean"
  | .integer _ => "integer"
  | .number _ => "number"
  | .null _ => "null"
  | .string _ => "string"
  | .const _ _ => "const"
  | .enum _ _ => "enum"
  | .array _ _ => "array"
  | .object _ _ _ => "object"
  | .record _ _ => "record"
  | .reference _ _ => "reference"
  | .union _ _ => "union"

def Ty.id : Ty → String
  | .any i | .unknown i | .boolean i | .integer i | .number i | .null i
  | .string i | .const i _ | .enum i _ | .array i _ | .object i _ _
  | .record i _ | .reference i _ | .union i _ => i

/-- `isPrimitiveTypeNode`. -/
def isPrimitiveTypeNode : Ty → Bool
  | .boolean _ | .integer _ | .number _ | .string _ => true
  | _ => false

/-- `a.values.every((value, i) => b.values[i] === value)`. -/
def jsonListPointwiseEq : List Json → List Json → Bool
  | [], _ => true
  | _ :: _, [] => false
  | a :: as, b :: bs => Json.jsStrictEq b a && jsonListPointwiseEq as bs

mutual

/-- `isSameType(a, b)`: deep structural equality, ignoring ids, documentation
and classification flags.  The `a === b` reference-equality shortcut of the
source is subsumed: identical values always compare equal case-by-case. -/
def isSameType : Ty → Ty → Bool
  | .array _ (.mk _ at'), .array _ (.mk _ bt) => isSameType at' bt
  | .const _ a, .const _ b => Json.jsStrictEq a b
  | .enum _ a, .enum _ b =>
    a.length == b.length && jsonListPointwiseEq a b
  | .object _ aProps aReq, .object _ bProps bReq =>
    aReq.length == bReq.length && aProps.length == bProps.length &&
    aReq == bReq && isSamePropList aProps bProps
  | .record _ a, .record _ b => isSameType a b
  | .reference _ a, .reference _ b => a == b
  | .union _ a, .union _ b => a.length == b.length && isSameTyList a b
  | a, b => a.tag == b.tag

/-- Pointwise comparison of object property lists: names equal in order and
types `isSameType`. -/
def isSamePropList :
    List (String × PropertyInfo) → List (String × PropertyInfo) → Bool
  | [], _ => true
  | _ :: _, [] => false
  | (an, .mk _ _ _ apt) :: as, (bn, .mk _ _ _ bpt) :: bs =>
    (bn == an) && isSameType apt bpt && isSamePropList as bs

/-- Pointwise comparison of union member lists. -/
def isSameTyList : List Ty → List Ty → Bool
  | [], _ => true
  | _ :: _, [] => false
  | a :: as, b :: bs => isSameType a b && isSameTyList as bs

end

mutual

/-- Weight measure justifying termination of the `simplifyUnionType` worklist
loop: a union node weighs one more than its members together. -/
def unionWeight : Ty → Nat
  | .union _ items => 1 + unionWeightList items
  | _ => 1

def unionWeightList : List Ty → Nat
  | [] => 0
  | t :: ts => unionWeight t + unionWeightList ts

end

theorem unionWeight_pos (t : Ty) : 0 < unionWeight t := by
  cases t <;> simp [unionWeight]

theorem unionWeightList_append (a b : List Ty) :
    unionWeightList (a ++ b) = unionWeightList a + unionWeightList b := by
  induction a with
  | nil => simp [unionWeightList]
  | cons t ts ih => simp [unionWeightList, ih]; omega

/-- The `while (working.length > 0)` loop of `simplifyUnionType`: `items` is
the accumulator of kept members, `working` the worklist.  A union at the head
is unshifted into the worklist; any other head is appended to `items` unless a
structurally equal member was already kept. -/
def simplifyLoop (items : List Ty) : List Ty → List Ty
  | [] => items
  | .union _ uitems :: rest => simplifyLoop items (uitems ++ rest)
  | current :: rest =>
    if items.any (fun x => isSameType x current) then simplifyLoop items rest
    else simplifyLoop (items ++ [current]) rest
termination_by working => unionWeightList working
decreasing_by
  all_goals simp only [unionWeightList, unionWeightList_append, unionWeight]
  · omega
  all_goals (have hw9 := unionWeight_pos current; omega)

/-- `simplifyUnionType(type)`: flatten nested unions, dedup via `isSameType`,
then collapse 0 members to `unknown`, 1 member to itself, and keep a union
(with the original id) otherwise. -/
def simplifyUnionType (id : String) (items : List Ty) : Ty :=
  match simplifyLoop [] items with
  | [] => .unknown id
  | [t] => t
  | ts => .union id ts

/-! ### Characterisation of `simplifyUnionType` (claim C4) -/

/-- Is a node a union? -/
def isUnionTy : Ty → Bool
  | .union _ _ => true
  | _ => false

/-- Specification-side flattening of nested unions, leftmost-innermost — the
order in which the worklist loop visits members. -/
def flattenTys : List Ty → List Ty
  | [] => []
  | .union _ uitems :: rest => flattenTys (uitems ++ rest)
  | t :: rest => t :: flattenTys rest
termination_by working => unionWeightList working
decreasing_by
  all_goals simp only [unionWeightList, unionWeightList_append, unionWeight]
  · omega
  all_goals (have hw9 := unionWeight_pos current; omega)

/-- Specification-side first-occurrence dedup under `isSameType`. -/
def dedupAcc (items : List Ty) : List Ty → List Ty
  | [] => items
  | t :: ts =>
    if items.any (fun x => isSameType x t) then dedupAcc items ts
    else dedupAcc (items ++ [t]) ts

theorem simplifyLoop_cons_nonunion (t : Ty) (h : isUnionTy t = false)
    (acc rest : List Ty) :
    simplifyLoop acc (t :: rest) =
      if acc.any (fun x => isSameType x t) then simplifyLoop acc rest
      else simplifyLoop (acc ++ [t]) rest := by
  cases t
  case union => simp [isUnionTy] at h
  all_goals rw [simplifyLoop]
  all_goals exact fun _ _ hh => Ty.noConfusion hh

theorem flattenTys_cons_nonunion (t : Ty) (h : isUnionTy t = false)
    (rest : List Ty) : flattenTys (t :: rest) = t :: flattenTys rest := by
  cases t
  case union => simp [isUnionTy] at h
  all_goals rw [flattenTys]
  all_goals exact fun _ _ hh => Ty.noConfusion hh

theorem simplifyLoop_eq_dedup_flatten (w acc : List Ty) :
    simplifyLoop acc w = dedupAcc acc (flattenTys w) := by
  generalize hn : unionWeightList w = n
  induction n using Nat.strong_induction_on generalizing w acc with
  | _ n ih =>
    cases w with
    | nil => simp [simplifyLoop, flattenTys, dedupAcc]
    | cons t rest =>
      by_cases hu : isUnionTy t = true
      · obtain ⟨uid, uitems⟩ : ∃ uid uitems, t = .union uid uitems := by
          cases t <;> simp_all [isUnionTy]
        obtain ⟨uitems, rfl⟩ := uitems
        rw [simplifyLoop, flattenTys]
        subst hn
        exact ih _ (by
          simp only [unionWeightList, unionWeightList_append, unionWeight]
          omega) _ _ rfl
      · replace hu : isUnionTy t = false := by simpa using hu
        rw [simplifyLoop_cons_nonunion t hu, flattenTys_cons_nonunion t hu,
          dedupAcc]
        subst hn
        have hlt : unionWeightList rest < unionWeightList (t :: rest) := by
          simp only [unionWeightList]
          have hw8 := unionWeight_pos t
          omega
        split
        · exact ih _ hlt _ _ rfl
        · exact ih _ hlt _ _ rfl

/-- Every member of the flattened list is a non-union. -/
theorem flattenTys_nonUnion (w : List Ty) :
    ∀ t ∈ flattenTys w, isUnionTy t = false := by
  generalize hn : unionWeightList w = n
  induction n using Nat.strong_induction_on generalizing w with
  | _ n ih =>
    cases w with
    | nil => simp [flattenTys]
    | cons t rest =>
      by_cases hu : isUnionTy t = true
      · obtain ⟨uid, uitems⟩ : ∃ uid uitems, t = .union uid uitems := by
          cases t <;> simp_all [isUnionTy]
        obtain ⟨uitems, rfl⟩ := uitems
        rw [flattenTys]
        subst hn
        exact ih _ (by
          simp only [unionWeightList, unionWeightList_append, unionWeight]
          omega) _ rfl
      · replace hu : isUnionTy t = false := by simpa using hu
        rw [flattenTys_cons_nonunion t hu]
        intro x hx
        rcases List.mem_cons.mp hx with h | h
        · subst h; exact hu
        · subst hn
          refine ih _ ?_ _ rfl x h
          simp only [unionWeightList]
          have hw8 := unionWeight_pos t
          omega

/-- Flattening a list of non-unions is the identity. -/
theorem flattenTys_of_nonUnion (w : List Ty)
    (h : ∀ t ∈ w, isUnionTy t = false) : flattenTys w = w := by
  induction w with
  | nil => simp [flattenTys]
  | cons t rest ih =>
    rw [flattenTys_cons_nonunion t (h _ (List.mem_cons_self _ _)),
      ih (fun x hx => h x (List.mem_cons_of_mem _ hx))]

/-- "No earlier kept member matches a later one", the invariant the dedup loop
establishes. -/
def FreshList (l : List Ty) : Prop :=
  l.Pairwise (fun a b => isSameType a b = false)

theorem dedupAcc_pairwise (l : List Ty) (acc : List Ty)
    (hacc : FreshList acc) : FreshList (dedupAcc acc l) := by
  induction l generalizing acc with
  | nil => exact hacc
  | cons t ts ih =>
    rw [dedupAcc]
    by_cases hany : (acc.any fun x => isSameType x t) = true
    · rw [if_pos hany]
      exact ih acc hacc
    · rw [if_neg hany]
      refine ih (acc ++ [t]) ?_
      rw [FreshList, List.pairwise_append]
      refine ⟨hacc, List.pairwise_singleton _ _, ?_⟩
      intro a ha b hb
      rw [List.mem_singleton] at hb
      subst hb
      rw [Bool.not_eq_true, List.any_eq_false] at hany
      simpa using hany a ha

theorem dedupAcc_append (l acc : List Ty) :
    ∃ kept, dedupAcc acc l = acc ++ kept ∧ kept.Sublist l := by
  induction l generalizing acc with
  | nil => exact ⟨[], by simp [dedupAcc]⟩
  | cons t ts ih =>
    rw [dedupAcc]
    by_cases hany : (acc.any fun x => isSameType x t) = true
    · rw [if_pos hany]
      obtain ⟨kept, hk, hs⟩ := ih acc
      exact ⟨kept, hk, hs.cons _⟩
    · rw [if_neg hany]
      obtain ⟨kept, hk, hs⟩ := ih (acc ++ [t])
      exact ⟨t :: kept, by simpa using hk, hs.cons₂ _⟩

/-- A list already fresh with respect to the accumulator passes through the
dedup loop unchanged. -/
theorem dedupAcc_of_fresh (l acc : List Ty)
    (hacross : ∀ a ∈ acc, ∀ b ∈ l, isSameType a b = false)
    (hl : FreshList l) : dedupAcc acc l = acc ++ l := by
  induction l generalizing acc with
  | nil => simp [dedupAcc]
  | cons t ts ih =>
    rw [dedupAcc]
    have hany : (acc.any fun x => isSameType x t) = false := by
      rw [List.any_eq_false]
      intro a ha
      simp [hacross a ha t (List.mem_cons_self _ _)]
    rw [if_neg (by simp [hany])]
    have hacross2 : ∀ a ∈ acc ++ [t], ∀ b ∈ ts, isSameType a b = false := by
      intro a ha b hb
      rcases List.mem_append.mp ha with h | h
      · exact hacross a h b (List.mem_cons_of_mem _ hb)
      · rw [List.mem_singleton] at h
        subst h
        exact List.rel_of_pairwise_cons hl hb
    have hts : FreshList ts := List.Pairwise.of_cons hl
    rw [ih (acc ++ [t]) hacross2 hts]
    simp

theorem beqComm {α : Type} [BEq α] [LawfulBEq α] (a b : α) :
    (a == b) = (b == a) := by
  rw [Bool.eq_iff_iff]
  simp only [beq_iff_eq]
  exact eq_comm

theorem jsStrictEq_comm (a b : Json) : a.jsStrictEq b = b.jsStrictEq a := by
  cases a <;> cases b <;> simp [Json.jsStrictEq, beqComm]

theorem jsonListPointwiseEq_symm :
    ∀ as bs : List Json, as.length = bs.length →
      jsonListPointwiseEq as bs = jsonListPointwiseEq bs as := by
  intro as
  induction as with
  | nil =>
    intro bs h
    cases bs with
    | nil => rfl
    | cons b bs' => simp at h
  | cons a as' ih =>
    intro bs h
    cases bs with
    | nil => simp at h
    | cons b bs' =>
      simp only [jsonListPointwiseEq]
      rw [jsStrictEq_comm, ih bs' (by simpa using h)]


/-- Equations for the tag-comparison fallthrough of `isSameType` on the
simple node kinds. -/
theorem isSameType_any_any (i j : String) :
    isSameType (.any i) (.any j) = true := by
  rw [isSameType]
  · simp [Ty.tag]
  all_goals simp

theorem isSameType_unknown_unknown (i j : String) :
    isSameType (.unknown i) (.unknown j) = true := by
  rw [isSameType]
  · simp [Ty.tag]
  all_goals simp

theorem isSameType_boolean_boolean (i j : String) :
    isSameType (.boolean i) (.boolean j) = true := by
  rw [isSameType]
  · simp [Ty.tag]
  all_goals simp

theorem isSameType_integer_integer (i j : String) :
    isSameType (.integer i) (.integer j) = true := by
  rw [isSameType]
  · simp [Ty.tag]
  all_goals simp

theorem isSameType_number_number (i j : String) :
    isSameType (.number i) (.number j) = true := by
  rw [isSameType]
  · simp [Ty.tag]
  all_goals simp

theorem isSameType_null_null (i j : String) :
    isSameType (.null i) (.null j) = true := by
  rw [isSameType]
  · simp [Ty.tag]
  all_goals simp

theorem isSameType_string_string (i j : String) :
    isSameType (.string i) (.string j) = true := by
  rw [isSameType]
  · simp [Ty.tag]
  all_goals simp

mutual

theorem isSameType_symm (a b : Ty) : isSameType a b = isSameType b a := by
  cases a <;> cases b <;> try (simp only [isSameType, Ty.tag]; decide)
  case any.any i j => rw [isSameType_any_any, isSameType_any_any]
  case unknown.unknown i j => rw [isSameType_unknown_unknown, isSameType_unknown_unknown]
  case boolean.boolean i j => rw [isSameType_boolean_boolean, isSameType_boolean_boolean]
  case integer.integer i j => rw [isSameType_integer_integer, isSameType_integer_integer]
  case number.number i j => rw [isSameType_number_number, isSameType_number_number]
  case null.null i j => rw [isSameType_null_null, isSameType_null_null]
  case string.string i j => rw [isSameType_string_string, isSameType_string_string]
  case const.const i x j y =>
    simp only [isSameType]
    exact jsStrictEq_comm x y
  case enum.enum i xs j ys =>
    simp only [isSameType]
    by_cases h : xs.length = ys.length
    · rw [jsonListPointwiseEq_symm xs ys h, h]
    · have h1 : (xs.length == ys.length) = false := by simpa using h
      have h2 : (ys.length == xs.length) = false := by
        simpa using fun hh => h hh.symm
      rw [h1, h2]
      simp
  case array.array i x j y =>
    obtain ⟨d1, t1⟩ := x
    obtain ⟨d2, t2⟩ := y
    simp only [isSameType]
    exact isSameType_symm t1 t2
  case object.object i ps preq j qs qreq =>
    simp only [isSameType]
    by_cases hreq : preq = qreq
    · by_cases hlen : ps.length = qs.length
      · rw [isSamePropList_symm ps qs hlen, hreq, hlen]
      · have h1 : (ps.length == qs.length) = false := by simpa using hlen
        have h2 : (qs.length == ps.length) = false := by
          simpa using fun hh => hlen hh.symm
        rw [h1, h2]
        simp
    · have h1 : (preq == qreq) = false := by simpa using hreq
      have h2 : (qreq == preq) = false := by
        simpa using fun hh => hreq hh.symm
      rw [h1, h2]
      simp
  case record.record i x j y =>
    simp only [isSameType]
    exact isSameType_symm x y
  case reference.reference i x j y =>
    simp only [isSameType]
    exact beqComm x y
  case union.union i xs j ys =>
    simp only [isSameType]
    by_cases h : xs.length = ys.length
    · rw [isSameTyList_symm xs ys h, h]
    · have h1 : (xs.length == ys.length) = false := by simpa using h
      have h2 : (ys.length == xs.length) = false := by
        simpa using fun hh => h hh.symm
      rw [h1, h2]
      simp
termination_by sizeOf a

theorem isSameTyList_symm :
    ∀ (as bs : List Ty), as.length = bs.length →
      isSameTyList as bs = isSameTyList bs as
  | [], [], _ => rfl
  | [], _ :: _, h => by simp at h
  | _ :: _, [], h => by simp at h
  | a :: as', b :: bs', h => by
    simp only [isSameTyList]
    rw [isSameType_symm a b, isSameTyList_symm as' bs' (by simpa using h)]
termination_by as _ _ => sizeOf as

theorem isSamePropList_symm :
    ∀ (ps qs : List (String × PropertyInfo)), ps.length = qs.length →
      isSamePropList ps qs = isSamePropList qs ps
  | [], [], _ => rfl
  | [], _ :: _, h => by simp at h
  | _ :: _, [], h => by simp at h
  | (pn, .mk pd pa pr pt) :: ps', (qn, .mk qd qa qr qt) :: qs', h => by
    simp only [isSamePropList]
    rw [isSameType_symm pt qt, beqComm qn pn,
      isSamePropList_symm ps' qs' (by simpa using h)]
termination_by ps _ _ => sizeOf ps

end

/-- Every flattened member is represented in the dedup output by an earlier
kept member (for members on which `isSameType` is reflexive, which holds for
every type the walker builds — enum/const values are JSON primitives). -/
theorem dedupAcc_covers (l acc : List Ty) :
    ∀ t ∈ l, isSameType t t = true →
      (dedupAcc acc l).any (fun x => isSameType x t) = true := by
  induction l generalizing acc with
  | nil => simp
  | cons t' ts ih =>
    intro t ht hrefl
    rw [dedupAcc]
    by_cases hany : (acc.any fun x => isSameType x t') = true
    · rw [if_pos hany]
      rcases List.mem_cons.mp ht with h | h
      · subst h
        rw [List.any_eq_true] at hany
        obtain ⟨a, ha, hsame⟩ := hany
        obtain ⟨kept, hk, -⟩ := dedupAcc_append ts acc
        rw [hk, List.any_eq_true]
        exact ⟨a, List.mem_append_left _ ha, hsame⟩
      · exact ih acc t h hrefl
    · rw [if_neg hany]
      rcases List.mem_cons.mp ht with h | h
      · subst h
        obtain ⟨kept, hk, -⟩ := dedupAcc_append ts (acc ++ [t])
        rw [hk, List.any_eq_true]
        refine ⟨t, ?_, hrefl⟩
        simp
      · exact ih (acc ++ [t']) t h hrefl

/-- The kept members of the loop, as used by `simplifyUnionType`'s final
0/1/many dispatch. -/
theorem simplifyLoop_spec (items : List Ty) :
    FreshList (simplifyLoop [] items) ∧
    (simplifyLoop [] items).Sublist (flattenTys items) ∧
    (∀ t ∈ simplifyLoop [] items, isUnionTy t = false) := by
  have hm := simplifyLoop_eq_dedup_flatten items []
  obtain ⟨kept, hk, hs⟩ := dedupAcc_append (flattenTys items) []
  rw [List.nil_append] at hk
  have hsub : (simplifyLoop [] items).Sublist (flattenTys items) := by
    rw [hm, hk]; exact hs
  refine ⟨?_, hsub, ?_⟩
  · rw [hm]; exact dedupAcc_pairwise _ [] List.Pairwise.nil
  · intro t ht
    exact flattenTys_nonUnion items t (hsub.mem ht)

/-- **C4.** `simplifyUnionType` is idempotent — whenever its result is itself
a union, applying it again returns a structurally equal (here: equal) result —
and for every member list containing duplicates under `isSameType` the output
contains no two members that are `isSameType`-equal (in either direction);
moreover the result for a flattened, deduplicated member list of 0 members is
`unknown`, of 1 member is that member, and of 2 or more members is a union
preserving first-occurrence order (the kept members form a sublist of the
flattened member list, and every flattened member matches an earlier kept
one). -/
theorem claim_C4_simplifyUnionType (id : String) (items : List Ty) :
    (∀ id' items', simplifyUnionType id items = .union id' items' →
      simplifyUnionType id' items' = .union id' items') ∧
    ((∃ i j, ∃ hi : i < items.length, ∃ hj : j < items.length, i ≠ j ∧
        isSameType (items.get ⟨i, hi⟩) (items.get ⟨j, hj⟩) = true) →
      (simplifyLoop [] items).Pairwise
        (fun a b => isSameType a b = false ∧ isSameType b a = false)) ∧
    (simplifyLoop [] items = [] → simplifyUnionType id items = .unknown id) ∧
    (∀ t, simplifyLoop [] items = [t] → simplifyUnionType id items = t) ∧
    (2 ≤ (simplifyLoop [] items).length →
      simplifyUnionType id items = .union id (simplifyLoop [] items)) ∧
    (simplifyLoop [] items).Sublist (flattenTys items) ∧
    (∀ t ∈ flattenTys items, isSameType t t = true →
      (simplifyLoop [] items).any (fun x => isSameType x t) = true) := by
  obtain ⟨hfresh, hsub, hnonu⟩ := simplifyLoop_spec items
  have hcover : ∀ t ∈ flattenTys items, isSameType t t = true →
      (simplifyLoop [] items).any (fun x => isSameType x t) = true := by
    intro t ht hrefl
    rw [simplifyLoop_eq_dedup_flatten items []]
    exact dedupAcc_covers _ [] t ht hrefl
  refine ⟨?_, ?_, ?_, ?_, ?_, hsub, hcover⟩
  · -- idempotence
    intro id' items' h
    rw [simplifyUnionType] at h
    rcases hm : simplifyLoop [] items with - | ⟨t1, - | ⟨t2, ts⟩⟩
    · rw [hm] at h
      exact absurd h (by simp)
    · rw [hm] at h
      simp only at h
      have hn8 := hnonu t1 (by rw [hm]; exact List.mem_singleton_self _)
      rw [h] at hn8
      simp [isUnionTy] at hn8
    · rw [hm] at h
      simp only [Ty.union.injEq] at h
      obtain ⟨rfl, rfl⟩ := h
      have hlist : FreshList (t1 :: t2 :: ts) := hm ▸ hfresh
      have hlnonu : ∀ t ∈ t1 :: t2 :: ts, isUnionTy t = false := by
        intro t ht
        exact hnonu t (hm ▸ ht)
      rw [simplifyUnionType, simplifyLoop_eq_dedup_flatten,
        flattenTys_of_nonUnion _ hlnonu,
        dedupAcc_of_fresh _ [] (by simp) hlist]
      simp
  · -- dedup, in both directions via symmetry of `isSameType`
    intro _
    refine List.Pairwise.imp ?_ hfresh
    intro a b hab
    refine ⟨hab, ?_⟩
    rw [isSameType_symm b a]
    exact hab
  · intro hm
    rw [simplifyUnionType, hm]
  · intro t hm
    rw [simplifyUnionType, hm]
  · intro hlen
    rcases hm : simplifyLoop [] items with - | ⟨t1, - | ⟨t2, ts⟩⟩
    · rw [hm] at hlen; simp at hlen
    · rw [hm] at hlen; simp at hlen
    · rw [simplifyUnionType, hm]

/-- Witness for C4 at a concrete duplicate-containing input: the two members
`string "/x"` and `string "/y"` are `isSameType`-equal, the deduplicated
member list is the single first occurrence, and the simplified union collapses
to it. -/
theorem claim_C4_simplifyUnionType_witness :
    (∃ i j, ∃ hi : i < ([Ty.string "/x", Ty.string "/y"] : List Ty).length,
      ∃ hj : j < ([Ty.string "/x", Ty.string "/y"] : List Ty).length, i ≠ j ∧
        isSameType (([Ty.string "/x", Ty.string "/y"] : List Ty).get ⟨i, hi⟩)
          (([Ty.string "/x", Ty.string "/y"] : List Ty).get ⟨j, hj⟩) = true) ∧
    (simplifyLoop [] [Ty.string "/x", Ty.string "/y"]).Pairwise
      (fun a b => isSameType a b = false ∧ isSameType b a = false) ∧
    simplifyUnionType "/u" [Ty.string "/x", Ty.string "/y"] = Ty.string "/x" := by
  have hdup : ∃ i j, ∃ hi : i < ([Ty.string "/x", Ty.string "/y"] : List Ty).length,
      ∃ hj : j < ([Ty.string "/x", Ty.string "/y"] : List Ty).length, i ≠ j ∧
        isSameType (([Ty.string "/x", Ty.string "/y"] : List Ty).get ⟨i, hi⟩)
          (([Ty.string "/x", Ty.string "/y"] : List Ty).get ⟨j, hj⟩) = true := by
    refine ⟨0, 1, by norm_num, by norm_num, by norm_num, ?_⟩
    simpa using isSameType_string_string "/x" "/y"
  have hloop : simplifyLoop [] [Ty.string "/x", Ty.string "/y"] =
      [Ty.string "/x"] := by
    rw [simplifyLoop_cons_nonunion _ (by rfl), if_neg (by simp),
      simplifyLoop_cons_nonunion _ (by rfl),
      if_pos (by simp [isSameType_string_string]), simplifyLoop]
    rfl
  refine ⟨hdup, ?_, ?_⟩
  · exact (claim_C4_simplifyUnionType "/u" _).2.1 hdup
  · exact (claim_C4_simplifyUnionType "/u" _).2.2.2.1 _ hloop

/-! ## src/build-lib/schema-paths.ts -/

/-- `posix.dirname`, for the slash-separated pointer paths used by the
builder (no `.`/`..` normalisation is needed or performed by the source
either). -/
def posixDirname (p : String) : String :=
  if p = "" then "."
  else
    let hasRoot := strStartsWith p "/"
    let comps := (strSplitOn p (Char.ofNat 47)).filter (fun c => c ≠ "")
    match comps with
    | [] => if hasRoot then "/" else "."
    | [_] => if hasRoot then "/" else "."
    | _ => (if hasRoot then "/" else "") ++ strJoin "/" comps.dropLast

/-- `posix.basename`. -/
def posixBasename (p : String) : String :=
  match ((strSplitOn p (Char.ofNat 47)).filter (fun c => c ≠ "")).getLast? with
  | some s => s
  | none => ""

/-- The `for (;;)` parent-collection loop of `getBreadcrumbs`.  `dirname`
strictly shortens the path until it reaches a fixed point, so `p.length + 2`
steps of fuel always suffice. -/
def breadcrumbParents (fuel : Nat) (current : String) : List String :=
  match fuel with
  | 0 => []
  | fuel + 1 =>
    let next := posixDirname current
    if next = "/properties" ∨ next = current then []
    else
      (if posixBasename next ≠ "*" then [next] else []) ++
        breadcrumbParents fuel next

/-- First-occurrence dedup, i.e. `new Set(...)` insertion order. -/
def dedupStrings (l : List String) : List String :=
  l.foldl (fun acc s => if s ∈ acc then acc else acc ++ [s]) []

/-- Depth used by the breadcrumb comparator: `path.split("/").length`. -/
def pathDepth (p : String) : Nat := (strSplitOn p (Char.ofNat 47)).length

/-- Stable insertion into a list sorted by strictly decreasing depth: placed
after every element of greater or equal depth, as a stable JS sort would. -/
def insertByDepthDesc (x : String) : List String → List String
  | [] => [x]
  | y :: ys =>
    if pathDepth y < pathDepth x then x :: y :: ys
    else y :: insertByDepthDesc x ys

/-- Stable sort by decreasing depth (`(a, b) => b.split("/").length -
a.split("/").length` under a stable `Array.prototype.sort`). -/
def sortByDepthDesc (l : List String) : List String :=
  l.foldl (fun acc x => insertByDepthDesc x acc) []

/-- `getBreadcrumbs(paths)`: all non-leaf ancestor paths, minus the explicit
paths themselves, deepest first. -/
def getBreadcrumbs (paths : List String) : List String :=
  let breadcrumbs :=
    paths.flatMap (fun path => breadcrumbParents (path.length + 2) path)
  let unique := (dedupStrings breadcrumbs).filter (fun p => p ∉ paths)
  sortByDepthDesc unique

/-! ## src/build-lib/extra-attributes.ts -/

/-- The hand-maintained `ExtraAttributes` exception table: legacy attributes
that share a name with a configurable property. -/
def ExtraAttributes : List (String × List String) := [
  ("AWS::Amplify::Branch", ["BranchName"]),
  ("AWS::Amplify::Domain", ["DomainName", "AutoSubDomainCreationPatterns",
    "AutoSubDomainIAMRole", "EnableAutoSubDomain"]),
  ("AWS::AppMesh::GatewayRoute", ["GatewayRouteName", "MeshName", "MeshOwner",
    "VirtualGatewayName"]),
  ("AWS::AppMesh::Mesh", ["MeshName"]),
  ("AWS::AppMesh::Route", ["MeshName", "MeshOwner", "RouteName",
    "VirtualRouterName"]),
  ("AWS::AppMesh::VirtualGateway", ["MeshName", "MeshOwner",
    "VirtualGatewayName"]),
  ("AWS::AppMesh::VirtualNode", ["MeshName", "MeshOwner", "VirtualNodeName"]),
  ("AWS::AppMesh::VirtualRouter", ["MeshName", "MeshOwner",
    "VirtualRouterName"]),
  ("AWS::AppMesh::VirtualService", ["MeshName", "MeshOwner",
    "VirtualServiceName"]),
  ("AWS::AppSync::DataSource", ["Name"]),
  ("AWS::AppSync::DomainName", ["DomainName"]),
  ("AWS::AppSync::FunctionConfiguration", ["DataSourceName", "Name"]),
  ("AWS::AppSync::Resolver", ["FieldName", "TypeName"]),
  ("AWS::Backup::BackupSelection", ["BackupPlanId"]),
  ("AWS::Backup::BackupVault", ["BackupVaultName"]),
  ("AWS::Cloud9::EnvironmentEC2", ["Name"]),
  ("AWS::CloudWatch::InsightRule", ["RuleName"]),
  ("AWS::CodeArtifact::Repository", ["DomainName"]),
  ("AWS::DocDB::DBCluster", ["Port"]),
  ("AWS::EC2::CapacityReservation", ["AvailabilityZone", "InstanceType",
    "Tenancy"]),
  ("AWS::EC2::Instance", ["AvailabilityZone"]),
  ("AWS::EC2::SecurityGroup", ["VpcId"]),
  ("AWS::EC2::Subnet", ["AvailabilityZone", "AvailabilityZoneId", "CidrBlock",
    "VpcId", "OutpostArn"]),
  ("AWS::EC2::VPC", ["CidrBlock"]),
  ("AWS::EFS::MountTarget", ["IpAddress"]),
  ("AWS::EKS::Nodegroup", ["ClusterName", "NodegroupName"]),
  ("AWS::ElasticLoadBalancingV2::LoadBalancer", ["SecurityGroups"]),
  ("AWS::Events::EventBus", ["Name"]),
  ("AWS::EventSchemas::Registry", ["RegistryName"]),
  ("AWS::EventSchemas::Schema", ["SchemaName"]),
  ("AWS::GameLift::GameSessionQueue", ["Name"]),
  ("AWS::GameLift::MatchmakingConfiguration", ["Name"]),
  ("AWS::GameLift::MatchmakingRuleSet", ["Name"]),
  ("AWS::Grafana::Workspace", ["GrafanaVersion"]),
  ("AWS::Greengrass::ConnectorDefinition", ["Name"]),
  ("AWS::Greengrass::CoreDefinition", ["Name"]),
  ("AWS::Greengrass::DeviceDefinition", ["Name"]),
  ("AWS::Greengrass::FunctionDefinition", ["Name"]),
  ("AWS::Greengrass::Group", ["Name", "RoleArn"]),
  ("AWS::Greengrass::LoggerDefinition", ["Name"]),
  ("AWS::Greengrass::ResourceDefinition", ["Name"]),
  ("AWS::Greengrass::SubscriptionDefinition", ["Name"]),
  ("AWS::ImageBuilder::Component", ["Name"]),
  ("AWS::ImageBuilder::ContainerRecipe", ["Name"]),
  ("AWS::ImageBuilder::DistributionConfiguration", ["Name"]),
  ("AWS::ImageBuilder::ImagePipeline", ["Name"]),
  ("AWS::ImageBuilder::ImageRecipe", ["Name"]),
  ("AWS::ImageBuilder::InfrastructureConfiguration", ["Name"]),
  ("AWS::Kinesis::StreamConsumer", ["ConsumerName", "StreamARN"]),
  ("AWS::ManagedBlockchain::Member", ["NetworkId"]),
  ("AWS::ManagedBlockchain::Node", ["MemberId", "NetworkId"]),
  ("AWS::MediaConvert::JobTemplate", ["Name"]),
  ("AWS::MediaConvert::Preset", ["Name"]),
  ("AWS::MediaConvert::Queue", ["Name"]),
  ("AWS::MediaLive::Input", ["Destinations", "Sources"]),
  ("AWS::Neptune::DBCluster", ["Port"]),
  ("AWS::OpsWorks::Instance", ["AvailabilityZone"]),
  ("AWS::OpsWorks::UserProfile", ["SshUsername"]),
  ("AWS::RDS::DBInstance", ["DBSystemId"]),
  ("AWS::RDS::DBParameterGroup", ["DBParameterGroupName"]),
  ("AWS::RoboMaker::RobotApplication", ["CurrentRevisionId"]),
  ("AWS::RoboMaker::SimulationApplication", ["CurrentRevisionId"]),
  ("AWS::Route53Resolver::ResolverEndpoint", ["Name", "Direction"]),
  ("AWS::Route53Resolver::ResolverRule", ["DomainName", "Name",
    "ResolverEndpointId", "TargetIps"]),
  ("AWS::Route53Resolver::ResolverRuleAssociation", ["Name", "ResolverRuleId",
    "VPCId"]),
  ("AWS::S3::AccessPoint", ["Name"]),
  ("AWS::SageMaker::CodeRepository", ["CodeRepositoryName"]),
  ("AWS::SageMaker::Endpoint", ["EndpointName"]),
  ("AWS::SageMaker::EndpointConfig", ["EndpointConfigName"]),
  ("AWS::SageMaker::Model", ["ModelName"]),
  ("AWS::SageMaker::NotebookInstance", ["NotebookInstanceName"]),
  ("AWS::SageMaker::NotebookInstanceLifecycleConfig",
    ["NotebookInstanceLifecycleConfigName"]),
  ("AWS::SageMaker::Workteam", ["WorkteamName"]),
  ("AWS::ServiceDiscovery::Service", ["Name"]),
  ("AWS::SNS::Topic", ["TopicName"]),
  ("AWS::SQS::Queue", ["QueueName"]),
  ("AWS::SSM::Parameter", ["Type", "Value"]),
  ("AWS::StepFunctions::Activity", ["Name"]),
  ("AWS::Transfer::User", ["ServerId", "UserName"])]

/-! ## src/build-lib/resource-builder.ts — builder state -/

/-- A reported schema problem (`SchemaProblemReporter.warn`); `message` keeps
the format string, arguments are not rendered. -/
structure Warning where
  location : String
  message : String

/-- `ResourceDocumenter`: three optional documentation lookups.  The default
documenter used by the builder when none is supplied is `{}`, i.e. all three
absent. -/
structure Documenter where
  getAttributeDocs : Option (String → Option String → Option Json) := none
  getDefinitionDocs : Option (String → String → Option String → Option Json) := none
  getResourceDocs : Option (String → Option String → Option Json) := none

/-- Runtime errors: `assert` failures abort the current document;
`typeError` models a thrown TypeError (`in` applied to a primitive);
`fuelOut` models non-termination (unbounded recursion) of the original. -/
inductive BErr where
  | assertFail (msg : String)
  | typeError (msg : String)
  | fuelOut

/-- The mutable state of a `ResourceBuilder`: the read-only resource schema
and documenter, the `ResourceType` under construction (`#root`), the warning
log and the extra-key suppression set. -/
structure BState where
  resourceSchema : Json
  typeName : String
  documenter : Documenter
  definitions : List (String × TypeDefinition)
  propertiesDef : TypeDefinition
  attributes : Option TypeDefinition
  warnings : List Warning
  ignoreExtraKeyLocations : List String

/-- `#warn(location, format, ...)`: prefix the location with the type name
and log. -/
def warn (s : BState) (location format : String) : BState :=
  { s with warnings := s.warnings ++ [⟨s.typeName ++ location, format⟩] }

/-- `SchemaDocumentationKeys`, in source order. -/
def SchemaDocumentationKeys : List String :=
  ["$comment", "default", "description", "examples", "exclusiveMaximum",
   "exclusiveMinimum", "format", "insertionOrder", "maximum", "maxItems",
   "maxLength", "maxProperties", "minimum", "minItems", "minLength",
   "minProperties", "multipleOf", "pattern", "relationshipRef", "title",
   "uniqueItems"]

/-- `IgnorableKeys`. -/
def IgnorableKeys : List String := ["dependencies"]

/-- `RelevantKeys[tag]`. -/
def RelevantKeys : String → List String
  | "any" => []
  | "array" => ["arrayType", "insertionOrder", "items", "maxItems",
      "maxLength", "minItems", "minLength", "type", "uniqueItems"]
  | "boolean" => ["type"]
  | "const" => ["const", "type"]
  | "enum" => ["enum", "type"]
  | "integer" => ["maximum", "minimum", "type"]
  | "null" => ["type"]
  | "number" => ["maximum", "minimum", "type"]
  | "object" => ["additionalProperties", "anyOf", "oneOf", "properties",
      "required", "type"]
  | "record" => ["additionalProperties", "patternProperties", "type"]
  | "reference" => ["$ref"]
  | "string" => ["format", "maxLength", "minLength", "pattern", "type"]
  | "union" => ["anyOf", "oneOf"]
  | _ => []

/-- `posix.join` for two segments, for the absolute pointer locations the
builder builds (`join("/", "x") = "/x"`). -/
def joinPath (a b : String) : String :=
  if strEndsWith a "/" then a ++ b else a ++ "/" ++ b

/-- Three-segment `posix.join`. -/
def joinPath3 (a b c : String) : String := joinPath (joinPath a b) c

/-- `isJsonPrimitive`. -/
def isJsonPrimitive : Json → Bool
  | .null | .bool _ | .num _ | .str _ => true
  | _ => false

/-- `schema.type === t` for a string tag `t`. -/
def typeIs (schema : Json) (t : String) : Bool :=
  match schema.get "type" with
  | some (.str s) => s == t
  | _ => false

/-- `isObjectSchema`. -/
def isObjectSchema (schema : Json) : Bool :=
  (typeIs schema "object" || (schema.get "type").isNone) &&
    (schema.get "properties").isSome

/-- `isRecordSchema`. -/
def isRecordSchema (schema : Json) : Bool :=
  (typeIs schema "object" && (schema.get "properties").isNone) ||
    ((schema.get "type").isNone && (schema.get "patternProperties").isSome)

/-- `isStringSchema`. -/
def isStringSchema (schema : Json) : Bool :=
  typeIs schema "string" ||
    ((schema.get "type").isNone &&
      ((schema.get "format").isSome || (schema.get "pattern").isSome))

/-- `\d+`. -/
def isDigits (s : String) : Bool := s ≠ "" && s.data.all Char.isDigit

/-- Consume `(allOf|anyOf|oneOf)/<digits>` segment pairs (the middle group of
`parsePath`'s regular expression). -/
def eatCombinators : List String → List String
  | "allOf" :: d :: rest =>
    if isDigits d then eatCombinators rest else "allOf" :: d :: rest
  | "anyOf" :: d :: rest =>
    if isDigits d then eatCombinators rest else "anyOf" :: d :: rest
  | "oneOf" :: d :: rest =>
    if isDigits d then eatCombinators rest else "oneOf" :: d :: rest
  | l => l

/-- `parsePath(path)`: match
`^(/definitions/<name>(/(allOf|anyOf|oneOf)/\d+)*)?(/properties/<name>)?$`
returning `(definitionName, propertyName)`; `(none, none)` when the whole
path does not match. -/
def parsePath (path : String) : Option String × Option String :=
  match strSplitOn path (Char.ofNat 47) with
  | "" :: rest =>
    let (definitionName, rest) :=
      match rest with
      | "definitions" :: name :: rest' =>
        if name ≠ "" then (some name, eatCombinators rest')
        else (none, "definitions" :: name :: rest')
      | _ => (none, rest)
    match rest with
    | [] => (definitionName, none)
    | ["properties", name] =>
      if name ≠ "" then (definitionName, some name) else (none, none)
    | _ => (none, none)
  | _ => (none, none)

/-- `#warnExtraKeys(schema, type, location)`. -/
def warnExtraKeys (s : BState) (schema : Json)
    (type : String ⊕ List String) (location : String) : BState :=
  if location ∈ s.ignoreExtraKeyLocations then s
  else
    let allowed :=
      (match type with
        | .inl t => RelevantKeys t
        | .inr ts => ts.flatMap RelevantKeys) ++
      IgnorableKeys ++ SchemaDocumentationKeys ++
      (if type = .inl "reference" then ["type"] else []) ++
      (match schema.get "additionalProperties" with
        | some (.bool false) => ["additionalProperties"]
        | _ => []) ++
      (if type = .inl "record" then
        match schema.get "required" with
        | some (.arr []) => ["required"]
        | _ => []
      else [])
    let extraKeys := schema.keys.filter (fun k => k ∉ allowed)
    if extraKeys.length > 0 then
      warn s location "ignored extra keys %O for type %O"
    else s

/-- `#mergeSchemas(objects, options, location)`: merge, reporting conflicts as
a warning. -/
def mergeSchemas (s : BState) (objects : List Json)
    (options : MergeObjectsOptions) (location : String) :
    Except BErr (Json × BState) :=
  match mergeObjects objects options with
  | none => .error (.assertFail "expected non-empty array of objects")
  | some (value, conflicts) =>
    if conflicts.length > 0 then
      .ok (value, warn s location "found conflicts while merging schemas for keys")
    else .ok (value, s)

/-- Options used for `allOf` / object-combinator merging. -/
def requiredMergeOptions : MergeObjectsOptions :=
  { mergeArrayValues := some (.inr ["required"]), uniqueArrayValues := some true }

/-- Options used for documentation-bag merging. -/
def docsMergeOptions : MergeObjectsOptions :=
  { mergeArrayValues :=
      some (.inr ["examples", "format", "pattern", "relationshipRef"]) }

/-- `#mergeAllOf(schema, location)`. -/
def mergeAllOf (s : BState) (schema : Json) (location : String) :
    Except BErr (Json × BState) :=
  match schema.get "allOf" with
  | none => .ok (schema, s)
  | some (.arr allOf) =>
    mergeSchemas s (schema.del "allOf" :: allOf) requiredMergeOptions location
  | some _ => .error (.typeError "allOf is not iterable")

/-- Rename `maxLength`/`minLength` to `maxItems`/`minItems` on the extracted
documentation when the shape is an array. -/
def fixArrayLengthDocs (documentation : Json) : Json :=
  let d1 :=
    match documentation.get "maxLength" with
    | some v => (documentation.set "maxItems" v).del "maxLength"
    | none => documentation
  match d1.get "minLength" with
  | some v => (d1.set "minItems" v).del "minLength"
  | none => d1

/-- Result of `#extractDocumentation`: optional documentation bag, optional
type-shape fragment. -/
abbrev ExtractResult := Option Json × Option Json

mutual

/-- `#extractDocumentation(schema, location)`: merge `allOf`, split the
fragment into documentation and type-shape keys, fold `anyOf`/`oneOf`
branches that contribute no shape into the documentation bag, then apply
documenter overrides. -/
def extractDocumentation :
    Nat → BState → Json → String → Except BErr (ExtractResult × BState)
  | 0, _, _, _ => .error .fuelOut
  | fuel + 1, s, schema, location =>
    match mergeAllOf s schema location with
    | .error e => .error e
    | .ok (merged, s) =>
      let (documentation, type0) := splitPick merged SchemaDocumentationKeys
      let documentation :=
        if typeIs type0 "array" then fixArrayLengthDocs documentation
        else documentation
      -- anyOf branches that contribute no shape
      let anyStep :
          Except BErr ((Json × List Json) × BState) :=
        if Json.truthyOpt (type0.get "anyOf") then
          match type0.get "anyOf" with
          | some (.arr children) =>
            match extractDocList fuel s children location with
            | .error e => .error e
            | .ok (childResults, s) =>
              if childResults.any (fun r => r.2.isSome) then
                .ok ((type0, []), s)
              else
                .ok ((type0.del "anyOf",
                  childResults.filterMap (fun r => r.1)), s)
          | _ => .error (.typeError "anyOf is not an array")
        else .ok ((type0, []), s)
      match anyStep with
      | .error e => .error e
      | .ok ((type1, union1), s) =>
        let oneStep :
            Except BErr ((Json × List Json) × BState) :=
          if Json.truthyOpt (type1.get "oneOf") then
            match type1.get "oneOf" with
            | some (.arr children) =>
              match extractDocList fuel s children location with
              | .error e => .error e
              | .ok (childResults, s) =>
                if childResults.any (fun r => r.2.isSome) then
                  .ok ((type1, []), s)
                else
                  .ok ((type1.del "oneOf",
                    childResults.filterMap (fun r => r.1)), s)
            | _ => .error (.typeError "oneOf is not an array")
          else .ok ((type1, []), s)
        match oneStep with
        | .error e => .error e
        | .ok ((type2, union2), s) =>
          match mergeSchemas s (documentation :: (union1 ++ union2))
              docsMergeOptions location with
          | .error e => .error e
          | .ok (mergedDocs, s) =>
            let (definitionName, propertyName) := parsePath location
            let extraDocs : Option Json :=
              match definitionName with
              | some dn =>
                match s.documenter.getDefinitionDocs with
                | some f => f s.typeName dn propertyName
                | none => none
              | none =>
                if location = "/" ∨ propertyName.isSome then
                  match s.documenter.getResourceDocs with
                  | some f => f s.typeName propertyName
                  | none => none
                else none
            let mergedDocs :=
              match extraDocs with
              | some extra => if extra.truthy then assign mergedDocs extra
                              else mergedDocs
              | none => mergedDocs
            .ok ((if mergedDocs.keys.length > 0 then some mergedDocs else none,
                  if type2.keys.length > 0 then some type2 else none), s)

/-- `anyOf.map((x) => this.#extractDocumentation(x, location))`. -/
def extractDocList :
    Nat → BState → List Json → String →
      Except BErr (List ExtractResult × BState)
  | 0, _, _, _ => .error .fuelOut
  | _ + 1, s, [], _ => .ok ([], s)
  | fuel + 1, s, x :: xs, location =>
    match extractDocumentation fuel s x location with
    | .error e => .error e
    | .ok (r, s) =>
      match extractDocList fuel s xs location with
      | .error e => .error e
      | .ok (rs, s) => .ok (r :: rs, s)

end

/-- `x === y` on two possibly-undefined values (`undefined === undefined` is
true). -/
def optStrictEq : Option Json → Option Json → Bool
  | none, none => true
  | some a, some b => Json.jsStrictEq a b
  | _, _ => false

/-- A simplified `encodeURIComponent`: percent-encodes ASCII characters
outside the unreserved set; only used to build diagnostic location ids. -/
def encodeURIComponent (str : String) : String :=
  let hexDigits := "0123456789ABCDEF".toList
  let unreserved := fun (c : Char) =>
    c.isAlphanum || c ∈ ['-', '_', '.', '!', '~', '*', Char.ofNat 39, '(', ')']
  str.data.foldl
    (fun acc c =>
      if unreserved c then acc.push c
      else
        let n := c.toNat % 256
        ((acc.push (Char.ofNat 37)).push
          (hexDigits.getD (n / 16) (Char.ofNat 48))).push
          (hexDigits.getD (n % 16) (Char.ofNat 48)))
    ""

/-- `#walkBooleanType`. -/
def walkBooleanType (s : BState) (schema : Json) (location : String) :
    Except BErr (Ty × BState) :=
  if typeIs schema "boolean" then
    .ok (.boolean location, warnExtraKeys s schema (.inl "boolean") location)
  else .error (.assertFail "expected boolean schema")

/-- `#walkNullType`. -/
def walkNullType (s : BState) (schema : Json) (location : String) :
    Except BErr (Ty × BState) :=
  if typeIs schema "null" then
    .ok (.null location, warnExtraKeys s schema (.inl "null") location)
  else .error (.assertFail "expected null schema")

/-- `#walkNumberType`: keeps the schema's own `integer`/`number` tag. -/
def walkNumberType (s : BState) (schema : Json) (location : String) :
    Except BErr (Ty × BState) :=
  if typeIs schema "integer" then
    .ok (.integer location, warnExtraKeys s schema (.inl "integer") location)
  else if typeIs schema "number" then
    .ok (.number location, warnExtraKeys s schema (.inl "number") location)
  else .error (.assertFail "expected integer or number schema")

/-- `#walkStringType`. -/
def walkStringType (s : BState) (schema : Json) (location : String) :
    Except BErr (Ty × BState) :=
  if typeIs schema "string" || (schema.get "type").isNone then
    .ok (.string location, warnExtraKeys s schema (.inl "string") location)
  else .error (.assertFail "expected a string schema")

/-- `#walkConstType`. -/
def walkConstType (s : BState) (schema : Json) (location : String) :
    Except BErr (Ty × BState) :=
  match schema.get "const" with
  | some v =>
    if isJsonPrimitive v then
      .ok (.const location v, warnExtraKeys s schema (.inl "const") location)
    else .error (.assertFail "expected const schema with primitive value")
  | none => .error (.assertFail "expected const schema with primitive value")

/-- `#walkEnumType`. -/
def walkEnumType (s : BState) (schema : Json) (location : String) :
    Except BErr (Ty × BState) :=
  match schema.get "enum" with
  | some (.arr vs) =>
    if vs.all isJsonPrimitive then
      .ok (.enum location vs, warnExtraKeys s schema (.inl "enum") location)
    else .error (.assertFail "expected enum schema with primitive values")
  | some _ => .error (.typeError "enum.every is not a function")
  | none => .error (.assertFail "expected enum schema with primitive values")

/-- Outcome of walking the fragment pointed to by a non-definition `$ref`. -/
inductive ResolveOutcome where
  | ok (j : Json)
  | miss
  | typeErr

/-- One step of the `$ref` resolution loop: `part in resolved` followed by
`resolved = resolved[part]`.  `in` on a primitive throws a TypeError; array
membership covers indices and `length` (prototype-chain properties are not
modelled). -/
def resolveStep (resolved : Json) (part : String) : ResolveOutcome :=
  match resolved with
  | .obj fields =>
    match fields.lookup part with
    | some v => .ok v
    | none => .miss
  | .arr xs =>
    if part = "length" then .ok (.num xs.length)
    else
      match strToNat? part with
      | some i =>
        if part = toString i then
          match xs.get? i with
          | some v => .ok v
          | none => .miss
        else .miss
      | none => .miss
  | _ => .typeErr

/-- The `for (const part of schema.$ref.slice(2).split("/"))` loop. -/
def resolveRefPath : Json → List String → ResolveOutcome
  | resolved, [] => .ok resolved
  | resolved, part :: rest =>
    match resolveStep resolved part with
    | .ok v => resolveRefPath v rest
    | .miss => .miss
    | .typeErr => .typeErr

/-- Does the `$ref` string match `/^#\/definitions\/([^/]+)$/`?  If so, the
captured definition name. -/
def definitionRefName (r : String) : Option String :=
  if strStartsWith r "#/definitions/" then
    let name := r.drop "#/definitions/".length
    if name ≠ "" && !(strContainsChar name (Char.ofNat 47)) then some name else none
  else none

/-- Add to / remove from the `#ignoreExtraKeyLocations` set. -/
def addIgnoreLocation (s : BState) (location : String) : BState :=
  if location ∈ s.ignoreExtraKeyLocations then s
  else { s with ignoreExtraKeyLocations := s.ignoreExtraKeyLocations ++ [location] }

def removeIgnoreLocation (s : BState) (location : String) : BState :=
  { s with ignoreExtraKeyLocations :=
      s.ignoreExtraKeyLocations.filter (fun l => l ≠ location) }

/-- `schema.required ?? []`, keeping the string entries (the schema type
declares `string[]`). -/
def requiredOf (schema : Json) : List String :=
  match schema.get "required" with
  | some (.arr xs) =>
    xs.filterMap (fun j => match j with | .str n => some n | _ => none)
  | _ => []

mutual

/-- `#walkType(schema, location)`: the dispatch over the recognised schema
shapes, in source priority order.  The first two checks fold `anyOf`/`oneOf`
schemas whose branches all repeat the root `type`. -/
def walkType : Nat → BState → Json → String → Except BErr (Ty × BState)
  | 0, _, _, _ => .error .fuelOut
  | fuel + 1, s, schema, location =>
    if schema.keys.length = 0 then .ok (.any location, s)
    else if (schema.get "anyOf").isSome ∧ schema.keys.length = 2 ∧
        Json.truthyOpt (schema.get "type") then
      match schema.get "anyOf" with
      | some (.arr xs) =>
        if xs.all (fun x => optStrictEq (x.get "type") (schema.get "type")) then
          walkType fuel s (schema.del "type") location
        else walkTypeDispatch fuel s schema location
      | some _ => .error (.typeError "anyOf.every is not a function")
      | none => walkTypeDispatch fuel s schema location
    else if (schema.get "oneOf").isSome ∧ schema.keys.length = 2 ∧
        Json.truthyOpt (schema.get "type") then
      match schema.get "oneOf" with
      | some (.arr xs) =>
        if xs.all (fun x => optStrictEq (x.get "type") (schema.get "type")) then
          walkType fuel s (schema.del "type") location
        else walkTypeDispatch fuel s schema location
      | some _ => .error (.typeError "oneOf.every is not a function")
      | none => walkTypeDispatch fuel s schema location
    else walkTypeDispatch fuel s schema location

/-- The priority chain of `#walkType` after the combinator folds. -/
def walkTypeDispatch : Nat → BState → Json → String → Except BErr (Ty × BState)
  | 0, _, _, _ => .error .fuelOut
  | fuel + 1, s, schema, location =>
    if (schema.get "$ref").isSome then walkRefType fuel s schema location
    else if (schema.get "const").isSome then walkConstType s schema location
    else if (schema.get "enum").isSome then walkEnumType s schema location
    else if typeIs schema "array" then walkArrayType fuel s schema location
    else if (match schema.get "type" with | some (.arr _) => true | _ => false)
      then walkMultiType fuel s schema location
    else if typeIs schema "boolean" then walkBooleanType s schema location
    else if typeIs schema "integer" || typeIs schema "number" then
      walkNumberType s schema location
    else if typeIs schema "null" then walkNullType s schema location
    else if isStringSchema schema then walkStringType s schema location
    else if isObjectSchema schema || isRecordSchema schema then
      walkObjectType fuel s schema location
    else if (schema.get "anyOf").isSome ∨ (schema.get "oneOf").isSome then
      walkUnion fuel s schema location
    else .ok (.unknown location, warn s location "unknown schema type")

/-- `#walkRefType(schema, location)`. -/
def walkRefType : Nat → BState → Json → String → Except BErr (Ty × BState)
  | 0, _, _, _ => .error .fuelOut
  | fuel + 1, s, schema, location =>
    match schema.get "$ref" with
    | none => .error (.assertFail "expected a ref schema")
    | some refVal =>
      if refVal.truthy then
        let s := warnExtraKeys s schema (.inl "reference") location
        match refVal with
        | .str r =>
          match definitionRefName r with
          | some name => .ok (.reference location (.str name), s)
          | none =>
            if !(strStartsWith r "#/") then
              .ok (.unknown location, warn s location "invalid reference")
            else
              match resolveRefPath s.resourceSchema (strSplitOn (r.drop 2) (Char.ofNat 47)) with
              | .miss =>
                .ok (.unknown location, warn s location "invalid reference")
              | .typeErr =>
                .error (.typeError "cannot use in operator on a primitive")
              | .ok resolved => walkType fuel s resolved (r.drop 1)
        | _ => .error (.typeError "ref is not a string")
      else .error (.assertFail "expected a ref schema")

/-- `#walkArrayType(schema, location)`. -/
def walkArrayType : Nat → BState → Json → String → Except BErr (Ty × BState)
  | 0, _, _, _ => .error .fuelOut
  | fuel + 1, s, schema, location =>
    if typeIs schema "array" then
      let s := warnExtraKeys s schema (.inl "array") location
      let itemsLocation := joinPath location "items"
      match schema.get "items" with
      | some items =>
        if items.truthy then
          match extractDocumentation fuel s items itemsLocation with
          | .error e => .error e
          | .ok ((documentation, type0), s) =>
            match walkType fuel s (type0.getD jsEmpty) itemsLocation with
            | .error e => .error e
            | .ok (ty, s) =>
              .ok (.array location (.mk (some (documentation.getD jsEmpty)) ty), s)
        else .ok (.array location (.mk none (.any itemsLocation)), s)
      | none => .ok (.array location (.mk none (.any itemsLocation)), s)
    else .error (.assertFail "expected array schema")

/-- `#walkRecordType(schema, location)`. -/
def walkRecordType : Nat → BState → Json → String → Except BErr (Ty × BState)
  | 0, _, _, _ => .error .fuelOut
  | fuel + 1, s, schema, location =>
    if isRecordSchema schema then
      let s := warnExtraKeys s schema (.inl "record") location
      if Json.truthyOpt (schema.get "additionalProperties") then
        .error (.assertFail "unexpected additionalProperties")
      else
        let propLocation := joinPath location "patternProperties"
        if Json.truthyOpt (schema.get "patternProperties") then
          match walkPatternTypes fuel s
              ((schema.get "patternProperties").getD jsEmpty).entries
              propLocation with
          | .error e => .error e
          | .ok (types, s) =>
            .ok (.record location (simplifyUnionType propLocation types), s)
        else .ok (.record location (.any propLocation), s)
    else .error (.assertFail "expected record type")

/-- The `patternProperties` loop of `#walkRecordType`. -/
def walkPatternTypes : Nat → BState → List (String × Json) → String →
    Except BErr (List Ty × BState)
  | 0, _, _, _ => .error .fuelOut
  | _ + 1, s, [], _ => .ok ([], s)
  | fuel + 1, s, (pattern, patternSchema) :: rest, propLocation =>
    match walkType fuel s patternSchema
        (joinPath propLocation (encodeURIComponent pattern)) with
    | .error e => .error e
    | .ok (ty, s) =>
      match walkPatternTypes fuel s rest propLocation with
      | .error e => .error e
      | .ok (tys, s) => .ok (ty :: tys, s)

/-- `#walkMultiType(schema, location)`: a schema whose `type` is an array of
type names. -/
def walkMultiType : Nat → BState → Json → String → Except BErr (Ty × BState)
  | 0, _, _, _ => .error .fuelOut
  | fuel + 1, s, schema, location =>
    match schema.get "type" with
    | some (.arr []) => .error (.assertFail "expected a non-empty array for type")
    | some (.arr [t]) => walkType fuel s (schema.set "type" t) location
    | some (.arr types) =>
      let s := addIgnoreLocation s location
      match walkMultiItems fuel s types schema location with
      | .error e => .error e
      | .ok (items, s) =>
        let s := removeIgnoreLocation s location
        let s := warnExtraKeys s schema (.inr (items.map Ty.tag)) location
        .ok (simplifyUnionType location items, s)
    | _ => .error (.assertFail "expected a non-empty array for type")

/-- The per-name loop of `#walkMultiType`. -/
def walkMultiItems : Nat → BState → List Json → Json → String →
    Except BErr (List Ty × BState)
  | 0, _, _, _, _ => .error .fuelOut
  | _ + 1, s, [], _, _ => .ok ([], s)
  | fuel + 1, s, t :: ts, schema, location =>
    match walkType fuel s (schema.set "type" t) location with
    | .error e => .error e
    | .ok (ty, s) =>
      match walkMultiItems fuel s ts schema location with
      | .error e => .error e
      | .ok (tys, s) => .ok (ty :: tys, s)

/-- `#walkObjectType(schema, location)`: merges `allOf`, fans `anyOf`/`oneOf`
out into a union of object shapes, falls back to a record when there are no
explicit `properties`. -/
def walkObjectType : Nat → BState → Json → String → Except BErr (Ty × BState)
  | 0, _, _, _ => .error .fuelOut
  | fuel + 1, s, schema, location =>
    if typeIs schema "object" || (schema.get "type").isNone then
      if Json.truthyOpt (schema.get "allOf") then
        match mergeAllOf s schema location with
        | .error e => .error e
        | .ok (merged, s) => walkObjectType fuel s merged location
      else if (schema.get "anyOf").isSome then
        match schema.get "anyOf" with
        | some (.arr items) =>
          match walkCombineItems fuel s items (schema.del "anyOf") location with
          | .error e => .error e
          | .ok (tys, s) => .ok (simplifyUnionType location tys, s)
        | _ => .error (.typeError "anyOf.map is not a function")
      else if (schema.get "oneOf").isSome then
        match schema.get "oneOf" with
        | some (.arr items) =>
          match walkCombineItems fuel s items (schema.del "oneOf") location with
          | .error e => .error e
          | .ok (tys, s) => .ok (simplifyUnionType location tys, s)
        | _ => .error (.typeError "oneOf.map is not a function")
      else if !Json.truthyOpt (schema.get "properties") then
        walkRecordType fuel s schema location
      else
        let s := warnExtraKeys s schema (.inl "object") location
        match walkObjectProps fuel s
            ((schema.get "properties").getD jsEmpty).entries location with
        | .error e => .error e
        | .ok (props, s) =>
          .ok (.object location props (requiredOf schema), s)
    else .error (.assertFail "expected object schema")

/-- The combinator-branch loop of `#walkObjectType`: each branch is merged
with the shared sibling fields before being walked as an object. -/
def walkCombineItems : Nat → BState → List Json → Json → String →
    Except BErr (List Ty × BState)
  | 0, _, _, _, _ => .error .fuelOut
  | _ + 1, s, [], _, _ => .ok ([], s)
  | fuel + 1, s, item :: items, rest, location =>
    match mergeSchemas s [rest, item] requiredMergeOptions location with
    | .error e => .error e
    | .ok (merged, s) =>
      match walkObjectType fuel s merged location with
      | .error e => .error e
      | .ok (ty, s) =>
        match walkCombineItems fuel s items rest location with
        | .error e => .error e
        | .ok (tys, s) => .ok (ty :: tys, s)

/-- The `properties` loop of `#walkObjectType`. -/
def walkObjectProps : Nat → BState → List (String × Json) → String →
    Except BErr (List (String × PropertyInfo) × BState)
  | 0, _, _, _ => .error .fuelOut
  | _ + 1, s, [], _ => .ok ([], s)
  | fuel + 1, s, (propertyName, propertySchema) :: rest, location =>
    match walkProperty fuel s propertySchema
        (joinPath3 location "properties" propertyName) with
    | .error e => .error e
    | .ok (info, s) =>
      match walkObjectProps fuel s rest location with
      | .error e => .error e
      | .ok (props, s) => .ok ((propertyName, info) :: props, s)

/-- `#walkProperty(propertySchema, location)`. -/
def walkProperty : Nat → BState → Json → String →
    Except BErr (PropertyInfo × BState)
  | 0, _, _, _ => .error .fuelOut
  | fuel + 1, s, propertySchema, location =>
    match extractDocumentation fuel s propertySchema location with
    | .error e => .error e
    | .ok ((documentation, type0), s) =>
      match walkType fuel s (type0.getD jsEmpty) location with
      | .error e => .error e
      | .ok (ty, s) =>
        .ok (.mk (some (documentation.getD jsEmpty)) none none ty, s)

/-- `#walkDefinition(schema, location)`. -/
def walkDefinition : Nat → BState → Json → String →
    Except BErr (TypeDefinition × BState)
  | 0, _, _, _ => .error .fuelOut
  | fuel + 1, s, schema, location =>
    match extractDocumentation fuel s schema location with
    | .error e => .error e
    | .ok ((documentation, type0), s) =>
      match walkType fuel s (type0.getD jsEmpty) location with
      | .error e => .error e
      | .ok (ty, s) =>
        .ok (⟨some (documentation.getD jsEmpty), ty⟩, s)

/-- `#walkUnion(schema, location)` for a bare `anyOf`/`oneOf` schema. -/
def walkUnion : Nat → BState → Json → String → Except BErr (Ty × BState)
  | 0, _, _, _ => .error .fuelOut
  | fuel + 1, s, schema, location =>
    let s := warnExtraKeys s schema (.inl "union") location
    let anyStep : Except BErr (List Ty × BState) :=
      if Json.truthyOpt (schema.get "anyOf") then
        match schema.get "anyOf" with
        | some (.arr xs) => walkUnionItems fuel s xs location "anyOf" 0
        | _ => .error (.typeError "anyOf.map is not a function")
      else .ok ([], s)
    match anyStep with
    | .error e => .error e
    | .ok (items1, s) =>
      let oneStep : Except BErr (List Ty × BState) :=
        if Json.truthyOpt (schema.get "oneOf") then
          match schema.get "oneOf" with
          | some (.arr xs) => walkUnionItems fuel s xs location "oneOf" 0
          | _ => .error (.typeError "oneOf.map is not a function")
        else .ok ([], s)
      match oneStep with
      | .error e => .error e
      | .ok (items2, s) =>
        match items1 ++ items2 with
        | [t] => .ok (t, s)
        | items => .ok (simplifyUnionType location items, s)

/-- The indexed branch loop of `#walkUnion`. -/
def walkUnionItems : Nat → BState → List Json → String → String → Nat →
    Except BErr (List Ty × BState)
  | 0, _, _, _, _, _ => .error .fuelOut
  | _ + 1, s, [], _, _, _ => .ok ([], s)
  | fuel + 1, s, x :: xs, location, branch, i =>
    match walkType fuel s x (joinPath3 location branch (toString i)) with
    | .error e => .error e
    | .ok (ty, s) =>
      match walkUnionItems fuel s xs location branch (i + 1) with
      | .error e => .error e
      | .ok (tys, s) => .ok (ty :: tys, s)

end

/-! ### Graph locations and in-place mutation -/

/-- One navigation step inside a `Ty` value. -/
inductive TyStep where
  | propType (name : String)
  | arrayItems
  | recordValue
  | unionItem (i : Nat)
deriving Repr, DecidableEq

/-- Where a subgraph hangs: the root properties type or a named definition.
References are resolved through the definitions table, exactly like the
single shared `#root.definitions` store of the source, so a location never
traverses a reference. -/
inductive TyBase where
  | rootProps
  | defn (name : String)
deriving Repr, DecidableEq

/-- The location of a `Ty` node in the builder state. -/
structure TyLoc where
  base : TyBase
  steps : List TyStep
deriving Repr, DecidableEq

/-- The location of a `PropertyInfo`: the object holding it and the property
name. -/
abbrev PropLoc := TyLoc × String

def baseTy (s : BState) : TyBase → Option Ty
  | .rootProps => some s.propertiesDef.type
  | .defn name => (s.definitions.lookup name).map TypeDefinition.type

def stepTy : Ty → TyStep → Option Ty
  | .object _ props _, .propType name => (props.lookup name).map PropertyInfo.type
  | .array _ (.mk _ t), .arrayItems => some t
  | .record _ v, .recordValue => some v
  | .union _ items, .unionItem i => items.get? i
  | _, _ => none

/-- The type value at a location, if the location is still valid. -/
def tyAt (s : BState) (loc : TyLoc) : Option Ty :=
  loc.steps.foldl (fun acc step => acc.bind (fun t => stepTy t step))
    (baseTy s loc.base)

/-- The property at a property location. -/
def propAt (s : BState) (pl : PropLoc) : Option PropertyInfo :=
  match tyAt s pl.1 with
  | some (.object _ props _) => props.lookup pl.2
  | _ => none

/-- Rewrite the node at the given step path (identity when the path does not
match, which cannot happen for locations obtained from the same state). -/
def updateTySteps : Ty → List TyStep → (Ty → Ty) → Ty
  | t, [], f => f t
  | .object i props req, .propType name :: rest, f =>
    .object i
      (props.map (fun np =>
        if np.1 = name then
          match np.2 with
          | .mk d a r t => (np.1, .mk d a r (updateTySteps t rest f))
        else np))
      req
  | .array i (.mk d t), .arrayItems :: rest, f =>
    .array i (.mk d (updateTySteps t rest f))
  | .record i v, .recordValue :: rest, f => .record i (updateTySteps v rest f)
  | .union i items, .unionItem k :: rest, f =>
    .union i (items.mapIdx (fun j t => if j = k then updateTySteps t rest f else t))
  | t, _ :: _, _ => t
termination_by structural _ steps _ => steps

/-- In-place mutation of the node at `loc`. -/
def updateTyAt (s : BState) (loc : TyLoc) (f : Ty → Ty) : BState :=
  match loc.base with
  | .rootProps =>
    { s with propertiesDef :=
        ⟨s.propertiesDef.documentation,
         updateTySteps s.propertiesDef.type loc.steps f⟩ }
  | .defn name =>
    { s with definitions :=
        s.definitions.map (fun nd =>
          if nd.1 = name then (nd.1, ⟨nd.2.documentation,
            updateTySteps nd.2.type loc.steps f⟩)
          else nd) }

/-- In-place mutation of the property at `pl`. -/
def modifyPropAt (s : BState) (pl : PropLoc) (f : PropertyInfo → PropertyInfo) :
    BState :=
  updateTyAt s pl.1 (fun t =>
    match t with
    | .object i props req =>
      .object i (props.map (fun np => if np.1 = pl.2 then (np.1, f np.2) else np)) req
    | t => t)

/-- The location of a property's type node. -/
def propTypeLoc (pl : PropLoc) : TyLoc :=
  ⟨pl.1.base, pl.1.steps ++ [.propType pl.2]⟩

/-! ### `#findProperty` -/

/-- `part.replaceAll(".", "")`. -/
def stripDots (part : String) : String :=
  ⟨part.data.filter (fun c => c ≠ Char.ofNat 46)⟩

mutual

/-- The indexed-part loop of `#findProperty`, carrying the current node and
its location.  References are dereferenced through the definitions table
(rebasing the location); unions fan out into every branch; `*` descends into
array items; object steps may repair dot-mangled AWS property names in
place. -/
def findPropertyLoop : Nat → BState → List String → Bool → Ty → TyLoc →
    Except BErr (List PropLoc × BState)
  | 0, _, _, _, _, _ => .error .fuelOut
  | _ + 1, s, [], _, _, _ => .ok ([], s)
  | fuel + 1, s, part :: rest, mangle, node, loc =>
    if part = "" then .error (.assertFail "part")
    else
      match node with
      | .reference _ (.str name) =>
        match s.definitions.lookup name with
        | some target =>
          findPropertyLoop fuel s (part :: rest) mangle target.type ⟨.defn name, []⟩
        | none => .error (.assertFail "unexpected definition not found")
      | .union _ items =>
        findPropertyFanOut fuel s (part :: rest) mangle items loc 0
      | node =>
        if part = "*" then
          match node with
          | .array _ (.mk _ t) =>
            findPropertyLoop fuel s rest mangle t
              ⟨loc.base, loc.steps ++ [.arrayItems]⟩
          | _ => .ok ([], s)
        else
          match node with
          | .object _ props _ =>
            let found : Option (PropertyInfo × BState) :=
              match props.lookup part with
              | some p => some (p, s)
              | none =>
                if mangle then
                  let mangledName := stripDots part
                  match props.lookup mangledName with
                  | some p =>
                    some (p, updateTyAt s loc (fun t =>
                      match t with
                      | .object i ps req =>
                        .object i
                          (ps.filter (fun np => np.1 ≠ mangledName) ++ [(part, p)])
                          req
                      | t => t))
                  | none => none
                else none
            match found with
            | none => .ok ([], s)
            | some (p, s) =>
              match rest with
              | [] => .ok ([(loc, part)], s)
              | _ =>
                findPropertyLoop fuel s rest mangle p.type
                  ⟨loc.base, loc.steps ++ [.propType part]⟩
          | _ => .ok ([], s)

/-- The union fan-out of `#findProperty`: follow every branch and combine the
results. -/
def findPropertyFanOut : Nat → BState → List String → Bool → List Ty → TyLoc →
    Nat → Except BErr (List PropLoc × BState)
  | 0, _, _, _, _, _, _ => .error .fuelOut
  | _ + 1, s, _, _, [], _, _ => .ok ([], s)
  | fuel + 1, s, parts, mangle, item :: items, loc, i =>
    match findPropertyLoop fuel s parts mangle item
        ⟨loc.base, loc.steps ++ [.unionItem i]⟩ with
    | .error e => .error e
    | .ok (found, s) =>
      match findPropertyFanOut fuel s parts mangle items loc (i + 1) with
      | .error e => .error e
      | .ok (found', s) => .ok (found ++ found', s)

end

/-- `#findProperty(path, mangle?)` from the root properties type. -/
def findProperty (fuel : Nat) (s : BState) (path : String) (mangle : Bool) :
    Except BErr (List PropLoc × BState) :=
  if strStartsWith path "/properties/" then
    findPropertyLoop fuel s (strSplitOn (path.drop "/properties/".length) (Char.ofNat 47))
      mangle s.propertiesDef.type ⟨.rootProps, []⟩
  else .ok ([], s)

/-! ### Classification flags (`#addAttribute`, `#markChildren`, `#analyzePaths`) -/

/-- The two flags mutated during attribute analysis. -/
inductive PropFlag where
  | isAttribute
  | readOnly
deriving Repr, DecidableEq

def setFlag (flag : PropFlag) (value : Bool) (p : PropertyInfo) : PropertyInfo :=
  match flag with
  | .isAttribute => p.withIsAttribute value
  | .readOnly => p.withReadOnly value

mutual

/-- Structural equality of `Ty` values, standing in for the JS reference
equality used by `stack.includes(type)`: reference-equal nodes are
structurally equal, and no walk in this development carries two distinct but
structurally equal nodes on one recursion path. -/
def tyBEq : Ty → Ty → Bool
  | .any i, .any j => i == j
  | .unknown i, .unknown j => i == j
  | .boolean i, .boolean j => i == j
  | .integer i, .integer j => i == j
  | .number i, .number j => i == j
  | .null i, .null j => i == j
  | .string i, .string j => i == j
  | .const i a, .const j b => i == j && jsonFullEq a b
  | .enum i a, .enum j b => i == j && jsonFullEqList a b
  | .array i (.mk d a), .array j (.mk e b) =>
    i == j && optJsonFullEq d e && tyBEq a b
  | .object i ps req, .object j qs req' =>
    i == j && req == req' && tyBEqProps ps qs
  | .record i a, .record j b => i == j && tyBEq a b
  | .reference i a, .reference j b => i == j && a == b
  | .union i a, .union j b => i == j && tyBEqList a b
  | _, _ => false

def tyBEqList : List Ty → List Ty → Bool
  | [], [] => true
  | a :: as, b :: bs => tyBEq a b && tyBEqList as bs
  | _, _ => false

def tyBEqProps :
    List (String × PropertyInfo) → List (String × PropertyInfo) → Bool
  | [], [] => true
  | (an, .mk ad aa ar at') :: as, (bn, .mk bd ba br bt) :: bs =>
    an == bn && optJsonFullEq ad bd && aa == ba && ar == br && tyBEq at' bt &&
      tyBEqProps as bs
  | _, _ => false

def jsonFullEq : Json → Json → Bool
  | .null, .null => true
  | .bool a, .bool b => a == b
  | .num a, .num b => a == b
  | .str a, .str b => a == b
  | .arr a, .arr b => jsonFullEqList a b
  | .obj a, .obj b => jsonFullEqFields a b
  | _, _ => false

def jsonFullEqList : List Json → List Json → Bool
  | [], [] => true
  | a :: as, b :: bs => jsonFullEq a b && jsonFullEqList as bs
  | _, _ => false

def jsonFullEqFields : List (String × Json) → List (String × Json) → Bool
  | [], [] => true
  | (an, a) :: as, (bn, b) :: bs =>
    an == bn && jsonFullEq a b && jsonFullEqFields as bs
  | _, _ => false

def optJsonFullEq : Option Json → Option Json → Bool
  | none, none => true
  | some a, some b => jsonFullEq a b
  | _, _ => false

end

/-- `stack.includes(type)`. -/
def stackHas (stack : List Ty) (t : Ty) : Bool :=
  stack.any (fun x => tyBEq x t)

mutual

/-- `#markChildren(type, flag, value, maxDepth?, depth, stack)`, addressing
the type by location so that writes through references land in the shared
definitions table. -/
def markChildren : Nat → BState → TyLoc → PropFlag → Bool → Option Nat → Nat →
    List Ty → Except BErr BState
  | 0, _, _, _, _, _, _, _ => .error .fuelOut
  | fuel + 1, s, loc, flag, value, maxDepth, depth, stack =>
    match tyAt s loc with
    | none => .ok s
    | some t =>
      if stackHas stack t then .ok s
      else
        match t with
        | .object _ props _ =>
          markObjectProps fuel s loc (props.map Prod.fst) flag value maxDepth
            depth (stack ++ [t])
        | .array _ _ =>
          markChildren fuel s ⟨loc.base, loc.steps ++ [.arrayItems]⟩ flag value
            maxDepth depth (stack ++ [t])
        | .record _ _ =>
          markChildren fuel s ⟨loc.base, loc.steps ++ [.recordValue]⟩ flag value
            maxDepth depth (stack ++ [t])
        | .reference _ (.str name) =>
          if (s.definitions.lookup name).isSome then
            markChildren fuel s ⟨.defn name, []⟩ flag value maxDepth depth
              (stack ++ [t])
          else .ok s
        | .reference _ _ => .ok s
        | .union _ items =>
          markUnionItems fuel s loc items.length 0 flag value maxDepth depth
            (stack ++ [t])
        | _ => .ok s
termination_by structural fuel _ _ _ _ _ _ _ => fuel

/-- The object-property loop of `#markChildren`: set the flag on each
property, recursing only while `depth < maxDepth`. -/
def markObjectProps : Nat → BState → TyLoc → List String → PropFlag → Bool →
    Option Nat → Nat → List Ty → Except BErr BState
  | 0, _, _, _, _, _, _, _, _ => .error .fuelOut
  | _ + 1, s, _, [], _, _, _, _, _ => .ok s
  | fuel + 1, s, loc, name :: names, flag, value, maxDepth, depth, stack =>
    let s := modifyPropAt s (loc, name) (setFlag flag value)
    let next : Except BErr BState :=
      if maxDepth.all (fun m => depth < m) then
        markChildren fuel s ⟨loc.base, loc.steps ++ [.propType name]⟩ flag value
          maxDepth (depth + 1) stack
      else .ok s
    match next with
    | .error e => .error e
    | .ok s => markObjectProps fuel s loc names flag value maxDepth depth stack
termination_by structural fuel _ _ _ _ _ _ _ _ => fuel

/-- The union-branch loop of `#markChildren`. -/
def markUnionItems : Nat → BState → TyLoc → Nat → Nat → PropFlag → Bool →
    Option Nat → Nat → List Ty → Except BErr BState
  | 0, _, _, _, _, _, _, _, _, _ => .error .fuelOut
  | _ + 1, s, _, 0, _, _, _, _, _, _ => .ok s
  | fuel + 1, s, loc, remaining + 1, i, flag, value, maxDepth, depth, stack =>
    match markChildren fuel s ⟨loc.base, loc.steps ++ [.unionItem i]⟩ flag value
        maxDepth depth stack with
    | .error e => .error e
    | .ok s =>
      markUnionItems fuel s loc remaining (i + 1) flag value maxDepth depth stack
termination_by structural fuel _ _ _ _ _ _ _ _ _ => fuel

end

mutual

/-- `#allReadOnlyChildren(node)`. -/
def allReadOnlyChildren : Nat → BState → Ty → Except BErr Bool
  | 0, _, _ => .error .fuelOut
  | fuel + 1, s, t =>
    match t with
    | .array _ (.mk _ ty) => allReadOnlyChildren fuel s ty
    | .object _ props _ =>
      .ok (props.all (fun np => np.2.readOnly = some true))
    | .reference _ (.str name) =>
      match s.definitions.lookup name with
      | some target => allReadOnlyChildren fuel s target.type
      | none => .error (.assertFail "unexpected invalid reference name")
    | .reference _ _ => .ok false
    | .union _ items => allReadOnlyChildrenList fuel s items
    | _ => .ok false

/-- `node.items.every((item) => this.#allReadOnlyChildren(item))`. -/
def allReadOnlyChildrenList : Nat → BState → List Ty → Except BErr Bool
  | 0, _, _ => .error .fuelOut
  | _ + 1, _, [] => .ok true
  | fuel + 1, s, t :: ts =>
    match allReadOnlyChildren fuel s t with
    | .error e => .error e
    | .ok false => .ok false
    | .ok true => allReadOnlyChildrenList fuel s ts

end

mutual

/-- `#anyAttributeChildren(node)`.  Note the union case uses `every`, exactly
as the source does. -/
def anyAttributeChildren : Nat → BState → Ty → Except BErr Bool
  | 0, _, _ => .error .fuelOut
  | fuel + 1, s, t =>
    match t with
    | .array _ (.mk _ ty) => anyAttributeChildren fuel s ty
    | .object _ props _ =>
      .ok (props.any (fun np => np.2.isAttribute = some true))
    | .reference _ (.str name) =>
      match s.definitions.lookup name with
      | some target => anyAttributeChildren fuel s target.type
      | none => .error (.assertFail "unexpected invalid reference name")
    | .reference _ _ => .ok false
    | .union _ items => anyAttributeChildrenList fuel s items
    | _ => .ok false

def anyAttributeChildrenList : Nat → BState → List Ty → Except BErr Bool
  | 0, _, _ => .error .fuelOut
  | _ + 1, _, [] => .ok true
  | fuel + 1, s, t :: ts =>
    match anyAttributeChildren fuel s t with
    | .error e => .error e
    | .ok false => .ok false
    | .ok true => anyAttributeChildrenList fuel s ts

end

mutual

/-- `#isValidAttributeType(type)`: a type is attribute-eligible when no
`object`/`record` structure is reachable (through arrays, unions and
references into existing definitions). -/
def isValidAttributeType : Nat → BState → Ty → Except BErr Bool
  | 0, _, _ => .error .fuelOut
  | fuel + 1, s, t =>
    match t with
    | .array _ (.mk _ ty) => isValidAttributeType fuel s ty
    | .reference _ (.str name) =>
      match s.definitions.lookup name with
      | some target => isValidAttributeType fuel s target.type
      | none => .ok false
    | .reference _ _ => .ok false
    | .union _ items => isValidAttributeTypeList fuel s items
    | .object _ _ _ => .ok false
    | .record _ _ => .ok false
    | _ => .ok true

def isValidAttributeTypeList : Nat → BState → List Ty → Except BErr Bool
  | 0, _, _ => .error .fuelOut
  | _ + 1, _, [] => .ok true
  | fuel + 1, s, t :: ts =>
    match isValidAttributeType fuel s t with
    | .error e => .error e
    | .ok false => .ok false
    | .ok true => isValidAttributeTypeList fuel s ts

end

/-- JS object-assignment semantics on an association list: an existing key
keeps its slot, a new key is appended. -/
def setAssoc {α : Type} : List (String × α) → String → α → List (String × α)
  | [], key, v => [(key, v)]
  | (k, w) :: rest, key, v =>
    if k = key then (k, v) :: rest else (k, w) :: setAssoc rest key v

/-- The per-match marking loop of `#addAttribute`: set `isAttribute` (and
spread it through the children) when the path has no wildcard and the type is
attribute-eligible, and set `readOnly` when requested. -/
def addAttributeMarkLoop (fuel : Nat) (s : BState) (props : List PropLoc)
    (hasWildcardPath readOnly : Bool) : Except BErr BState :=
  match props with
  | [] => .ok s
  | pl :: rest =>
    match propAt s pl with
    | none => addAttributeMarkLoop fuel s rest hasWildcardPath readOnly
    | some prop =>
      match isValidAttributeType fuel s prop.type with
      | .error e => .error e
      | .ok valid =>
        let step1 : Except BErr BState :=
          if !hasWildcardPath && valid then
            markChildren fuel (modifyPropAt s pl (fun p => p.withIsAttribute true))
              (propTypeLoc pl) .isAttribute true none 1 []
          else .ok s
        match step1 with
        | .error e => .error e
        | .ok s =>
          let s := if readOnly then modifyPropAt s pl (fun p => p.withReadOnly true)
                   else s
          addAttributeMarkLoop fuel s rest hasWildcardPath readOnly

/-- Collect the current types of all matched properties (for the
multiple-possible-types diagnostic). -/
def propTypesAt (s : BState) (props : List PropLoc) : List Ty :=
  props.filterMap (fun pl => (propAt s pl).map PropertyInfo.type)

/-- `#addAttribute(path, readOnly)`. -/
def addAttribute (fuel : Nat) (s : BState) (path : String) (readOnly : Bool) :
    Except BErr BState :=
  match findProperty fuel s path (strStartsWith s.typeName "AWS::") with
  | .error e => .error e
  | .ok (props, s) =>
    match props with
    | [] => .ok (warn s "/readOnlyProperties" "bad reference %O")
    | pl0 :: _ =>
      let hasWildcardPath := strContainsChar path (Char.ofNat 42)
      match addAttributeMarkLoop fuel s props hasWildcardPath readOnly with
      | .error e => .error e
      | .ok s =>
        match propAt s pl0 with
        | none => .error (.assertFail "prop")
        | some prop =>
          let s :=
            if !(propTypesAt s props).all (fun x => isSameType prop.type x) then
              warn s "/readOnlyProperties" "attribute has multiple possible types"
            else s
          let documentation := prop.documentation.getD jsEmpty
          if !(strStartsWith path "/properties/") then
            .error (.assertFail "path.startsWith slash-properties")
          else
            let name :=
              strJoin "."
                (strSplitOn (path.drop "/properties/".length) (Char.ofNat 47))
            let extraDocs : Option Json :=
              match s.documenter.getAttributeDocs with
              | some f => f s.typeName (some name)
              | none => none
            let documentation :=
              match extraDocs with
              | some extra =>
                if extra.truthy then assign documentation extra else documentation
              | none => documentation
            match isValidAttributeType fuel s prop.type with
            | .error e => .error e
            | .ok valid =>
              if !hasWildcardPath && valid then
                let attributes :=
                  match s.attributes with
                  | some ad => ad
                  | none =>
                    ⟨match s.documenter.getAttributeDocs with
                      | some f => f s.typeName none
                      | none => none,
                     .object "/attributes" [] []⟩
                let attributes : TypeDefinition :=
                  match attributes.type with
                  | .object i aprops areq =>
                    ⟨attributes.documentation,
                     .object i
                       (setAssoc aprops name
                          (.mk (some documentation) (some true) none prop.type))
                       (areq ++ [name])⟩
                  | _ => attributes
                .ok { s with attributes := some attributes }
              else .ok s

/-- Fold `#addAttribute(path, true)` over the explicit `readOnlyProperties`
paths. -/
def addAttributePaths (fuel : Nat) (s : BState) (paths : List String) :
    Except BErr BState :=
  match paths with
  | [] => .ok s
  | path :: rest =>
    match addAttribute fuel s path true with
    | .error e => .error e
    | .ok s => addAttributePaths fuel s rest

/-- The body of the breadcrumb loop for the matches of one ancestor path. -/
def breadcrumbProps (fuel : Nat) (s : BState) (props : List PropLoc) :
    Except BErr BState :=
  match props with
  | [] => .ok s
  | pl :: rest =>
    match propAt s pl with
    | none => breadcrumbProps fuel s rest
    | some prop =>
      match allReadOnlyChildren fuel s prop.type with
      | .error e => .error e
      | .ok allRO =>
        let step1 : Except BErr BState :=
          if allRO then
            markChildren fuel (modifyPropAt s pl (fun p => p.withReadOnly true))
              (propTypeLoc pl) .readOnly false (some 1) 1 []
          else .ok s
        match step1 with
        | .error e => .error e
        | .ok s =>
          match propAt s pl with
          | none => breadcrumbProps fuel s rest
          | some prop =>
            match anyAttributeChildren fuel s prop.type with
            | .error e => .error e
            | .ok anyAttr =>
              let s := if anyAttr then
                  modifyPropAt s pl (fun p => p.withIsAttribute true)
                else s
              breadcrumbProps fuel s rest

/-- The breadcrumb (ancestor) loop of `#analyzePaths`. -/
def breadcrumbPaths (fuel : Nat) (s : BState) (paths : List String) :
    Except BErr BState :=
  match paths with
  | [] => .ok s
  | path :: rest =>
    match findProperty fuel s path false with
    | .error e => .error e
    | .ok (props, s) =>
      match breadcrumbProps fuel s props with
      | .error e => .error e
      | .ok s => breadcrumbPaths fuel s rest

/-- Extract the `readOnlyProperties` list (typed `string[]`; iterating
anything else throws). -/
def readOnlyPathsOf (j : Json) : Except BErr (List String) :=
  match j with
  | .arr xs =>
    xs.foldr
      (fun x acc =>
        match x, acc with
        | .str p, .ok ps => .ok (p :: ps)
        | _, .ok _ => .error (.typeError "readOnlyProperties entry is not a string")
        | _, .error e => .error e)
      (.ok [])
  | _ => .error (.typeError "readOnlyProperties is not iterable")

/-- `#analyzePaths()`. -/
def analyzePaths (fuel : Nat) (s : BState) : Except BErr BState :=
  match s.resourceSchema.get "readOnlyProperties" with
  | none => .ok s
  | some ro =>
    if !ro.truthy then .ok s
    else
      match readOnlyPathsOf ro with
      | .error e => .error e
      | .ok paths =>
        match addAttributePaths fuel s paths with
        | .error e => .error e
        | .ok s => breadcrumbPaths fuel s (getBreadcrumbs paths)

/-- The definitions loop of `build`. -/
def walkDefinitions (fuel : Nat) (s : BState)
    (defs : List (String × Json)) : Except BErr BState :=
  match defs with
  | [] => .ok s
  | (definitionName, definition) :: rest =>
    match walkDefinition fuel s definition ("/definitions/" ++ definitionName) with
    | .error e => .error e
    | .ok (td, s) =>
      walkDefinitions fuel
        { s with definitions := setAssoc s.definitions definitionName td } rest

/-- The `ExtraAttributes` loop of `build`. -/
def addExtraAttributes (fuel : Nat) (s : BState) (names : List String) :
    Except BErr BState :=
  match names with
  | [] => .ok s
  | name :: rest =>
    match addAttribute fuel s ("/properties/" ++ name) false with
    | .error e => .error e
    | .ok s => addExtraAttributes fuel s rest

/-- The fields picked from the resource schema to form the root fragment. -/
def rootSchemaKeys : List String :=
  ["allOf", "anyOf", "oneOf", "properties", "required"]

/-- The initial builder state (`ResourceBuilder`'s constructor). -/
def initialState (documenter : Documenter) (resourceSchema : Json) : BState :=
  { resourceSchema := resourceSchema
    typeName :=
      match resourceSchema.get "typeName" with
      | some (.str n) => n
      | _ => "undefined"
    documenter := documenter
    definitions := []
    propertiesDef := ⟨none, .unknown "/"⟩
    attributes := none
    warnings := []
    ignoreExtraKeyLocations := [] }

/-- `ResourceBuilder.build()`: extract the root fragment, walk it, walk the
definitions, run attribute/read-only analysis, then apply the
`ExtraAttributes` exception table. -/
def build (fuel : Nat) (documenter : Documenter) (resourceSchema : Json) :
    Except BErr BState :=
  let s := initialState documenter resourceSchema
  let rootSchema := pick resourceSchema rootSchemaKeys
  match extractDocumentation fuel s rootSchema "/" with
  | .error e => .error e
  | .ok ((documentation, type0), s) =>
    match type0 with
    | none =>
      .error (.assertFail
        ("expected type to have a value for resource \"" ++ s.typeName ++ "\""))
    | some ty0 =>
      let s := { s with propertiesDef := ⟨documentation, s.propertiesDef.type⟩ }
      match walkType fuel s ty0 "/" with
      | .error e => .error e
      | .ok (rootTy, s) =>
        let s := { s with propertiesDef := ⟨documentation, rootTy⟩ }
        let defsStep : Except BErr BState :=
          match resourceSchema.get "definitions" with
          | some d =>
            if d.truthy then walkDefinitions fuel s d.entries else .ok s
          | none => .ok s
        match defsStep with
        | .error e => .error e
        | .ok s =>
          match analyzePaths fuel s with
          | .error e => .error e
          | .ok s =>
            match ExtraAttributes.lookup s.typeName with
            | some names => addExtraAttributes fuel s names
            | none => .ok s

/-! ## src/build-lib/resource-type-simplifier.ts -/

/-- `ResourceTypeSimplifierMode`. -/
inductive SimplMode where
  | attributes
  | model
  | resource
deriving Repr, DecidableEq

/-- `isTagObject(target)`: a two-property `{Key, Value}` string pair. -/
def isTagObject (target : Ty) : Bool :=
  match target with
  | .object _ props _ =>
    props.length = 2 &&
    (match props.lookup "Key" with
      | some p => Ty.tag p.type == "string"
      | none => false) &&
    (match props.lookup "Value" with
      | some p => Ty.tag p.type == "string"
      | none => false)
  | _ => false

/-- `shouldInline(target)`. -/
def shouldInline (mode : SimplMode) (target : Ty) : Bool :=
  Ty.tag target ≠ "enum" &&
  (Ty.tag target ≠ "object" || mode = .attributes) &&
  Ty.tag target ≠ "union"

/-- `/Tags?$/.test(name)`. -/
def isTagName (n : String) : Bool := strEndsWith n "Tag" || strEndsWith n "Tags"

mutual

/-- `ResourceTypeSimplifier.simplifyType(node)`.  The simplifier carries no
recursion stack; unbounded reference-inlining chains exhaust the fuel, which
models the original's unbounded recursion. -/
def simplifyType (fuel : Nat) (defs : List (String × TypeDefinition))
    (mode : SimplMode) (tagType : Option SymbolName) :
    Ty → Except BErr Ty :=
  fun node =>
  match fuel with
  | 0 => .error .fuelOut
  | fuel + 1 =>
    match node with
    | .object i props req =>
      if mode = .model then .ok (.object i props req)
      else if mode = .attributes then
        let properties := props.filter (fun np => np.2.isAttribute = some true)
        .ok (.object i properties (properties.map Prod.fst))
      else
        let properties :=
          props.filter (fun np => !(np.2.readOnly.getD false))
        .ok (.object i properties
          (req.filter (fun x => (properties.lookup x).isSome)))
    | .reference i name =>
      match name with
      | .str n =>
        match defs.lookup n with
        | none => .ok (.reference i name)
        | some target =>
          if isTagName n ∧ tagType.isSome ∧ isTagObject target.type then
            .ok (.reference i (tagType.getD name))
          else if shouldInline mode target.type then
            simplifyType fuel defs mode tagType target.type
          else .ok (.reference i name)
      | _ => .ok (.reference i name)
    | .union i items =>
      match simplifyTypeList fuel defs mode tagType items with
      | .error e => .error e
      | .ok items' => .ok (simplifyUnionType i items')
    | node => .ok node

/-- `node.items.map((x) => this.simplifyType(x))`. -/
def simplifyTypeList (fuel : Nat) (defs : List (String × TypeDefinition))
    (mode : SimplMode) (tagType : Option SymbolName) :
    List Ty → Except BErr (List Ty) :=
  fun items =>
  match fuel with
  | 0 => .error .fuelOut
  | fuel + 1 =>
    match items with
    | [] => .ok []
    | t :: ts =>
      match simplifyType fuel defs mode tagType t with
      | .error e => .error e
      | .ok t' =>
        match simplifyTypeList fuel defs mode tagType ts with
        | .error e => .error e
        | .ok ts' => .ok (t' :: ts')

end

/-! ### Claim C1 — `allOf` scalar merging -/

/-- The two-fragment `allOf` scenario of the spec: base `{minLength: 1}` with
sibling `{minLength: 5}`. -/
def minLengthBase : Json := .obj [("minLength", .num 1)]
def minLengthSibling : Json := .obj [("minLength", .num 5)]
def minLengthAllOfSchema : Json :=
  .obj [("minLength", .num 1), ("allOf", .arr [minLengthSibling])]

/-- **C1** (evaluation at the failing input).  Merging `{minLength: 1}` with
its `allOf` sibling `{minLength: 5}` reports exactly one conflict for
`minLength` — but the merged value is `5`, the *last* fragment's value, not
the first's: `mergeObjectsWith` takes `objects.pop()` (the last fragment) as
its base, even though the variable receiving it is named `first`, so on a
scalar conflict the last fragment wins. -/
theorem claim_C1_mergeAllOf_lastWins :
    mergeObjects [minLengthBase, minLengthSibling] requiredMergeOptions =
      some (.obj [("minLength", .num 5)], ["minLength"]) ∧
    (∀ s : BState, mergeAllOf s minLengthAllOfSchema "/" =
      .ok (.obj [("minLength", .num 5)],
        warn s "/" "found conflicts while merging schemas for keys")) := by
  constructor
  · rfl
  · intro s
    rfl

/-! ### Claim C2 — the round-trip scenario -/

/-- The default documenter (`options.documenter ?? {}`). -/
def emptyDocumenter : Documenter := {}

/-- Property names of an object type, in order. -/
def objectPropNames : Ty → List String
  | .object _ props _ => props.map Prod.fst
  | _ => []

/-- Required names of an object type. -/
def objectRequired : Ty → List String
  | .object _ _ req => req
  | _ => []

/-- The minimal resource schema of the round-trip scenario: type name
`Test::Resource`, a root schema whose `properties` are `Name` and `Id`
(both strings) with `required = ["Name"]`, and
`readOnlyProperties = ["/properties/Id"]`. -/
def c2Schema : Json := .obj [
  ("typeName", .str "Test::Resource"),
  ("properties", .obj [
    ("Name", .obj [("type", .str "string")]),
    ("Id", .obj [("type", .str "string")])]),
  ("required", .arr [.str "Name"]),
  ("readOnlyProperties", .arr [.str "/properties/Id"])]

/-- The state built from the round-trip schema (total projection; `build`
succeeds, as `claim_C2_roundTrip` proves). -/
def c2State : BState :=
  match build 200 emptyDocumenter c2Schema with
  | .ok s => s
  | .error _ => initialState emptyDocumenter c2Schema

/-- The writable-view projection of the round-trip root properties type. -/
def c2Writable : Ty :=
  match simplifyType 50 c2State.definitions .resource none
      c2State.propertiesDef.type with
  | .ok t => t
  | .error _ => .unknown ""

/-- **C2.**  Building the round-trip schema and projecting the result through
the writable (`resource`-mode) view yields an object type containing exactly
`Name`, required, with `Id` absent; and the built attributes type is an
object type containing exactly the one property `Id`. -/
theorem claim_C2_roundTrip :
    build 200 emptyDocumenter c2Schema = .ok c2State ∧
    simplifyType 50 c2State.definitions .resource none
      c2State.propertiesDef.type = .ok c2Writable ∧
    Ty.tag c2Writable = "object" ∧ objectPropNames c2Writable = ["Name"] ∧
    objectRequired c2Writable = ["Name"] ∧
    (∃ ad : TypeDefinition, c2State.attributes = some ad ∧
      Ty.tag ad.type = "object" ∧ objectPropNames ad.type = ["Id"] ∧
      objectRequired ad.type = ["Id"]) := by
  refine ⟨rfl, rfl, rfl, rfl, rfl, ⟨_, rfl, rfl, rfl, rfl⟩⟩

/-! ### Claim C10 — documentation-only root schemas abort with an assertion -/


theorem mergeObjects_singleton (x : Json) (opts : MergeObjectsOptions) :
    mergeObjects [x] opts = some (.obj x.entries, []) := rfl

theorem splitPick_all_picked (fields : List (String × Json)) (ks : List String)
    (h : fields.all (fun kv => ks.contains kv.1) = true) :
    splitPick (.obj fields) ks = (.obj fields, .obj []) := by
  simp only [splitPick, Json.entries, List.partition_eq_filter_filter]
  have h1 : List.filter (fun kv => ks.contains kv.1) fields = fields :=
    List.filter_eq_self.mpr (by simpa [List.all_eq_true] using h)
  have h2 : List.filter (not ∘ fun kv => ks.contains kv.1) fields = [] := by
    simp only [List.filter_eq_nil_iff]
    intro kv hkv
    have ha8 := (List.all_eq_true.mp h) kv hkv
    have hm : kv.1 ∈ ks := by
      rw [← List.elem_iff]
      exact ha8
    simp [Function.comp, ha8, hm]
  rw [h1, h2]

theorem extractDocumentation_docOnly (fuel : Nat) (s : BState) (schema : Json)
    (mfields : List (String × Json)) (s1 : BState)
    (hmerge : mergeAllOf s schema "/" = .ok (.obj mfields, s1))
    (hdoc : mfields.all
      (fun kv => SchemaDocumentationKeys.contains kv.1) = true) :
    ∃ d, extractDocumentation (fuel + 1) s schema "/" = .ok ((d, none), s1) := by
  rw [extractDocumentation, hmerge]
  simp only [splitPick_all_picked mfields _ hdoc, typeIs, Json.get, List.lookup,
    Json.truthyOpt, Bool.false_eq_true, if_false, List.lookup_nil, mergeSchemas,
    List.nil_append, List.append_nil, mergeObjects_singleton, Json.entries,
    show parsePath "/" = (none, none) from rfl, List.length_nil, Json.keys,
    List.map_nil, true_or, if_true, gt_iff_lt, Nat.lt_irrefl]
  exact ⟨_, rfl⟩

theorem mergeAllOf_typeName (s : BState) (schema : Json) (loc : String)
    (m : Json) (s' : BState) (h : mergeAllOf s schema loc = .ok (m, s')) :
    s'.typeName = s.typeName := by
  unfold mergeAllOf at h
  cases hall : schema.get "allOf" with
  | none =>
    rw [hall] at h
    cases h
    rfl
  | some v =>
    rw [hall] at h
    cases v with
    | arr xs =>
      simp only [] at h
      unfold mergeSchemas at h
      cases hmo : mergeObjects (schema.del "allOf" :: xs) requiredMergeOptions with
      | none => rw [hmo] at h; cases h
      | some vc =>
        rw [hmo] at h
        obtain ⟨value, conflicts⟩ := vc
        by_cases hc : conflicts.length > 0
        · simp only [hc, if_true] at h
          cases h
          rfl
        · simp only [hc, if_false] at h
          cases h
          rfl
    | null => cases h
    | bool b => cases h
    | num n => cases h
    | str t => cases h
    | obj fs => cases h

/-- **C10.**  A root schema that, after `allOf` merging, carries only
documentation keys (no type-shape keys) makes `build` fail with the
`expected type to have a value` assertion, naming the resource by its
`typeName`; it is not degraded to `unknown`. -/
theorem claim_C10_docOnlyRoot (fuel : Nat) (doc : Documenter) (schema : Json)
    (mfields : List (String × Json)) (s1 : BState)
    (hmerge : mergeAllOf (initialState doc schema) (pick schema rootSchemaKeys) "/"
        = .ok (.obj mfields, s1))
    (hdoc : mfields.all
      (fun kv => SchemaDocumentationKeys.contains kv.1) = true) :
    build (fuel + 1) doc schema = .error (.assertFail
      ("expected type to have a value for resource \"" ++
        (initialState doc schema).typeName ++ "\"")) := by
  obtain ⟨d, hd⟩ := extractDocumentation_docOnly fuel (initialState doc schema)
    (pick schema rootSchemaKeys) mfields s1 hmerge hdoc
  have ht := mergeAllOf_typeName _ _ _ _ _ hmerge
  simp only [build, hd, ht]

def c10Schema : Json :=
  .obj [("typeName", .str "Test::Empty"),
        ("allOf", .arr [.obj [("title", .str "x")],
                        .obj [("description", .str "hi")]])]

def c10Merged : List (String × Json) :=
  [("description", .str "hi"), ("title", .str "x")]

theorem claim_C10_docOnlyRoot_witness :
    build 3 emptyDocumenter c10Schema = .error (.assertFail
      "expected type to have a value for resource \"Test::Empty\"") :=
  claim_C10_docOnlyRoot 2 emptyDocumenter c10Schema c10Merged
    (initialState emptyDocumenter c10Schema) rfl rfl

/-! ### Claim C3 — unresolvable `$ref` handling -/

/-- A schema whose `$ref` names a definition that does not exist anywhere in
the document. -/
def c3Schema : Json := .obj [("$ref", .str "#/definitions/Missing")]

/-- A builder state whose document has no `definitions` at all. -/
def c3State : BState :=
  initialState emptyDocumenter (.obj [("typeName", .str "Test::Refs")])

/-- **C3** (counterexample).  Walking `{"$ref": "#/definitions/Missing"}` in a
document with no definitions returns a `reference` type named `Missing` — not
`unknown` — and emits no warning: definition-form refs are never
existence-checked by the walker. -/
theorem claim_C3_danglingDefinitionRef :
    walkType 5 c3State c3Schema "/properties/X" =
      .ok (.reference "/properties/X" (.str "Missing"), c3State) ∧
    c3State.definitions = [] ∧ c3State.warnings = [] :=
  ⟨rfl, rfl, rfl⟩

theorem warnExtraKeys_resourceSchema (s : BState) (schema : Json)
    (t : String ⊕ List String) (loc : String) :
    (warnExtraKeys s schema t loc).resourceSchema = s.resourceSchema := by
  unfold warnExtraKeys warn
  repeat' (first | split | dsimp only [])

/-- **C3** (amended).  For a `$ref` fragment: (a) a `#/definitions/<name>`
ref becomes a named `reference` with no existence check and no warning, even
when dangling; (b) a ref not starting with `#/` degrades to `unknown` with an
`invalid reference` warning; (c) a `#/`-ref whose path misses in the document
degrades to `unknown` with an `invalid reference` warning; (d) a `#/`-ref
whose path resolution applies the `in` operator to a primitive value throws a
TypeError that aborts the build.  Unresolvable references are non-fatal
except in case (d). -/
theorem claim_C3_unresolvableRefs (fuel : Nat) (s : BState) (schema : Json)
    (r location : String)
    (href : schema.get "$ref" = some (.str r)) (hne : r ≠ "") :
    (∀ name, definitionRefName r = some name →
      walkRefType (fuel + 1) s schema location =
        .ok (.reference location (.str name),
          warnExtraKeys s schema (.inl "reference") location)) ∧
    (definitionRefName r = none → strStartsWith r "#/" = false →
      walkRefType (fuel + 1) s schema location =
        .ok (.unknown location,
          warn (warnExtraKeys s schema (.inl "reference") location) location
            "invalid reference")) ∧
    (definitionRefName r = none → strStartsWith r "#/" = true →
      resolveRefPath s.resourceSchema
          (strSplitOn (r.drop 2) (Char.ofNat 47)) = .miss →
      walkRefType (fuel + 1) s schema location =
        .ok (.unknown location,
          warn (warnExtraKeys s schema (.inl "reference") location) location
            "invalid reference")) ∧
    (definitionRefName r = none → strStartsWith r "#/" = true →
      resolveRefPath s.resourceSchema
          (strSplitOn (r.drop 2) (Char.ofNat 47)) = .typeErr →
      walkRefType (fuel + 1) s schema location =
        .error (.typeError "cannot use in operator on a primitive")) := by
  refine ⟨?_, ?_, ?_, ?_⟩
  · intro name hname
    rw [walkRefType, href]
    simp only [Json.truthy, hne, decide_not, ne_eq, not_false_eq_true,
      decide_True, if_true, hname]
  · intro hname hpre
    rw [walkRefType, href]
    simp only [Json.truthy, hne, decide_not, ne_eq, not_false_eq_true,
      decide_True, if_true, hname, hpre, Bool.not_false, if_true]
  · intro hname hpre hmiss
    rw [walkRefType, href]
    simp only [Json.truthy, hne, decide_not, ne_eq, not_false_eq_true,
      decide_True, if_true, hname, hpre, Bool.not_true, Bool.false_eq_true,
      if_false, warnExtraKeys_resourceSchema, hmiss]
  · intro hname hpre htyerr
    rw [walkRefType, href]
    simp only [Json.truthy, hne, decide_not, ne_eq, not_false_eq_true,
      decide_True, if_true, hname, hpre, Bool.not_true, Bool.false_eq_true,
      if_false, warnExtraKeys_resourceSchema, htyerr]

/-- `{"$ref": "#/x/y"}`: an in-document ref whose path does not resolve. -/
def c3WSchema : Json := .obj [("$ref", .str "#/x/y")]

/-- `{"$ref": "#/typeName/x"}`: an in-document ref whose path steps into the
primitive `typeName` value. -/
def c3TSchema : Json := .obj [("$ref", .str "#/typeName/x")]

theorem claim_C3_unresolvableRefs_witness :
    (walkRefType 5 c3State c3WSchema "/properties/X" =
      .ok (.unknown "/properties/X",
        warn (warnExtraKeys c3State c3WSchema (.inl "reference") "/properties/X")
          "/properties/X" "invalid reference")) ∧
    (walkRefType 5 c3State c3TSchema "/properties/X" =
      .error (.typeError "cannot use in operator on a primitive")) :=
  ⟨(claim_C3_unresolvableRefs 4 c3State c3WSchema "#/x/y" "/properties/X" rfl
    (by decide)).2.2.1 rfl rfl rfl,
   (claim_C3_unresolvableRefs 4 c3State c3TSchema "#/typeName/x"
    "/properties/X" rfl (by decide)).2.2.2 rfl rfl rfl⟩

/-! ### Claim C5 — breadcrumb promotion and demotion -/

/-- A resource whose object property `P` and both of its children are all
explicit `readOnlyProperties` paths. -/
def c5Schema : Json := .obj [
  ("typeName", .str "Test::Breadcrumb"),
  ("properties", .obj [
    ("P", .obj [("type", .str "object"),
      ("properties", .obj [
        ("A", .obj [("type", .str "string")]),
        ("B", .obj [("type", .str "string")])])])]),
  ("readOnlyProperties", .arr [.str "/properties/P",
    .str "/properties/P/A", .str "/properties/P/B"])]

/-- **C5** (counterexample).  When the parent path is itself listed in
`readOnlyProperties`, it is deleted from the breadcrumb set ("delete any
intermediate paths that are also leafs"), so the demotion pass never runs:
after `build`, both children `A` and `B` still carry `readOnly = true`. -/
theorem claim_C5_explicitParentKeepsChildFlags :
    ∃ s, build 50 emptyDocumenter c5Schema = .ok s ∧
      getBreadcrumbs ["/properties/P", "/properties/P/A", "/properties/P/B"]
        = [] ∧
      (propAt s (⟨.rootProps, []⟩, "P")).map PropertyInfo.readOnly =
        some (some true) ∧
      (propAt s (⟨.rootProps, [.propType "P"]⟩, "A")).map
        PropertyInfo.readOnly = some (some true) ∧
      (propAt s (⟨.rootProps, [.propType "P"]⟩, "B")).map
        PropertyInfo.readOnly = some (some true) := by
  refine ⟨_, rfl, rfl, rfl, rfl, rfl⟩

theorem mem_insertByDepthDesc (x a : String) (l : List String) :
    a ∈ insertByDepthDesc x l ↔ a = x ∨ a ∈ l := by
  induction l with
  | nil => simp [insertByDepthDesc]
  | cons y ys ih =>
    by_cases h : pathDepth y < pathDepth x
    · simp only [insertByDepthDesc, if_pos h, List.mem_cons]
    · simp only [insertByDepthDesc, if_neg h, List.mem_cons, ih]
      tauto

theorem mem_sortByDepthDesc (l : List String) (a : String)
    (h : a ∈ sortByDepthDesc l) : a ∈ l := by
  suffices H : ∀ acc, a ∈ l.foldl (fun acc x => insertByDepthDesc x acc) acc →
      a ∈ l ∨ a ∈ acc by
    rcases H [] h with h' | h'
    · exact h'
    · cases h'
  clear h
  intro acc
  induction l generalizing acc with
  | nil => intro h'; exact .inr h'
  | cons y ys ih =>
    intro h'
    rcases ih (insertByDepthDesc y acc) h' with h'' | h''
    · exact .inl (List.mem_cons_of_mem y h'')
    · rcases (mem_insertByDepthDesc y a acc).mp h'' with h3 | h3
      · exact .inl (h3 ▸ List.mem_cons_self a ys)
      · exact .inr h3

/-- Paths that are themselves listed never appear among their own
breadcrumbs: "delete any intermediate paths that are also leafs". -/
theorem mem_paths_not_mem_getBreadcrumbs (paths : List String) (p : String)
    (hp : p ∈ paths) : p ∉ getBreadcrumbs paths := by
  intro hmem
  unfold getBreadcrumbs at hmem
  have h1 := mem_sortByDepthDesc _ _ hmem
  have h2 := List.mem_filter.mp h1
  have h3 := h2.2
  simp only [decide_eq_true_eq] at h3
  exact h3 hp

theorem setFlag_idem (flag : PropFlag) (v : Bool) (p : PropertyInfo) :
    setFlag flag v (setFlag flag v p) = setFlag flag v p := by
  cases p
  cases flag <;> rfl

theorem setFlag_readOnly_fields (v : Bool) (p : PropertyInfo) :
    (setFlag .readOnly v p).readOnly = some v ∧
    (setFlag .readOnly v p).isAttribute = p.isAttribute ∧
    (setFlag .readOnly v p).type = p.type := by
  cases p
  exact ⟨rfl, rfl, rfl⟩

theorem lookup_mapIte {α : Type} (ps : List (String × α)) (n : String)
    (g : α → α) :
    List.lookup n (ps.map (fun np => if np.1 = n then (np.1, g np.2) else np))
      = (List.lookup n ps).map g := by
  induction ps with
  | nil => rfl
  | cons hd tl ih =>
    obtain ⟨k, v⟩ := hd
    by_cases h : k = n
    · subst h
      rw [List.map_cons, if_pos rfl]
      simp [List.lookup, ih]
    · have h' : (n == k) = false := by
        simp only [beq_eq_false_iff_ne, ne_eq]
        exact fun e => h e.symm
      rw [List.map_cons, if_neg h]
      simp [List.lookup, h', ih]

theorem foldl_mapIte {α : Type} (g : α → α)
    (hg : ∀ p, g (g p) = g p) (names : List String) :
    ∀ (l : List (String × α)),
    names.foldl
      (fun l n => l.map (fun np => if np.1 = n then (np.1, g np.2) else np)) l
      = l.map (fun np => if np.1 ∈ names then (np.1, g np.2) else np) := by
  induction names with
  | nil =>
    intro l
    simp
  | cons n ns ih =>
    intro l
    simp only [List.foldl_cons, ih, List.map_map]
    apply List.map_congr_left
    intro np _
    by_cases h1 : np.1 = n
    · by_cases h2 : np.1 ∈ ns <;>
        simp [Function.comp, h1, h2, hg, List.mem_cons]
    · by_cases h2 : np.1 ∈ ns <;>
        simp [Function.comp, h1, h2, List.mem_cons]

/-- The update that `modifyPropAt` at `⟨.rootProps, [.propType pname]⟩`
applies to the parent property holding the child. -/
def childModify (cname : String) (g : PropertyInfo → PropertyInfo) :
    PropertyInfo → PropertyInfo
  | .mk d a r t =>
    .mk d a r
      (match t with
       | .object pi pp pr =>
         .object pi
           (pp.map (fun cp => if cp.1 = cname then (cp.1, g cp.2) else cp)) pr
       | t => t)

theorem modifyPropAt_root_self (st : BState) (i : String)
    (rprops : List (String × PropertyInfo)) (req : List String)
    (pname : String) (f : PropertyInfo → PropertyInfo)
    (hshape : st.propertiesDef.type = .object i rprops req) :
    modifyPropAt st (⟨.rootProps, []⟩, pname) f =
      { st with propertiesDef := ⟨st.propertiesDef.documentation,
          .object i (rprops.map (fun np =>
            if np.1 = pname then (np.1, f np.2) else np)) req⟩ } := by
  unfold modifyPropAt updateTyAt
  rw [hshape]
  rfl

theorem modifyPropAt_root_child (st : BState) (i : String)
    (rprops : List (String × PropertyInfo)) (req : List String)
    (pname cname : String) (g : PropertyInfo → PropertyInfo)
    (hshape : st.propertiesDef.type = .object i rprops req) :
    modifyPropAt st (⟨.rootProps, [.propType pname]⟩, cname) g =
      { st with propertiesDef := ⟨st.propertiesDef.documentation,
          .object i (rprops.map (fun np =>
            if np.1 = pname then (np.1, childModify cname g np.2) else np))
            req⟩ } := by
  rw [show modifyPropAt st (⟨.rootProps, [.propType pname]⟩, cname) g =
    { st with propertiesDef := ⟨st.propertiesDef.documentation,
        updateTySteps st.propertiesDef.type [.propType pname]
          (fun t => match t with
            | .object i props req =>
              .object i (props.map (fun np =>
                if np.1 = cname then (np.1, g np.2) else np)) req
            | t => t)⟩ } from rfl]
  rw [hshape]
  unfold updateTySteps
  congr 2
  congr 1
  apply List.map_congr_left
  intro np _
  by_cases h : np.1 = pname
  · rw [if_pos h, if_pos h]
    cases np.2 with
    | mk d a r t =>
      simp only [childModify]
      cases t with
      | array i2 ii => cases ii; rfl
      | any _ => rfl
      | unknown _ => rfl
      | boolean _ => rfl
      | integer _ => rfl
      | number _ => rfl
      | null _ => rfl
      | string _ => rfl
      | const _ _ => rfl
      | enum _ _ => rfl
      | object _ _ _ => rfl
      | record _ _ => rfl
      | reference _ _ => rfl
      | union _ _ => rfl
  · rw [if_neg h, if_neg h]

theorem foldl_modify_children (pname : String)
    (g : PropertyInfo → PropertyInfo) (names : List String) :
    ∀ (st : BState) (i : String) (rprops : List (String × PropertyInfo))
      (req : List String),
    st.propertiesDef.type = .object i rprops req →
    names.foldl (fun st n =>
        modifyPropAt st (⟨.rootProps, [.propType pname]⟩, n) g) st =
      { st with propertiesDef := ⟨st.propertiesDef.documentation,
          .object i (rprops.map (fun np =>
            if np.1 = pname then
              (np.1, names.foldl (fun p n => childModify n g p) np.2)
            else np)) req⟩ } := by
  induction names with
  | nil =>
    intro st i rprops req hshape
    simp only [List.foldl_nil, Prod.mk.eta, ite_self, List.map_id']
    rw [← hshape]
  | cons n ns ih =>
    intro st i rprops req hshape
    rw [List.foldl_cons,
      modifyPropAt_root_child st i rprops req pname n g hshape]
    rw [ih _ i (rprops.map (fun np =>
      if np.1 = pname then (np.1, childModify n g np.2) else np)) req rfl]
    congr 2
    rw [List.map_map]
    congr 1
    apply List.map_congr_left
    intro np _
    by_cases h : np.1 = pname
    · simp only [Function.comp_apply, if_pos h, List.foldl_cons]
    · simp only [Function.comp_apply, if_neg h]

theorem childFold_object (g : PropertyInfo → PropertyInfo)
    (names : List String) :
    ∀ (pp : List (String × PropertyInfo)) (d : Option Json)
      (a r : Option Bool) (pi' : String) (pr : List String),
    names.foldl (fun p n => childModify n g p) (.mk d a r (.object pi' pp pr))
      = .mk d a r (.object pi'
          (names.foldl (fun l n =>
            l.map (fun cp => if cp.1 = n then (cp.1, g cp.2) else cp)) pp) pr)
    := by
  induction names with
  | nil => intro pp d a r pi' pr; rfl
  | cons n ns ih =>
    intro pp d a r pi' pr
    simp only [List.foldl_cons, childModify]
    exact ih _ d a r pi' pr

theorem markObjectProps_fold (flag : PropFlag) (value : Bool)
    (names : List String) :
    ∀ (f : Nat) (s : BState) (loc : TyLoc) (stack : List Ty),
    names.length < f →
    markObjectProps f s loc names flag value (some 1) 1 stack =
      .ok (names.foldl
        (fun st n => modifyPropAt st (loc, n) (setFlag flag value)) s) := by
  induction names with
  | nil =>
    intro f s loc stack hf
    cases f with
    | zero => omega
    | succ f' => rfl
  | cons n ns ih =>
    intro f s loc stack hf
    cases f with
    | zero => omega
    | succ f' =>
      rw [markObjectProps]
      simp only [Option.all, Nat.lt_irrefl, decide_False, Bool.false_eq_true,
        if_false, ih f' _ loc stack (Nat.lt_of_succ_lt_succ hf),
        List.foldl_cons]

theorem markChildren_object_depth1 (f : Nat) (s : BState) (loc : TyLoc)
    (i : String) (props : List (String × PropertyInfo)) (req : List String)
    (flag : PropFlag) (value : Bool)
    (hty : tyAt s loc = some (.object i props req))
    (hfuel : props.length < f) :
    markChildren (f + 1) s loc flag value (some 1) 1 [] =
      .ok ((props.map Prod.fst).foldl
        (fun st n => modifyPropAt st (loc, n) (setFlag flag value)) s) := by
  rw [markChildren, hty]
  simp only [stackHas, List.any_nil, Bool.false_eq_true, if_false]
  rw [List.nil_append]
  exact markObjectProps_fold flag value (props.map Prod.fst) f s loc
    [Ty.object i props req] (by simpa using hfuel)

/-- The immediate-children demotion applied by the breadcrumb pass. -/
def demoteProps (pp : List (String × PropertyInfo)) :
    List (String × PropertyInfo) :=
  pp.map (fun cp => (cp.1, setFlag .readOnly false cp.2))

/-- The state after promoting the root property `pname` to read-only and
demoting each of its immediate children. -/
def demotedState (s : BState) (pname : String) (names : List String) :
    BState :=
  names.foldl (fun st n =>
      modifyPropAt st (⟨.rootProps, [.propType pname]⟩, n)
        (setFlag .readOnly false))
    (modifyPropAt s (⟨.rootProps, []⟩, pname) (fun p => p.withReadOnly true))

/-! General read-after-write lemmas for the location machinery, valid at an
arbitrary `TyLoc` (under the root object, nested, or inside a definition). -/

/-- Walk `steps` down from a type value. -/
def tyStepsAt (t : Ty) (steps : List TyStep) : Option Ty :=
  steps.foldl (fun acc step => acc.bind (fun u => stepTy u step)) (some t)

theorem foldl_bind_none (steps : List TyStep) :
    steps.foldl (fun acc step => acc.bind (fun u => stepTy u step)) none =
      (none : Option Ty) := by
  induction steps with
  | nil => rfl
  | cons st rest ih => simpa only [List.foldl_cons, Option.none_bind] using ih

theorem tyStepsAt_cons (t0 : Ty) (st : TyStep) (rest : List TyStep) :
    tyStepsAt t0 (st :: rest) =
      (stepTy t0 st).bind (fun t1 => tyStepsAt t1 rest) := by
  unfold tyStepsAt
  rw [List.foldl_cons, Option.some_bind]
  cases stepTy t0 st with
  | none => rw [Option.none_bind]; exact foldl_bind_none rest
  | some t1 => rfl

theorem tyAt_some_decomp (s : BState) (loc : TyLoc) (t : Ty)
    (h : tyAt s loc = some t) :
    ∃ t0, baseTy s loc.base = some t0 ∧ tyStepsAt t0 loc.steps = some t := by
  unfold tyAt at h
  cases hb : baseTy s loc.base with
  | none =>
    rw [hb, foldl_bind_none] at h
    exact Option.noConfusion h
  | some t0 =>
    rw [hb] at h
    exact ⟨t0, rfl, h⟩

/-- `List.lookup` through a key-preserving `map`. -/
theorem lookup_map_keyed {α β : Type} (fn : String × α → String × β)
    (props : List (String × α)) (name : String)
    (hkey : ∀ np, (fn np).1 = np.1) :
    (props.map fn).lookup name =
      (props.lookup name).map (fun v => (fn (name, v)).2) := by
  induction props with
  | nil => rfl
  | cons hd tl ih =>
    obtain ⟨k, v⟩ := hd
    by_cases h : name = k
    · subst h
      rw [List.map_cons,
        show fn (name, v) = ((fn (name, v)).1, (fn (name, v)).2) from rfl,
        hkey (name, v)]
      simp [List.lookup]
    · have hbeq : (name == k) = false := by
        simp only [beq_eq_false_iff_ne, ne_eq]
        exact h
      rw [List.map_cons,
        show fn (k, v) = ((fn (k, v)).1, (fn (k, v)).2) from rfl,
        hkey (k, v)]
      simp [List.lookup, hbeq, ih]

theorem mapIdx_get? {α β : Type} :
    ∀ (l : List α) (f : Nat → α → β) (k : Nat),
    (l.mapIdx f).get? k = (l.get? k).map (f k) := by
  intro l
  induction l with
  | nil => intro f k; cases k <;> rfl
  | cons a tl ih =>
    intro f k
    rw [List.mapIdx_cons]
    cases k with
    | zero => rfl
    | succ k2 =>
      simp only [List.get?]
      exact ih (fun i x => f (i + 1) x) k2

theorem stepTy_updateTySteps (t0 t1 : Ty) (st : TyStep) (rest : List TyStep)
    (f : Ty → Ty) (hst : stepTy t0 st = some t1) :
    stepTy (updateTySteps t0 (st :: rest) f) st =
      some (updateTySteps t1 rest f) := by
  cases st with
  | propType name =>
    cases t0 with
    | object i props req =>
      simp only [stepTy] at hst
      obtain ⟨p, hp, hpt⟩ : ∃ p, props.lookup name = some p ∧
          p.type = t1 := by
        cases hl : props.lookup name with
        | none => rw [hl] at hst; exact Option.noConfusion hst
        | some p => rw [hl] at hst; exact ⟨p, rfl, Option.some.inj hst⟩
      simp only [updateTySteps, stepTy]
      have hlk := lookup_map_keyed
        (fun np : String × PropertyInfo =>
          if np.1 = name then
            match np.2 with
            | .mk d a r t => (np.1, .mk d a r (updateTySteps t rest f))
          else np) props name
        (by
          intro np
          show (if np.1 = name then
            match np.2 with
            | .mk d a r t =>
              (np.1, (.mk d a r (updateTySteps t rest f) : PropertyInfo))
          else np).1 = np.1
          by_cases hn : np.1 = name
          · rw [if_pos hn]
            cases np.2 with
            | mk d a r u => rfl
          · rw [if_neg hn])
      rw [hlk, hp]
      cases p with
      | mk d a r u =>
        simp only [PropertyInfo.type] at hpt
        subst hpt
        simp [PropertyInfo.type]
    | any x => exact Option.noConfusion hst
    | unknown x => exact Option.noConfusion hst
    | boolean x => exact Option.noConfusion hst
    | integer x => exact Option.noConfusion hst
    | number x => exact Option.noConfusion hst
    | null x => exact Option.noConfusion hst
    | string x => exact Option.noConfusion hst
    | const x v => exact Option.noConfusion hst
    | enum x vs => exact Option.noConfusion hst
    | array x ii => cases ii with | mk d ty => exact Option.noConfusion hst
    | record x v => exact Option.noConfusion hst
    | reference x nm => exact Option.noConfusion hst
    | union x items => exact Option.noConfusion hst
  | arrayItems =>
    cases t0 with
    | array x ii =>
      cases ii with
      | mk d ty =>
        simp only [stepTy] at hst
        cases hst
        rfl
    | any x => exact Option.noConfusion hst
    | unknown x => exact Option.noConfusion hst
    | boolean x => exact Option.noConfusion hst
    | integer x => exact Option.noConfusion hst
    | number x => exact Option.noConfusion hst
    | null x => exact Option.noConfusion hst
    | string x => exact Option.noConfusion hst
    | const x v => exact Option.noConfusion hst
    | enum x vs => exact Option.noConfusion hst
    | object x ps rq => exact Option.noConfusion hst
    | record x v => exact Option.noConfusion hst
    | reference x nm => exact Option.noConfusion hst
    | union x items => exact Option.noConfusion hst
  | recordValue =>
    cases t0 with
    | record x v =>
      simp only [stepTy] at hst
      cases hst
      rfl
    | any x => exact Option.noConfusion hst
    | unknown x => exact Option.noConfusion hst
    | boolean x => exact Option.noConfusion hst
    | integer x => exact Option.noConfusion hst
    | number x => exact Option.noConfusion hst
    | null x => exact Option.noConfusion hst
    | string x => exact Option.noConfusion hst
    | const x v => exact Option.noConfusion hst
    | enum x vs => exact Option.noConfusion hst
    | object x ps rq => exact Option.noConfusion hst
    | array x ii => cases ii with | mk d ty => exact Option.noConfusion hst
    | reference x nm => exact Option.noConfusion hst
    | union x items => exact Option.noConfusion hst
  | unionItem k =>
    cases t0 with
    | union x items =>
      simp only [stepTy] at hst
      simp only [updateTySteps, stepTy]
      rw [mapIdx_get? items _ k, hst]
      simp
    | any x => exact Option.noConfusion hst
    | unknown x => exact Option.noConfusion hst
    | boolean x => exact Option.noConfusion hst
    | integer x => exact Option.noConfusion hst
    | number x => exact Option.noConfusion hst
    | null x => exact Option.noConfusion hst
    | string x => exact Option.noConfusion hst
    | const x v => exact Option.noConfusion hst
    | enum x vs => exact Option.noConfusion hst
    | object x ps rq => exact Option.noConfusion hst
    | array x ii => cases ii with | mk d ty => exact Option.noConfusion hst
    | record x v => exact Option.noConfusion hst
    | reference x nm => exact Option.noConfusion hst

theorem updateTySteps_nil (t : Ty) (f : Ty → Ty) :
    updateTySteps t [] f = f t := by
  simp only [updateTySteps]

theorem tyStepsAt_updateTySteps :
    ∀ (steps : List TyStep) (t0 t : Ty) (f : Ty → Ty),
    tyStepsAt t0 steps = some t →
    tyStepsAt (updateTySteps t0 steps f) steps = some (f t) := by
  intro steps
  induction steps with
  | nil =>
    intro t0 t f h
    have ht : t0 = t := Option.some.inj h
    subst ht
    rw [updateTySteps_nil]
    rfl
  | cons st rest ih =>
    intro t0 t f h
    rw [tyStepsAt_cons] at h
    cases hst : stepTy t0 st with
    | none => rw [hst, Option.none_bind] at h; exact Option.noConfusion h
    | some t1 =>
      rw [hst, Option.some_bind] at h
      rw [tyStepsAt_cons, stepTy_updateTySteps t0 t1 st rest f hst,
        Option.some_bind]
      exact ih t1 t f h

/-- Reading back at the very location just written. -/
theorem tyAt_updateTyAt_self (s : BState) (loc : TyLoc) (f : Ty → Ty) (t : Ty)
    (h : tyAt s loc = some t) :
    tyAt (updateTyAt s loc f) loc = some (f t) := by
  obtain ⟨b, steps⟩ := loc
  obtain ⟨t0, hb, hsteps⟩ := tyAt_some_decomp s ⟨b, steps⟩ t h
  cases b with
  | rootProps =>
    have ht0 : s.propertiesDef.type = t0 := Option.some.inj hb
    subst ht0
    exact tyStepsAt_updateTySteps steps _ t f hsteps
  | defn name =>
    simp only [baseTy] at hb
    obtain ⟨td, htd, htdt⟩ : ∃ td, s.definitions.lookup name = some td ∧
        td.type = t0 := by
      cases hl : s.definitions.lookup name with
      | none => rw [hl] at hb; exact Option.noConfusion hb
      | some td => rw [hl] at hb; exact ⟨td, rfl, Option.some.inj hb⟩
    have hbnew : baseTy (updateTyAt s ⟨.defn name, steps⟩ f) (.defn name) =
        some (updateTySteps td.type steps f) := by
      show ((s.definitions.map (fun nd =>
        if nd.1 = name then
          (nd.1, (⟨nd.2.documentation, updateTySteps nd.2.type steps f⟩ :
            TypeDefinition))
        else nd)).lookup name).map TypeDefinition.type =
          some (updateTySteps td.type steps f)
      rw [show (fun nd : String × TypeDefinition =>
        if nd.1 = name then
          (nd.1, (⟨nd.2.documentation, updateTySteps nd.2.type steps f⟩ :
            TypeDefinition))
        else nd) = (fun nd : String × TypeDefinition =>
        if nd.1 = name then
          (nd.1, (fun td2 : TypeDefinition =>
            (⟨td2.documentation, updateTySteps td2.type steps f⟩ :
              TypeDefinition)) nd.2)
        else nd) from rfl]
      rw [lookup_mapIte s.definitions name (fun td2 : TypeDefinition =>
        (⟨td2.documentation, updateTySteps td2.type steps f⟩ :
          TypeDefinition)), htd]
      rfl
    unfold tyAt
    rw [hbnew]
    subst htdt
    exact tyStepsAt_updateTySteps steps td.type t f hsteps

theorem tyAt_append (s : BState) (b : TyBase) (steps : List TyStep)
    (st : TyStep) :
    tyAt s ⟨b, steps ++ [st]⟩ =
      (tyAt s ⟨b, steps⟩).bind (fun t => stepTy t st) := by
  unfold tyAt
  simp only [List.foldl_append, List.foldl_cons, List.foldl_nil]

theorem updateTySteps_append_one (st : TyStep) (g : Ty → Ty) :
    ∀ (steps : List TyStep) (t : Ty),
    updateTySteps t (steps ++ [st]) g =
      updateTySteps t steps (fun u => updateTySteps u [st] g) := by
  intro steps
  induction steps with
  | nil =>
    intro t
    rw [List.nil_append, updateTySteps_nil]
  | cons s0 rest ih =>
    intro t
    cases t with
    | object i props req =>
      cases s0 with
      | propType name =>
        simp only [List.cons_append, updateTySteps, List.append_eq, ih]
      | arrayItems => rfl
      | recordValue => rfl
      | unionItem k => rfl
    | array i ii =>
      cases ii with
      | mk d ty =>
        cases s0 with
        | arrayItems =>
          simp only [List.cons_append, updateTySteps, List.append_eq, ih]
        | propType name => rfl
        | recordValue => rfl
        | unionItem k => rfl
    | record i v =>
      cases s0 with
      | recordValue =>
        simp only [List.cons_append, updateTySteps, List.append_eq, ih]
      | propType name => rfl
      | arrayItems => rfl
      | unionItem k => rfl
    | union i items =>
      cases s0 with
      | unionItem k =>
        simp only [List.cons_append, updateTySteps, List.append_eq, ih]
      | propType name => rfl
      | arrayItems => rfl
      | recordValue => rfl
    | any x => cases s0 <;> rfl
    | unknown x => cases s0 <;> rfl
    | boolean x => cases s0 <;> rfl
    | integer x => cases s0 <;> rfl
    | number x => cases s0 <;> rfl
    | null x => cases s0 <;> rfl
    | string x => cases s0 <;> rfl
    | const x v => cases s0 <;> rfl
    | enum x vs => cases s0 <;> rfl
    | reference x nm => cases s0 <;> rfl

theorem updateTyAt_append_one (s : BState) (b : TyBase) (steps : List TyStep)
    (st : TyStep) (g : Ty → Ty) :
    updateTyAt s ⟨b, steps ++ [st]⟩ g =
      updateTyAt s ⟨b, steps⟩ (fun u => updateTySteps u [st] g) := by
  unfold updateTyAt
  cases b with
  | rootProps => simp only [updateTySteps_append_one]
  | defn name => simp only [updateTySteps_append_one]

/-- The type-level update carried out by `modifyPropAt`. -/
def objPropsMap (n : String) (g : PropertyInfo → PropertyInfo) : Ty → Ty
  | .object i props req =>
    .object i (props.map (fun np => if np.1 = n then (np.1, g np.2) else np))
      req
  | t => t

theorem modifyPropAt_eq (s : BState) (pl : PropLoc)
    (f : PropertyInfo → PropertyInfo) :
    modifyPropAt s pl f = updateTyAt s pl.1 (objPropsMap pl.2 f) := by
  unfold modifyPropAt
  congr 1

theorem updateTySteps_propType_objPropsMap (i pname n : String)
    (g : PropertyInfo → PropertyInfo) (rprops : List (String × PropertyInfo))
    (req : List String) :
    updateTySteps (.object i rprops req) [.propType pname] (objPropsMap n g) =
      .object i (rprops.map (fun np =>
        if np.1 = pname then (np.1, childModify n g np.2) else np)) req := by
  simp only [updateTySteps]
  congr 1
  apply List.map_congr_left
  intro np _
  by_cases hn : np.1 = pname
  · rw [if_pos hn, if_pos hn]
    cases np.2 with
    | mk d a r u =>
      simp only [childModify]
      cases u <;> rfl
  · rw [if_neg hn, if_neg hn]

/-- Demoting children one after the other at an arbitrary parent location. -/
theorem foldl_modify_children_at (L : TyLoc) (pname : String)
    (g : PropertyInfo → PropertyInfo) (names : List String) :
    ∀ (st : BState) (i : String) (rprops : List (String × PropertyInfo))
      (req : List String),
    tyAt st L = some (.object i rprops req) →
    tyAt (names.foldl (fun st2 n =>
        modifyPropAt st2 (⟨L.base, L.steps ++ [.propType pname]⟩, n) g) st) L =
      some (.object i (rprops.map (fun np =>
        if np.1 = pname then
          (np.1, names.foldl (fun p n => childModify n g p) np.2)
        else np)) req) := by
  induction names with
  | nil =>
    intro st i rprops req hty
    simp only [List.foldl_nil, Prod.mk.eta, ite_self, List.map_id']
    exact hty
  | cons n ns ih =>
    intro st i rprops req hty
    rw [List.foldl_cons]
    have hstate : modifyPropAt st (⟨L.base, L.steps ++ [.propType pname]⟩, n) g
        = updateTyAt st L
          (fun u => updateTySteps u [.propType pname] (objPropsMap n g)) := by
      rw [modifyPropAt_eq]
      exact updateTyAt_append_one st L.base L.steps (.propType pname)
        (objPropsMap n g)
    have hone : tyAt (modifyPropAt st
        (⟨L.base, L.steps ++ [.propType pname]⟩, n) g) L =
        some (.object i (rprops.map (fun np =>
          if np.1 = pname then (np.1, childModify n g np.2) else np)) req) := by
      rw [hstate, tyAt_updateTyAt_self st L _ _ hty]
      rw [updateTySteps_propType_objPropsMap]
    rw [ih _ i _ req hone]
    rw [List.map_map]
    congr 2
    apply List.map_congr_left
    intro np _
    by_cases hn : np.1 = pname
    · simp only [Function.comp_apply, if_pos hn, List.foldl_cons]
    · simp only [Function.comp_apply, if_neg hn]

/-- The state after promoting the matched property at `pl` to read-only and
demoting each of its immediate children. -/
def demotedStateAt (s : BState) (pl : PropLoc) (names : List String) :
    BState :=
  names.foldl (fun st n =>
      modifyPropAt st (propTypeLoc pl, n) (setFlag .readOnly false))
    (modifyPropAt s pl (fun p => p.withReadOnly true))

/-- **C5** (amended, per-ancestor step).  For any matched ancestor object
property — at an arbitrary property location `pl`: an immediate root
property, a nested one, or one inside a definition — whose immediate
children all carry `readOnly = true`, one step of the breadcrumb pass
continues with the state in which the ancestor itself is marked
`readOnly = true`, every immediate child's `readOnly` flag is reset to
`false`, and the ancestor is additionally marked `isAttribute = true`
exactly when some child is an attribute.  (The pass only ever receives
ancestor paths from `getBreadcrumbs`, which exclude any path explicitly
listed — see `mem_paths_not_mem_getBreadcrumbs` and the counterexample.) -/
theorem claim_C5_breadcrumbStep (f : Nat) (s : BState) (pls : List PropLoc)
    (pl : PropLoc) (i pi' : String)
    (rprops pprops : List (String × PropertyInfo))
    (req preq : List String) (d : Option Json) (a r : Option Bool)
    (hloc : tyAt s pl.1 = some (.object i rprops req))
    (hP : rprops.lookup pl.2 = some (.mk d a r (.object pi' pprops preq)))
    (hfuel : pprops.length + 1 < f)
    (hAllRO : pprops.all (fun np => np.2.readOnly = some true) = true) :
    breadcrumbProps f s (pl :: pls) =
      breadcrumbProps f
        (if pprops.any (fun np => np.2.isAttribute = some true) then
          modifyPropAt (demotedStateAt s pl (pprops.map Prod.fst)) pl
            (fun p => p.withIsAttribute true)
        else demotedStateAt s pl (pprops.map Prod.fst)) pls ∧
    propAt (demotedStateAt s pl (pprops.map Prod.fst)) pl =
      some (.mk d a (some true) (.object pi' (demoteProps pprops) preq)) ∧
    (∀ np ∈ demoteProps pprops, np.2.readOnly = some false) ∧
    (demoteProps pprops).map Prod.fst = pprops.map Prod.fst ∧
    (pprops.any (fun np => np.2.isAttribute = some true) = true →
      propAt (modifyPropAt (demotedStateAt s pl (pprops.map Prod.fst)) pl
          (fun p => p.withIsAttribute true)) pl =
        some (.mk d (some true) (some true)
          (.object pi' (demoteProps pprops) preq))) := by
  obtain ⟨f, rfl⟩ : ∃ f', f = f' + 1 := by
    cases f with
    | zero => omega
    | succ f' => exact ⟨f', rfl⟩
  -- reading the parent object back after promoting the matched property
  have hs2read : tyAt (modifyPropAt s pl (fun p => p.withReadOnly true)) pl.1 =
      some (.object i (rprops.map (fun np =>
        if np.1 = pl.2 then
          (np.1, (fun p : PropertyInfo => p.withReadOnly true) np.2)
        else np)) req) := by
    rw [modifyPropAt_eq]
    exact tyAt_updateTyAt_self s pl.1
      (objPropsMap pl.2 (fun p => p.withReadOnly true)) _ hloc
  -- lookup of the parent in the promoted object
  have hlook2 : (rprops.map (fun np =>
      if np.1 = pl.2 then
        (np.1, (fun p : PropertyInfo => p.withReadOnly true) np.2)
      else np)).lookup
        pl.2 = some (.mk d a (some true) (.object pi' pprops preq)) := by
    rw [lookup_mapIte rprops pl.2 (fun p : PropertyInfo => p.withReadOnly true),
      hP]
    rfl
  -- the demoted children list
  have hfold : (pprops.map Prod.fst).foldl (fun l n =>
      l.map (fun cp => if cp.1 = n then (cp.1, setFlag .readOnly false cp.2)
        else cp)) pprops = demoteProps pprops := by
    rw [foldl_mapIte (setFlag .readOnly false) (setFlag_idem .readOnly false)]
    apply List.map_congr_left
    intro cp hcp
    rw [if_pos (List.mem_map_of_mem Prod.fst hcp)]
  -- evaluation of the walked property lookup at the original state
  have hPA : propAt s pl = some (.mk d a r (.object pi' pprops preq)) := by
    unfold propAt
    rw [hloc]
    exact hP
  have hallro : allReadOnlyChildren (f + 1) s (.object pi' pprops preq) =
      .ok true := by
    rw [allReadOnlyChildren, hAllRO]
  -- the promoted property's type read at its own type location
  have htyloc2 : tyAt (modifyPropAt s pl (fun p => p.withReadOnly true))
      (propTypeLoc pl) = some (.object pi' pprops preq) := by
    have happ := tyAt_append (modifyPropAt s pl (fun p => p.withReadOnly true))
      pl.1.base pl.1.steps (.propType pl.2)
    rw [show (⟨pl.1.base, pl.1.steps⟩ : TyLoc) = pl.1 from rfl, hs2read]
      at happ
    refine happ.trans ?_
    rw [Option.some_bind]
    show ((rprops.map (fun np =>
      if np.1 = pl.2 then
        (np.1, (fun p : PropertyInfo => p.withReadOnly true) np.2)
      else np)).lookup pl.2).map PropertyInfo.type =
        some (.object pi' pprops preq)
    rw [hlook2]
    rfl
  have hmark : markChildren (f + 1)
      (modifyPropAt s pl (fun p => p.withReadOnly true))
      (propTypeLoc pl) .readOnly false (some 1) 1 [] =
      .ok (demotedStateAt s pl (pprops.map Prod.fst)) :=
    markChildren_object_depth1 f _ _ pi' pprops preq .readOnly false htyloc2
      (by simpa using Nat.lt_of_succ_lt_succ hfuel)
  -- reading the parent object back in the demoted state
  have hread3 : tyAt (demotedStateAt s pl (pprops.map Prod.fst)) pl.1 =
      some (.object i ((rprops.map (fun np =>
        if np.1 = pl.2 then
          (np.1, (fun p : PropertyInfo => p.withReadOnly true) np.2)
        else np)).map (fun np =>
          if np.1 = pl.2 then
            (np.1, (pprops.map Prod.fst).foldl
              (fun p n => childModify n (setFlag .readOnly false) p) np.2)
          else np)) req) :=
    foldl_modify_children_at pl.1 pl.2 (setFlag .readOnly false)
      (pprops.map Prod.fst) _ i _ req hs2read
  -- lookup of the parent in the demoted object
  have hlookG : ((rprops.map (fun np =>
      if np.1 = pl.2 then
        (np.1, (fun p : PropertyInfo => p.withReadOnly true) np.2)
      else np)).map (fun np =>
        if np.1 = pl.2 then
          (np.1, (pprops.map Prod.fst).foldl
            (fun p n => childModify n (setFlag .readOnly false) p) np.2)
        else np)).lookup pl.2 =
      some (.mk d a (some true) (.object pi' (demoteProps pprops) preq)) := by
    rw [lookup_mapIte _ pl.2 (fun p : PropertyInfo =>
      (pprops.map Prod.fst).foldl
        (fun p n => childModify n (setFlag .readOnly false) p) p)]
    rw [hlook2]
    simp only [Option.map_some']
    rw [childFold_object (setFlag .readOnly false) (pprops.map Prod.fst)
      pprops d a (some true) pi' preq]
    rw [hfold]
  have hprop3 : propAt (demotedStateAt s pl (pprops.map Prod.fst)) pl =
      some (.mk d a (some true) (.object pi' (demoteProps pprops) preq)) := by
    unfold propAt
    rw [hread3]
    exact hlookG
  have hany3 : anyAttributeChildren (f + 1)
      (demotedStateAt s pl (pprops.map Prod.fst))
      (.object pi' (demoteProps pprops) preq) =
      .ok (pprops.any (fun np => np.2.isAttribute = some true)) := by
    rw [anyAttributeChildren]
    unfold demoteProps
    rw [List.any_map]
    have hcomp : ((fun np : String × PropertyInfo =>
        decide (np.2.isAttribute = some true)) ∘
          fun cp : String × PropertyInfo =>
            (cp.1, setFlag PropFlag.readOnly false cp.2)) =
        (fun np : String × PropertyInfo =>
          decide (np.2.isAttribute = some true)) := by
      funext np
      simp [Function.comp, (setFlag_readOnly_fields false np.2).2.1]
    rw [hcomp]
  refine ⟨?_, hprop3, ?_, ?_, ?_⟩
  · -- the step equation
    rw [breadcrumbProps, hPA]
    simp only [PropertyInfo.type]
    rw [hallro]
    simp only [if_true]
    rw [hmark]
    simp only []
    rw [hprop3]
    simp only [PropertyInfo.type]
    rw [hany3]
  · -- every demoted child carries readOnly = false
    intro np hnp
    unfold demoteProps at hnp
    obtain ⟨cp, _, rfl⟩ := List.mem_map.mp hnp
    exact (setFlag_readOnly_fields false cp.2).1
  · -- demotion preserves the property names
    unfold demoteProps
    rw [List.map_map]
    apply List.map_congr_left
    intro cp _
    rfl
  · -- attribute promotion of the parent
    intro hany
    have hmod : tyAt (modifyPropAt (demotedStateAt s pl (pprops.map Prod.fst))
        pl (fun p => p.withIsAttribute true)) pl.1 =
        some (objPropsMap pl.2 (fun p => p.withIsAttribute true)
          (.object i ((rprops.map (fun np =>
            if np.1 = pl.2 then
              (np.1, (fun p : PropertyInfo => p.withReadOnly true) np.2)
            else np)).map (fun np =>
              if np.1 = pl.2 then
                (np.1, (pprops.map Prod.fst).foldl
                  (fun p n => childModify n (setFlag .readOnly false) p) np.2)
              else np)) req)) := by
      rw [modifyPropAt_eq]
      exact tyAt_updateTyAt_self _ pl.1
        (objPropsMap pl.2 (fun p => p.withIsAttribute true)) _ hread3
    have hlookH : (((rprops.map (fun np =>
        if np.1 = pl.2 then
          (np.1, (fun p : PropertyInfo => p.withReadOnly true) np.2)
        else np)).map (fun np =>
          if np.1 = pl.2 then
            (np.1, (pprops.map Prod.fst).foldl
              (fun p n => childModify n (setFlag .readOnly false) p) np.2)
          else np)).map (fun np =>
        if np.1 = pl.2 then
          (np.1, (fun p : PropertyInfo => p.withIsAttribute true) np.2)
        else np)).lookup pl.2 =
        some (.mk d (some true) (some true)
          (.object pi' (demoteProps pprops) preq)) := by
      rw [lookup_mapIte _ pl.2 (fun p : PropertyInfo => p.withIsAttribute true),
        hlookG]
      rfl
    unfold propAt
    rw [hmod]
    exact hlookH

def c5WState : BState :=
  { initialState emptyDocumenter jsEmpty with
    propertiesDef := ⟨none, .object "/"
      [("P", .mk none none none (.object "/properties/P"
        [("Q", .mk none none none (.object "/properties/P/Q"
          [("A", .mk none (some true) (some true) (.string "x")),
           ("B", .mk none none (some true) (.string "y"))] []))] []))] []⟩ }

theorem claim_C5_breadcrumbStep_witness :
    propAt (demotedStateAt c5WState (⟨.rootProps, [.propType "P"]⟩, "Q")
        ["A", "B"]) (⟨.rootProps, [.propType "P"]⟩, "Q") =
      some (.mk none none (some true) (.object "/properties/P/Q"
        [("A", .mk none (some true) (some false) (.string "x")),
         ("B", .mk none none (some false) (.string "y"))] [])) :=
  (claim_C5_breadcrumbStep 5 c5WState [] (⟨.rootProps, [.propType "P"]⟩, "Q")
    "/properties/P" "/properties/P/Q"
    [("Q", .mk none none none (.object "/properties/P/Q"
      [("A", .mk none (some true) (some true) (.string "x")),
       ("B", .mk none none (some true) (.string "y"))] []))]
    [("A", .mk none (some true) (some true) (.string "x")),
     ("B", .mk none none (some true) (.string "y"))]
    [] [] none none none rfl rfl (by decide) (by decide)).2.1

/-! ### Claim C7 — reference cycles in simplify + render

The `CodeGenerator` rendering path of `aws-documenter.ts`, modelled with the
default options (`anyType = UnknownKeyword`, `exactOptionalPropertyTypes =
true`, empty `wellKnownTypes`, `defaultPropertySort`).  The JS recursion
stack compares nodes by object identity; structural equality (`tyBEq`)
stands in for identity here. -/

/-- `asciiCompare` (src/build-lib/case.ts). -/
def asciiCompare (a b : String) : Int :=
  if a = b then 0 else if a < b then -1 else 1

/-- A shallow model of the TypeScript AST nodes the generator produces. -/
inductive TsType where
  | keyword (k : String)
  | literalNull
  | literalBool (b : Bool)
  | literalNum (n : Int)
  | literalStr (s : String)
  | reference (name : SymbolName) (args : List TsType)
  | plainRef (name : String) (args : List TsType)
  | array (t : TsType)
  | typeLiteral (props : List (String × Bool × TsType))
  | union (items : List TsType)
deriving Repr

/-- `generateLiteral(value)`: composite values throw a `TypeError`. -/
def generateLiteral : Json → Except BErr TsType
  | .null => .ok .literalNull
  | .bool b => .ok (.literalBool b)
  | .num n => .ok (.literalNum n)
  | .str s => .ok (.literalStr s)
  | _ => .error (.typeError "complex types are not supported for constants")

def generateLiteralList : List Json → Except BErr (List TsType)
  | [] => .ok []
  | v :: vs =>
    match generateLiteral v, generateLiteralList vs with
    | .ok t, .ok ts => .ok (t :: ts)
    | .error e, _ => .error e
    | _, .error e => .error e

mutual

/-- `shouldAddUndefined(node)`. -/
def shouldAddUndefined : TsType → Bool
  | .keyword k => !(k = "any" || k = "unknown" || k = "undefined")
  | .union xs => shouldAddUndefinedList xs
  | _ => true

def shouldAddUndefinedList : List TsType → Bool
  | [] => true
  | t :: ts => shouldAddUndefined t && shouldAddUndefinedList ts

end

/-- Generator state: the referenced-names set and the recursion stack. -/
structure GenState where
  referencedNames : List SymbolName
  stack : List Ty

/-- `createTypeReference(name)`: record the name as referenced (JS `Set.add`)
and emit a reference node. -/
def createTypeReference (st : GenState) (name : SymbolName)
    (args : List TsType) : GenState × TsType :=
  ({ st with referencedNames :=
      if st.referencedNames.contains name then st.referencedNames
      else st.referencedNames ++ [name] },
   .reference name args)

/-- The generator configuration: the optional simplifier and its inputs. -/
structure GenCfg where
  useSimplifier : Bool
  defs : List (String × TypeDefinition)
  mode : SimplMode
  tagType : Option SymbolName

/-- Stable insertion sort of object properties by `asciiCompare` on names
(`defaultPropertySort`). -/
def insertPropSorted (x : String × PropertyInfo) :
    List (String × PropertyInfo) → List (String × PropertyInfo)
  | [] => [x]
  | y :: ys =>
    if asciiCompare x.1 y.1 < 0 then x :: y :: ys else y :: insertPropSorted x ys

def sortProps (props : List (String × PropertyInfo)) :
    List (String × PropertyInfo) :=
  props.foldl (fun acc x => insertPropSorted x acc) []

mutual

/-- `CodeGenerator.generateType(node)`: simplify unless the exact node is
already on the recursion stack, then dispatch. -/
def generateType : Nat → GenCfg → GenState → Ty →
    Except BErr (GenState × TsType)
  | 0, _, _, _ => .error .fuelOut
  | fuel + 1, cfg, st, node =>
    match
      (if cfg.useSimplifier && !(stackHas st.stack node) then
        simplifyType fuel cfg.defs cfg.mode cfg.tagType node
      else .ok node) with
    | .error e => .error e
    | .ok node => generateBody fuel cfg st node
termination_by structural fuel _ _ _ => fuel

/-- The `try`/`finally` body of `generateType`: push the (possibly
simplified) node, dispatch on its tag, pop. -/
def generateBody : Nat → GenCfg → GenState → Ty →
    Except BErr (GenState × TsType)
  | 0, _, _, _ => .error .fuelOut
  | fuel + 1, cfg, st, node =>
    let st := { st with stack := st.stack ++ [node] }
    match
      (match node with
       | .boolean _ => .ok (st, .keyword "boolean")
       | .integer _ => .ok (st, .keyword "number")
       | .number _ => .ok (st, .keyword "number")
       | .null _ => .ok (st, .literalNull)
       | .string _ => .ok (st, .keyword "string")
       | .any _ => .ok (st, .keyword "unknown")
       | .unknown _ => .ok (st, .keyword "unknown")
       | .array _ (.mk _ t) =>
         (match generateType fuel cfg st t with
          | .error e => .error e
          | .ok (st, tt) => .ok (st, .array tt))
       | .const _ v =>
         (match generateLiteral v with
          | .error e => .error e
          | .ok l => .ok (st, l))
       | .enum _ vs =>
         (match generateLiteralList vs with
          | .error e => .error e
          | .ok ls => .ok (st, .union ls))
       | .object _ props req => generateObjectType fuel cfg st props req
       | .record _ v =>
         (match generateType fuel cfg st v with
          | .error e => .error e
          | .ok (st, tv) =>
            .ok (st, .plainRef "Record" [.keyword "string", tv]))
       | .reference _ name => .ok (createTypeReference st name [])
       | .union _ items =>
         (match generateTypeList fuel cfg st items with
          | .error e => .error e
          | .ok (st, ts) => .ok (st, .union ts)) :
        Except BErr (GenState × TsType)) with
    | .error e => .error e
    | .ok (st, t) => .ok ({ st with stack := st.stack.dropLast }, t)
termination_by structural fuel _ _ _ => fuel

/-- `generateObjectType(node)`. -/
def generateObjectType : Nat → GenCfg → GenState →
    List (String × PropertyInfo) → List String →
    Except BErr (GenState × TsType)
  | 0, _, _, _, _ => .error .fuelOut
  | fuel + 1, cfg, st, props, req =>
    if props.length = 0 then
      .ok (st, .plainRef "Record" [.keyword "string", .keyword "never"])
    else
      match generateObjectProps fuel cfg st (sortProps props) req with
      | .error e => .error e
      | .ok (st, ps) => .ok (st, .typeLiteral ps)
termination_by structural fuel _ _ _ _ => fuel

/-- The property loop of `generateObjectType`. -/
def generateObjectProps : Nat → GenCfg → GenState →
    List (String × PropertyInfo) → List String →
    Except BErr (GenState × List (String × Bool × TsType))
  | 0, _, _, _, _ => .error .fuelOut
  | _ + 1, _, st, [], _ => .ok (st, [])
  | fuel + 1, cfg, st, (name, prop) :: rest, req =>
    match generateOptionalPropertyType fuel cfg st prop (req.contains name) with
    | .error e => .error e
    | .ok (st, t) =>
      match generateObjectProps fuel cfg st rest req with
      | .error e => .error e
      | .ok (st, ps) => .ok (st, (name, req.contains name, t) :: ps)
termination_by structural fuel _ _ _ _ => fuel

/-- `generateOptionalPropertyType(node, required)` (empty `wellKnownTypes`
table). -/
def generateOptionalPropertyType : Nat → GenCfg → GenState →
    PropertyInfo → Bool → Except BErr (GenState × TsType)
  | 0, _, _, _, _ => .error .fuelOut
  | fuel + 1, cfg, st, prop, required =>
    match generateType fuel cfg st prop.type with
    | .error e => .error e
    | .ok (st, t) =>
      if required || !(shouldAddUndefined t) then .ok (st, t)
      else
        match t with
        | .union xs => .ok (st, .union (xs ++ [.keyword "undefined"]))
        | t => .ok (st, .union [t, .keyword "undefined"])
termination_by structural fuel _ _ _ _ => fuel

/-- `generateUnionType`: `node.items.map((item) => this.generateType(item))`. -/
def generateTypeList : Nat → GenCfg → GenState → List Ty →
    Except BErr (GenState × List TsType)
  | 0, _, _, _ => .error .fuelOut
  | _ + 1, _, st, [] => .ok (st, [])
  | fuel + 1, cfg, st, t :: ts =>
    match generateType fuel cfg st t with
    | .error e => .error e
    | .ok (st, tt) =>
      match generateTypeList fuel cfg st ts with
      | .error e => .error e
      | .ok (st, tts) => .ok (st, tt :: tts)
termination_by structural fuel _ _ _ => fuel

end

/-- A pair of definitions that reference each other directly. -/
def c7Defs : List (String × TypeDefinition) :=
  [("A", ⟨none, .reference "/definitions/A" (.str "B")⟩),
   ("B", ⟨none, .reference "/definitions/B" (.str "A")⟩)]

/-- `simplifyType` never terminates on `t` under definitions `d`: for every
fuel bound, in every mode and with any tag type, the model exhausts its
fuel. -/
def simplifyDiverges (d : List (String × TypeDefinition)) (t : Ty) : Prop :=
  ∀ (fuel : Nat) (mode : SimplMode) (tagType : Option SymbolName),
    simplifyType fuel d mode tagType t = .error .fuelOut

theorem c7_refCycle_fuelOut :
    ∀ (fuel : Nat) (i : String) (mode : SimplMode)
      (tagType : Option SymbolName),
      simplifyType fuel c7Defs mode tagType (.reference i (.str "A")) =
        .error .fuelOut ∧
      simplifyType fuel c7Defs mode tagType (.reference i (.str "B")) =
        .error .fuelOut := by
  intro fuel
  induction fuel with
  | zero => intro i mode tagType; exact ⟨rfl, rfl⟩
  | succ f ih =>
    intro i mode tagType
    constructor
    · rw [simplifyType]
      simp only [c7Defs, List.lookup]
      norm_num [isTagName, strEndsWith, shouldInline, Ty.tag, isTagObject]
      exact (ih "/definitions/A" mode tagType).2
    · rw [simplifyType]
      simp only [c7Defs, List.lookup]
      norm_num [isTagName, strEndsWith, shouldInline, Ty.tag, isTagObject]
      exact (ih "/definitions/B" mode tagType).1

/-- **C7** (counterexample).  The `ResourceTypeSimplifier` carries no
recursion stack: on the direct reference cycle `A ↦ B ↦ A` of `c7Defs` it
inlines forever — simplifying a reference to `A` (or to `B`) diverges. -/
theorem claim_C7_refCycleDiverges :
    simplifyDiverges c7Defs
      (.reference "/properties/Cyc" (.str "A")) ∧
    simplifyDiverges c7Defs
      (.reference "/properties/Cyc" (.str "B")) :=
  ⟨fun fuel mode tagType =>
    (c7_refCycle_fuelOut fuel "/properties/Cyc" mode tagType).1,
   fun fuel mode tagType =>
    (c7_refCycle_fuelOut fuel "/properties/Cyc" mode tagType).2⟩

/-- The definition table of the object-mediated cycle: `A` is an object with
a property `Self` of type reference-to-`A`. -/
def c7ObjDefs : List (String × TypeDefinition) :=
  [("A", ⟨none, .object "/definitions/A"
    [("Self", .mk none none none
      (.reference "/definitions/A/properties/Self" (.str "A")))] []⟩)]

def c7ObjCfg : GenCfg := ⟨true, c7ObjDefs, .resource, none⟩

/-- The type of definition `A` in the object-mediated cycle. -/
def c7AType : Ty :=
  .object "/definitions/A"
    [("Self", .mk none none none
      (.reference "/definitions/A/properties/Self" (.str "A")))] []

/-- **C7** (amended).  (1) The simplifier never inlines a reference whose
target definition is an `object` (outside `attributes` mode): reference
cycles that pass through an object definition terminate immediately, the
node coming back unresolved as a named reference.  (2) The generator skips
re-simplification whenever the node is already on its recursion stack.
(3) Rendering the object definition `A` with a property of type
reference-to-`A` terminates and emits `A` as a self-referential named type.
(Cycles made only of references are *not* protected: see the
divergence counterexample.) -/
theorem claim_C7_cycleProtection :
    (∀ (defs : List (String × TypeDefinition)) (i n : String)
      (target : TypeDefinition) (fuel : Nat) (mode : SimplMode)
      (tagType : Option SymbolName),
      defs.lookup n = some target →
      Ty.tag target.type = "object" →
      mode ≠ .attributes →
      ¬(isTagName n = true ∧ tagType.isSome = true ∧
        isTagObject target.type = true) →
      simplifyType (fuel + 1) defs mode tagType (.reference i (.str n)) =
        .ok (.reference i (.str n))) ∧
    (∀ (fuel : Nat) (cfg : GenCfg) (st : GenState) (node : Ty),
      stackHas st.stack node = true →
      generateType (fuel + 1) cfg st node = generateBody fuel cfg st node) ∧
    generateType 10 c7ObjCfg ⟨[], []⟩ c7AType =
      .ok (⟨[.str "A"], []⟩, .typeLiteral
        [("Self", false,
          .union [.reference (.str "A") [], .keyword "undefined"])]) := by
  refine ⟨?_, ?_, rfl⟩
  · intro defs i n target fuel mode tagType hlook htag hmode hnotag
    rw [simplifyType]
    simp only [hlook]
    rw [if_neg hnotag]
    have hsi : shouldInline mode target.type = false := by
      simp [shouldInline, htag, hmode]
    rw [hsi]
    simp only [Bool.false_eq_true, if_false]
  · intro fuel cfg st node hstack
    rw [generateType]
    simp only [hstack, Bool.not_true, Bool.and_false, Bool.false_eq_true,
      if_false]

theorem claim_C7_cycleProtection_witness :
    simplifyType 4 c7ObjDefs .resource none (.reference "/x" (.str "A")) =
      .ok (.reference "/x" (.str "A")) ∧
    generateType 3 c7ObjCfg ⟨[], [.string "/s"]⟩ (.string "/s") =
      generateBody 2 c7ObjCfg ⟨[], [.string "/s"]⟩ (.string "/s") :=
  ⟨claim_C7_cycleProtection.1 c7ObjDefs "/x" "A" _ 3 .resource none rfl rfl
      (by decide) (by decide),
   claim_C7_cycleProtection.2.1 2 c7ObjCfg ⟨[], [.string "/s"]⟩ (.string "/s")
      rfl⟩

/-! ### Claim C8 — the emit-only-referenced-definitions loop (generate.ts)

One pass of the `do`/`while` loop walks the whole definitions table and
generates every definition that is referenced but not yet generated;
generating a definition may add new referenced names (`step` abstracts
`code.generateTypeDefinition`, which grows `referencedNames` through
`createTypeReference`). -/

/-- One full pass of the loop: `gen` is the list of generated definition
names, `refs` the referenced-names set, `count` the running `thisPass`. -/
def emitPass (step : String → TypeDefinition → List SymbolName → List SymbolName)
    (table : List (String × TypeDefinition)) (gen : List String)
    (refs : List SymbolName) (count : Nat) :
    List String × List SymbolName × Nat :=
  match table with
  | [] => (gen, refs, count)
  | (name, d) :: rest =>
    if refs.contains (.str name) && !(gen.contains name) then
      emitPass step rest (gen ++ [name]) (step name d refs) (count + 1)
    else emitPass step rest gen refs count

/-- The `do { ... } while (thisPass > 0)` loop; `none` models running out of
passes (which the termination theorem rules out). -/
def emitLoop (step : String → TypeDefinition → List SymbolName → List SymbolName)
    (table : List (String × TypeDefinition)) :
    Nat → List String → List SymbolName →
    Option (List String × List SymbolName)
  | 0, _, _ => none
  | fuel + 1, gen, refs =>
    match emitPass step table gen refs 0 with
    | (gen', refs', 0) => some (gen', refs')
    | (gen', refs', _ + 1) => emitLoop step table fuel gen' refs'

/-- The real per-definition step: `generateTypeDefinition` grows the
referenced-names set through the generator. -/
def generateDefStep (fuel : Nat) (cfg : GenCfg) (_name : String)
    (d : TypeDefinition) (refs : List SymbolName) : List SymbolName :=
  match generateType fuel cfg ⟨refs, []⟩ d.type with
  | .ok (st, _) => st.referencedNames
  | .error _ => refs

theorem emitPass_spec
    (step : String → TypeDefinition → List SymbolName → List SymbolName) :
    ∀ (table : List (String × TypeDefinition)) (gen : List String)
      (refs : List SymbolName) (c : Nat),
      gen <+: (emitPass step table gen refs c).1 ∧
      (∀ n, n ∈ (emitPass step table gen refs c).1 →
        n ∈ gen ∨ n ∈ table.map Prod.fst) ∧
      ((emitPass step table gen refs c).2.2 = c →
        (emitPass step table gen refs c).1 = gen ∧
        (emitPass step table gen refs c).2.1 = refs ∧
        (∀ nd ∈ table, refs.contains (SymbolName.str nd.1) = true →
          gen.contains nd.1 = true)) ∧
      ((emitPass step table gen refs c).2.2 ≠ c →
        ∃ n, n ∈ table.map Prod.fst ∧ n ∉ gen ∧
          n ∈ (emitPass step table gen refs c).1) ∧
      c ≤ (emitPass step table gen refs c).2.2 := by
  intro table
  induction table with
  | nil =>
    intro gen refs c
    exact ⟨List.prefix_refl gen, fun n h => .inl h,
      fun _ => ⟨rfl, rfl, fun nd h => absurd h (List.not_mem_nil nd)⟩,
      fun h => absurd rfl h, Nat.le_refl c⟩
  | cons hd rest ih =>
    intro gen refs c
    obtain ⟨name, d⟩ := hd
    by_cases hc : (refs.contains (SymbolName.str name) &&
        !(gen.contains name)) = true
    · rw [show emitPass step ((name, d) :: rest) gen refs c =
        emitPass step rest (gen ++ [name]) (step name d refs) (c + 1) by
          rw [emitPass, if_pos hc]]
      obtain ⟨hpre, hbound, hsame, hnew, hle⟩ :=
        ih (gen ++ [name]) (step name d refs) (c + 1)
      refine ⟨(List.prefix_append gen [name]).trans hpre, ?_, ?_, ?_, ?_⟩
      · intro n hn
        rcases hbound n hn with h | h
        · rcases List.mem_append.mp h with h | h
          · exact .inl h
          · right
            simp only [List.map_cons, List.mem_cons]
            exact .inl (List.mem_singleton.mp h)
        · right
          simp only [List.map_cons, List.mem_cons]
          exact .inr h
      · intro h
        exact absurd h (by omega)
      · intro _
        have hng : name ∉ gen := by
          have h2 := (Bool.and_eq_true_iff.mp hc).2
          simp only [Bool.not_eq_true'] at h2
          simp at h2
          exact h2
        exact ⟨name, by simp, hng,
          hpre.subset (List.mem_append.mpr (.inr (List.mem_singleton.mpr rfl)))⟩
      · omega
    · rw [show emitPass step ((name, d) :: rest) gen refs c =
        emitPass step rest gen refs c by rw [emitPass, if_neg hc]]
      obtain ⟨hpre, hbound, hsame, hnew, hle⟩ := ih gen refs c
      refine ⟨hpre, ?_, ?_, ?_, hle⟩
      · intro n hn
        rcases hbound n hn with h | h
        · exact .inl h
        · right
          simp only [List.map_cons, List.mem_cons]
          exact .inr h
      · intro h
        obtain ⟨h1, h2, h3⟩ := hsame h
        refine ⟨h1, h2, ?_⟩
        intro nd hnd href
        rcases List.mem_cons.mp hnd with heq | hnd'
        · subst heq
          by_contra hgen
          apply hc
          refine Bool.and_eq_true_iff.mpr ⟨href, ?_⟩
          cases hgc : gen.contains name with
          | false => rfl
          | true => exact absurd hgc hgen
        · exact h3 nd hnd' href
      · intro h
        obtain ⟨n, h1, h2, h3⟩ := hnew h
        exact ⟨n, by simp [h1], h2, h3⟩

theorem length_filter_le_of {α : Type} (p q : α → Bool)
    (hpq : ∀ a, p a = true → q a = true) :
    ∀ l : List α, (l.filter p).length ≤ (l.filter q).length := by
  intro l
  induction l with
  | nil => exact Nat.le_refl 0
  | cons hd tl ih =>
    by_cases hp : p hd = true
    · rw [List.filter_cons_of_pos hp, List.filter_cons_of_pos (hpq hd hp)]
      simpa using ih
    · rw [List.filter_cons_of_neg (by simpa using hp)]
      by_cases hq : q hd = true
      · rw [List.filter_cons_of_pos hq]
        exact Nat.le_succ_of_le ih
      · rw [List.filter_cons_of_neg (by simpa using hq)]
        exact ih

theorem length_filter_lt_of {α : Type} (p q : α → Bool)
    (hpq : ∀ a, p a = true → q a = true) (a0 : α)
    (hq : q a0 = true) (hp : p a0 = false) :
    ∀ l : List α, a0 ∈ l → (l.filter p).length < (l.filter q).length := by
  intro l
  induction l with
  | nil => intro h; cases h
  | cons hd tl ih =>
    intro hmem
    rcases List.mem_cons.mp hmem with rfl | hmem'
    · rw [List.filter_cons_of_pos hq, List.filter_cons_of_neg (by simp [hp])]
      exact Nat.lt_succ_of_le (length_filter_le_of p q hpq tl)
    · by_cases hphd : p hd = true
      · rw [List.filter_cons_of_pos hphd,
          List.filter_cons_of_pos (hpq hd hphd)]
        simpa using ih hmem'
      · rw [List.filter_cons_of_neg (by simpa using hphd)]
        by_cases hqhd : q hd = true
        · rw [List.filter_cons_of_pos hqhd]
          exact Nat.lt_succ_of_lt (ih hmem')
        · rw [List.filter_cons_of_neg (by simpa using hqhd)]
          exact ih hmem'

theorem emitLoop_terminates
    (step : String → TypeDefinition → List SymbolName → List SymbolName)
    (table : List (String × TypeDefinition)) :
    ∀ (fuel : Nat) (gen : List String) (refs : List SymbolName),
    ((table.map Prod.fst).filter (fun n => !(gen.contains n))).length < fuel →
    ∃ out, emitLoop step table fuel gen refs = some out := by
  intro fuel
  induction fuel with
  | zero => intro gen refs h; omega
  | succ f ih =>
    intro gen refs hmiss
    obtain ⟨hpre, hbound, hsame, hnew, hle⟩ := emitPass_spec step table gen refs 0
    rcases hsplit : emitPass step table gen refs 0 with ⟨gen', refs', c'⟩
    rw [hsplit] at hpre hbound hsame hnew hle
    rw [emitLoop, hsplit]
    cases c' with
    | zero => exact ⟨_, rfl⟩
    | succ c =>
      apply ih
      obtain ⟨n0, hn0tab, hn0gen, hn0gen'⟩ := hnew (by simp)
      have hlt := length_filter_lt_of
        (fun n => !(gen'.contains n))
        (fun n => !(gen.contains n))
        (fun a ha => by
          simp only [Bool.not_eq_true'] at ha ⊢
          cases hga : gen.contains a with
          | false => rfl
          | true =>
            exfalso
            have hmm : a ∈ gen' := hpre.subset (by simpa using hga)
            simp [hmm] at ha)
        n0 (by simpa using hn0gen) (by simpa using hn0gen')
        (table.map Prod.fst) hn0tab
      omega

theorem emitLoop_exit
    (step : String → TypeDefinition → List SymbolName → List SymbolName)
    (table : List (String × TypeDefinition)) :
    ∀ (fuel : Nat) (gen : List String) (refs : List SymbolName)
      (gen' : List String) (refs' : List SymbolName),
    emitLoop step table fuel gen refs = some (gen', refs') →
    gen <+: gen' ∧
    (∀ nd ∈ table, refs'.contains (SymbolName.str nd.1) = true →
      gen'.contains nd.1 = true) := by
  intro fuel
  induction fuel with
  | zero => intro gen refs gen' refs' h; cases h
  | succ f ih =>
    intro gen refs gen' refs' h
    obtain ⟨hpre, hbound, hsame, hnew, hle⟩ := emitPass_spec step table gen refs 0
    rw [emitLoop] at h
    rcases hsplit : emitPass step table gen refs 0 with ⟨g1, r1, c1⟩
    rw [hsplit] at hpre hbound hsame hnew hle h
    cases c1 with
    | zero =>
      simp only [] at h
      injection h with h2
      injection h2 with ha hb
      subst ha
      subst hb
      obtain ⟨hg, hr, hcov⟩ := hsame rfl
      simp only [] at hg hr
      subst hg
      subst hr
      exact ⟨List.prefix_refl _, hcov⟩
    | succ c =>
      obtain ⟨hpre', hcov⟩ := ih g1 r1 gen' refs' h
      exact ⟨hpre.trans hpre', hcov⟩

/-- A two-entry table in which `B` precedes `A` but only `A` is initially
referenced; `A`'s type references `B`, which a later pass discovers. -/
def c8Table : List (String × TypeDefinition) :=
  [("B", ⟨none, .object "/definitions/B"
    [("V", .mk none none none (.string "/definitions/B/properties/V"))] []⟩),
   ("A", ⟨none, .reference "/definitions/A" (.str "B")⟩)]

def c8Cfg : GenCfg := ⟨true, c8Table, .resource, none⟩

/-- **C8.**  The emit-only-referenced-definitions loop of `generate.ts`:
(1) for every finite definitions table and every per-definition generation
step it terminates within one pass more than the number of not-yet-generated
table names; (2) a pass only appends (never shrinks the generated list), it
stays inside the table's names, a zero pass changes nothing, and a non-zero
pass has generated at least one newly referenced, not-yet-generated
definition; (3) at exit the generated list extends the initial one and every
table definition whose name is referenced has been generated; (4) run with
the real generator step, a definition referenced only by a
later-generated definition is picked up by a subsequent pass, regardless of
table order. -/
theorem claim_C8_emitLoop :
    (∀ (step : String → TypeDefinition → List SymbolName → List SymbolName)
      (table : List (String × TypeDefinition)) (fuel : Nat)
      (gen : List String) (refs : List SymbolName),
      ((table.map Prod.fst).filter (fun n => !(gen.contains n))).length < fuel →
      ∃ out, emitLoop step table fuel gen refs = some out) ∧
    (∀ (step : String → TypeDefinition → List SymbolName → List SymbolName)
      (table : List (String × TypeDefinition))
      (gen : List String) (refs : List SymbolName),
      gen <+: (emitPass step table gen refs 0).1 ∧
      (∀ n, n ∈ (emitPass step table gen refs 0).1 →
        n ∈ gen ∨ n ∈ table.map Prod.fst) ∧
      ((emitPass step table gen refs 0).2.2 = 0 →
        (emitPass step table gen refs 0).1 = gen) ∧
      ((emitPass step table gen refs 0).2.2 ≠ 0 →
        ∃ n, n ∈ table.map Prod.fst ∧ n ∉ gen ∧
          n ∈ (emitPass step table gen refs 0).1)) ∧
    (∀ (step : String → TypeDefinition → List SymbolName → List SymbolName)
      (table : List (String × TypeDefinition)) (fuel : Nat)
      (gen gen' : List String) (refs refs' : List SymbolName),
      emitLoop step table fuel gen refs = some (gen', refs') →
      gen <+: gen' ∧
      (∀ nd ∈ table, refs'.contains (SymbolName.str nd.1) = true →
        gen'.contains nd.1 = true)) ∧
    emitLoop (generateDefStep 10 c8Cfg) c8Table 3 [] [.str "A"] =
      some (["A", "B"], [.str "A", .str "B"]) := by
  refine ⟨emitLoop_terminates, ?_, ?_, rfl⟩
  · intro step table gen refs
    obtain ⟨h1, h2, h3, h4, _⟩ := emitPass_spec step table gen refs 0
    exact ⟨h1, h2, fun h => (h3 h).1, h4⟩
  · intro step table fuel gen gen' refs refs' h
    exact emitLoop_exit step table fuel gen refs gen' refs' h

theorem claim_C8_emitLoop_witness :
    (∃ out, emitLoop (generateDefStep 10 c8Cfg) c8Table 3 [] [.str "A"] =
      some out) ∧
    ([] <+: ["A", "B"] ∧
      (∀ nd ∈ c8Table,
        ([SymbolName.str "A", SymbolName.str "B"].contains
          (SymbolName.str nd.1)) = true →
        (["A", "B"].contains nd.1) = true)) :=
  ⟨claim_C8_emitLoop.1 (generateDefStep 10 c8Cfg) c8Table 3 [] [.str "A"]
      (by decide),
   claim_C8_emitLoop.2.2.1 (generateDefStep 10 c8Cfg) c8Table 3 []
      ["A", "B"] [.str "A"] [.str "A", .str "B"] claim_C8_emitLoop.2.2.2⟩

/-! ### Claim C9 — attribute properties are always required -/

/-- The attributes-table invariant: when the attributes projection is
present, every property name of its object type appears in the object's
required list. -/
def attrRequiredInv (s : BState) : Prop :=
  ∀ ad : TypeDefinition, s.attributes = some ad →
    ∀ i ap ar, ad.type = Ty.object i ap ar →
      ∀ n, n ∈ ap.map Prod.fst → n ∈ ar

theorem warn_attributes (s : BState) (l f : String) :
    (warn s l f).attributes = s.attributes := rfl

theorem updateTyAt_attributes (s : BState) (loc : TyLoc) (f : Ty → Ty) :
    (updateTyAt s loc f).attributes = s.attributes := by
  rw [updateTyAt]
  cases loc.base <;> rfl

theorem modifyPropAt_attributes (s : BState) (pl : PropLoc)
    (f : PropertyInfo → PropertyInfo) :
    (modifyPropAt s pl f).attributes = s.attributes :=
  updateTyAt_attributes s pl.1 _

theorem markChildren_attributes (fuel : Nat) :
    (∀ s loc flag value maxD depth stack s',
      markChildren fuel s loc flag value maxD depth stack = .ok s' →
      s'.attributes = s.attributes) ∧
    (∀ s loc names flag value maxD depth stack s',
      markObjectProps fuel s loc names flag value maxD depth stack = .ok s' →
      s'.attributes = s.attributes) ∧
    (∀ s loc rem i flag value maxD depth stack s',
      markUnionItems fuel s loc rem i flag value maxD depth stack = .ok s' →
      s'.attributes = s.attributes) := by
  induction fuel with
  | zero =>
    exact ⟨fun s loc a b c d e s' h => Except.noConfusion h,
      fun s loc names a b c d e s' h => Except.noConfusion h,
      fun s loc rem i a b c d e s' h => Except.noConfusion h⟩
  | succ f ih =>
    obtain ⟨ihc, ihp, ihu⟩ := ih
    refine ⟨?_, ?_, ?_⟩
    · intro s loc flag value maxD depth stack s' h
      rw [markChildren] at h
      split at h
      · cases h; rfl
      · split at h
        · cases h; rfl
        · split at h
          · exact ihp _ _ _ _ _ _ _ _ _ h
          · exact ihc _ _ _ _ _ _ _ _ h
          · exact ihc _ _ _ _ _ _ _ _ h
          · split at h
            · exact ihc _ _ _ _ _ _ _ _ h
            · cases h; rfl
          · cases h; rfl
          · exact ihu _ _ _ _ _ _ _ _ _ _ h
          · cases h; rfl
    · intro s loc names flag value maxD depth stack s' h
      match names, h with
      | [], h => cases h; rfl
      | name :: rest, h =>
        rw [markObjectProps] at h
        split at h
        · exact Except.noConfusion h
        · rename_i s2 heq
          have h2 : s2.attributes =
              (modifyPropAt s (loc, name) (setFlag flag value)).attributes := by
            split at heq
            · exact ihc _ _ _ _ _ _ _ _ heq
            · cases heq; rfl
          have h3 := ihp _ _ _ _ _ _ _ _ _ h
          rw [h3, h2, modifyPropAt_attributes]
    · intro s loc rem i flag value maxD depth stack s' h
      match rem, h with
      | 0, h => cases h; rfl
      | r + 1, h =>
        rw [markUnionItems] at h
        split at h
        · exact Except.noConfusion h
        · rename_i s2 heq
          have h2 := ihc _ _ _ _ _ _ _ _ heq
          have h3 := ihu _ _ _ _ _ _ _ _ _ _ h
          rw [h3, h2]

theorem foundState_attributes (s : BState) (loc : TyLoc) (part : String)
    (oprops : List (String × PropertyInfo)) (mangle : Bool)
    (p0 : PropertyInfo) (s2 : BState)
    (heq : (match List.lookup part oprops with
      | some p => some (p, s)
      | none =>
        if mangle = true then
          match List.lookup (stripDots part) oprops with
          | some p =>
            some (p, updateTyAt s loc fun t =>
              match t with
              | Ty.object i ps req =>
                Ty.object i
                  (List.filter (fun np => np.1 ≠ stripDots part) ps
                    ++ [(part, p)]) req
              | t => t)
          | none => none
        else none) = some (p0, s2)) :
    s2.attributes = s.attributes := by
  repeat' split at heq
  all_goals
    first
    | exact Option.noConfusion heq
    | (injection heq with hh
       injection hh with h1 h2
       rw [← h2]
       all_goals exact updateTyAt_attributes _ _ _)

theorem findPropertyLoop_attributes (fuel : Nat) :
    (∀ s parts mangle node loc r s',
      findPropertyLoop fuel s parts mangle node loc = .ok (r, s') →
      s'.attributes = s.attributes) ∧
    (∀ s parts mangle items loc i r s',
      findPropertyFanOut fuel s parts mangle items loc i = .ok (r, s') →
      s'.attributes = s.attributes) := by
  induction fuel with
  | zero =>
    exact ⟨fun s parts mangle node loc r s' h => Except.noConfusion h,
      fun s parts mangle items loc i r s' h => Except.noConfusion h⟩
  | succ f ih =>
    obtain ⟨ihl, ihf⟩ := ih
    constructor
    · intro s parts mangle node loc r s' h
      match parts, h with
      | [], h => cases h; rfl
      | part :: rest, h =>
        cases node with
        | reference rid rnm =>
          cases rnm with
          | str rname =>
            simp only [findPropertyLoop] at h
            repeat' split at h
            all_goals
              first
              | exact Except.noConfusion h
              | (cases h; rfl)
              | exact ihl _ _ _ _ _ _ _ h
          | objToken t =>
            simp only [findPropertyLoop] at h
            repeat' split at h
            all_goals
              first
              | exact Except.noConfusion h
              | (cases h; rfl)
        | union uid uitems =>
          simp only [findPropertyLoop] at h
          repeat' split at h
          all_goals
            first
            | exact Except.noConfusion h
            | (cases h; rfl)
            | exact ihf _ _ _ _ _ _ _ _ h
        | object oid oprops oreq =>
          simp only [findPropertyLoop] at h
          repeat' split at h
          all_goals
            first
            | exact Except.noConfusion h
            | (cases h; rfl)
            | (cases h
               exact foundState_attributes _ _ _ _ _ _ _ (by assumption))
            | exact (ihl _ _ _ _ _ _ _ h).trans
                (foundState_attributes _ _ _ _ _ _ _ (by assumption))
        | any i => simp only [findPropertyLoop] at h; repeat' split at h
                   all_goals first
                     | exact Except.noConfusion h
                     | (cases h; rfl)
                     | exact ihl _ _ _ _ _ _ _ h
        | unknown i => simp only [findPropertyLoop] at h; repeat' split at h
                       all_goals first
                         | exact Except.noConfusion h
                         | (cases h; rfl)
                         | exact ihl _ _ _ _ _ _ _ h
        | boolean i => simp only [findPropertyLoop] at h; repeat' split at h
                       all_goals first
                         | exact Except.noConfusion h
                         | (cases h; rfl)
                         | exact ihl _ _ _ _ _ _ _ h
        | integer i => simp only [findPropertyLoop] at h; repeat' split at h
                       all_goals first
                         | exact Except.noConfusion h
                         | (cases h; rfl)
                         | exact ihl _ _ _ _ _ _ _ h
        | number i => simp only [findPropertyLoop] at h; repeat' split at h
                      all_goals first
                        | exact Except.noConfusion h
                        | (cases h; rfl)
                        | exact ihl _ _ _ _ _ _ _ h
        | null i => simp only [findPropertyLoop] at h; repeat' split at h
                    all_goals first
                      | exact Except.noConfusion h
                      | (cases h; rfl)
                      | exact ihl _ _ _ _ _ _ _ h
        | string i => simp only [findPropertyLoop] at h; repeat' split at h
                      all_goals first
                        | exact Except.noConfusion h
                        | (cases h; rfl)
                        | exact ihl _ _ _ _ _ _ _ h
        | const i v => simp only [findPropertyLoop] at h; repeat' split at h
                       all_goals first
                         | exact Except.noConfusion h
                         | (cases h; rfl)
                         | exact ihl _ _ _ _ _ _ _ h
        | enum i vs => simp only [findPropertyLoop] at h; repeat' split at h
                       all_goals first
                         | exact Except.noConfusion h
                         | (cases h; rfl)
                         | exact ihl _ _ _ _ _ _ _ h
        | array i ii =>
          cases ii with
          | mk dd tt =>
            simp only [findPropertyLoop] at h
            repeat' split at h
            all_goals first
              | exact Except.noConfusion h
              | (cases h; rfl)
              | exact ihl _ _ _ _ _ _ _ h
        | record i v => simp only [findPropertyLoop] at h; repeat' split at h
                        all_goals first
                          | exact Except.noConfusion h
                          | (cases h; rfl)
                          | exact ihl _ _ _ _ _ _ _ h
    · intro s parts mangle items loc i r s' h
      match items, h with
      | [], h => cases h; rfl
      | item :: rest, h =>
        rw [findPropertyFanOut] at h
        split at h
        · exact Except.noConfusion h
        · rename_i found s2 heq
          split at h
          · exact Except.noConfusion h
          · rename_i found' s3 heq2
            cases h
            rw [ihf _ _ _ _ _ _ _ _ heq2, ihl _ _ _ _ _ _ _ heq]

theorem findProperty_attributes (fuel : Nat) (s : BState) (path : String)
    (mangle : Bool) (r : List PropLoc) (s' : BState)
    (h : findProperty fuel s path mangle = .ok (r, s')) :
    s'.attributes = s.attributes := by
  rw [findProperty] at h
  split at h
  · exact (findPropertyLoop_attributes fuel).1 _ _ _ _ _ _ _ h
  · cases h; rfl

theorem setAssoc_names {α : Type} (l : List (String × α)) (k : String)
    (v : α) :
    ∀ n, n ∈ (setAssoc l k v).map Prod.fst →
      n ∈ l.map Prod.fst ∨ n = k := by
  induction l with
  | nil =>
    intro n hn
    simp only [setAssoc, List.map_cons, List.map_nil] at hn
    rcases List.mem_singleton.mp hn with rfl
    exact .inr rfl
  | cons hd tl ih =>
    intro n hn
    rw [setAssoc] at hn
    split at hn
    · simp only [List.map_cons, List.mem_cons] at hn
      rcases hn with rfl | hn
      · exact .inl (by simp)
      · exact .inl (by simp [hn])
    · simp only [List.map_cons, List.mem_cons] at hn
      rcases hn with rfl | hn
      · exact .inl (by simp)
      · rcases ih n hn with h | h
        · exact .inl (by simp [h])
        · exact .inr h

theorem addAttributeMarkLoop_attributes (fuel : Nat) (s : BState)
    (props : List PropLoc) (w ro : Bool) (s' : BState)
    (h : addAttributeMarkLoop fuel s props w ro = .ok s') :
    s'.attributes = s.attributes := by
  induction props generalizing s with
  | nil => cases h; rfl
  | cons pl rest ih =>
    rw [addAttributeMarkLoop] at h
    repeat' split at h
    all_goals
      first
      | exact Except.noConfusion h
      | exact ih _ h
      | exact (ih _ h).trans (modifyPropAt_attributes _ _ _)
      | (cases hmc : markChildren fuel
            (modifyPropAt s pl fun p => p.withIsAttribute true)
            (propTypeLoc pl) PropFlag.isAttribute true none 1 [] with
         | error e =>
           rw [hmc] at h
           exact Except.noConfusion h
         | ok s2 =>
           rw [hmc] at h
           first
           | exact (ih _ h).trans
               (((markChildren_attributes fuel).1 _ _ _ _ _ _ _ _ hmc).trans
                 (modifyPropAt_attributes _ _ _))
           | exact (ih _ h).trans
               ((modifyPropAt_attributes _ _ _).trans
                 (((markChildren_attributes fuel).1 _ _ _ _ _ _ _ _
                   hmc).trans (modifyPropAt_attributes _ _ _))))

theorem attrInv_of_eq {s1 s2 : BState}
    (h : s2.attributes = s1.attributes) (hinv : attrRequiredInv s1) :
    attrRequiredInv s2 := by
  intro ad had
  exact hinv ad (h ▸ had)

theorem attrUpdate_inv (i nm : String)
    (aprops : List (String × PropertyInfo)) (areq : List String)
    (entry : PropertyInfo)
    (hold : ∀ n, n ∈ aprops.map Prod.fst → n ∈ areq) :
    ∀ (i' : String) (ap : List (String × PropertyInfo)) (ar : List String),
      Ty.object i (setAssoc aprops nm entry) (areq ++ [nm]) =
        Ty.object i' ap ar →
      ∀ n, n ∈ ap.map Prod.fst → n ∈ ar := by
  intro i' ap ar heq n hn
  injection heq with h1 h2 h3
  subst h2
  subst h3
  rcases setAssoc_names aprops nm entry n hn with h | h
  · exact List.mem_append.mpr (.inl (hold n h))
  · exact List.mem_append.mpr (.inr (by simp [h]))

theorem attrState_update_inv (sW : BState) (hinvW : attrRequiredInv sW)
    (docs0 : Option Json) (nm : String) (entry : PropertyInfo) :
    attrRequiredInv { sW with attributes := some (
      (fun (ad : TypeDefinition) =>
        match ad.type with
        | .object i aprops areq =>
          (⟨ad.documentation,
            .object i (setAssoc aprops nm entry) (areq ++ [nm])⟩ :
             TypeDefinition)
        | _ => ad)
      (match sW.attributes with
       | some ad => ad
       | none => ⟨docs0, .object "/attributes" [] []⟩)) } := by
  intro ad had i ap ar htype n hn
  simp only [Option.some.injEq] at had
  cases hatt : sW.attributes with
  | none =>
    rw [hatt] at had
    simp only [] at had
    subst had
    simp only [] at htype
    exact attrUpdate_inv _ _ [] [] _
      (fun m hm => absurd hm (by simp)) _ _ _ htype n hn
  | some ad0 =>
    rw [hatt] at had
    simp only [] at had
    cases htype0 : ad0.type with
    | object i0 ap0 ar0 =>
      rw [htype0] at had
      simp only [] at had
      subst had
      simp only [] at htype
      exact attrUpdate_inv _ _ _ _ _
        (fun m hm => hinvW ad0 hatt _ _ _ htype0 m hm) _ _ _ htype n hn
    | any i1 =>
      rw [htype0] at had
      simp only [] at had
      subst had
      rw [htype0] at htype
      exact Ty.noConfusion htype
    | unknown i1 =>
      rw [htype0] at had
      simp only [] at had
      subst had
      rw [htype0] at htype
      exact Ty.noConfusion htype
    | boolean i1 =>
      rw [htype0] at had
      simp only [] at had
      subst had
      rw [htype0] at htype
      exact Ty.noConfusion htype
    | integer i1 =>
      rw [htype0] at had
      simp only [] at had
      subst had
      rw [htype0] at htype
      exact Ty.noConfusion htype
    | number i1 =>
      rw [htype0] at had
      simp only [] at had
      subst had
      rw [htype0] at htype
      exact Ty.noConfusion htype
    | null i1 =>
      rw [htype0] at had
      simp only [] at had
      subst had
      rw [htype0] at htype
      exact Ty.noConfusion htype
    | string i1 =>
      rw [htype0] at had
      simp only [] at had
      subst had
      rw [htype0] at htype
      exact Ty.noConfusion htype
    | const i1 v1 =>
      rw [htype0] at had
      simp only [] at had
      subst had
      rw [htype0] at htype
      exact Ty.noConfusion htype
    | enum i1 v1 =>
      rw [htype0] at had
      simp only [] at had
      subst had
      rw [htype0] at htype
      exact Ty.noConfusion htype
    | array i1 ii1 =>
      rw [htype0] at had
      simp only [] at had
      subst had
      rw [htype0] at htype
      exact Ty.noConfusion htype
    | record i1 v1 =>
      rw [htype0] at had
      simp only [] at had
      subst had
      rw [htype0] at htype
      exact Ty.noConfusion htype
    | reference i1 n1 =>
      rw [htype0] at had
      simp only [] at had
      subst had
      rw [htype0] at htype
      exact Ty.noConfusion htype
    | union i1 it1 =>
      rw [htype0] at had
      simp only [] at had
      subst had
      rw [htype0] at htype
      exact Ty.noConfusion htype

theorem addAttribute_attrInv (fuel : Nat) (s : BState) (path : String)
    (ro : Bool) (s' : BState) (hinv : attrRequiredInv s)
    (h : addAttribute fuel s path ro = .ok s') : attrRequiredInv s' := by
  rw [addAttribute] at h
  split at h
  · exact Except.noConfusion h
  · rename_i props s2 heq
    have hinv2 : attrRequiredInv s2 :=
      attrInv_of_eq (findProperty_attributes _ _ _ _ _ _ heq) hinv
    split at h
    · cases h
      exact attrInv_of_eq (warn_attributes _ _ _) hinv2
    · rename_i pl rest
      cases hml : addAttributeMarkLoop fuel s2 (pl :: rest)
          (strContainsChar path (Char.ofNat 42)) ro with
      | error e =>
        simp only [hml] at h
        exact Except.noConfusion h
      | ok s3 =>
        simp only [hml] at h
        have hinv3 : attrRequiredInv s3 :=
          attrInv_of_eq (addAttributeMarkLoop_attributes _ _ _ _ _ _ hml)
            hinv2
        split at h
        · exact Except.noConfusion h
        · rename_i prop hprop
          split at h
          · exact Except.noConfusion h
          · split at h
            · exact Except.noConfusion h
            · rename_i valid hvalid
              split at h
              · cases h
                exact attrState_update_inv _
                  (by
                    split
                    · exact attrInv_of_eq (warn_attributes _ _ _) hinv3
                    · exact hinv3) _ _ _
              · cases h
                split
                · exact attrInv_of_eq (warn_attributes _ _ _) hinv3
                · exact hinv3

theorem addAttributePaths_attrInv (fuel : Nat) (paths : List String) :
    ∀ (s : BState) (s' : BState), attrRequiredInv s →
      addAttributePaths fuel s paths = .ok s' → attrRequiredInv s' := by
  induction paths with
  | nil =>
    intro s s' hinv h
    cases h
    exact hinv
  | cons p rest ih =>
    intro s s' hinv h
    rw [addAttributePaths] at h
    split at h
    · exact Except.noConfusion h
    · rename_i s2 heq
      exact ih s2 s' (addAttribute_attrInv _ _ _ _ _ hinv heq) h

theorem addExtraAttributes_attrInv (fuel : Nat) (names : List String) :
    ∀ (s : BState) (s' : BState), attrRequiredInv s →
      addExtraAttributes fuel s names = .ok s' → attrRequiredInv s' := by
  induction names with
  | nil =>
    intro s s' hinv h
    cases h
    exact hinv
  | cons p rest ih =>
    intro s s' hinv h
    rw [addExtraAttributes] at h
    split at h
    · exact Except.noConfusion h
    · rename_i s2 heq
      exact ih s2 s' (addAttribute_attrInv _ _ _ _ _ hinv heq) h

theorem breadcrumbProps_attributes (fuel : Nat) (props : List PropLoc) :
    ∀ (s s' : BState), breadcrumbProps fuel s props = .ok s' →
      s'.attributes = s.attributes := by
  induction props with
  | nil =>
    intro s s' h
    cases h
    rfl
  | cons pl rest ih =>
    intro s s' h
    rw [breadcrumbProps] at h
    repeat' split at h
    all_goals
      first
      | exact Except.noConfusion h
      | exact ih _ _ h
      | exact (ih _ _ h).trans (modifyPropAt_attributes _ _ _)
      | (simp only [] at h
         repeat' split at h
         all_goals
           first
           | exact Except.noConfusion h
           | exact ih _ _ h
           | exact (ih _ _ h).trans (modifyPropAt_attributes _ _ _))
      | (cases hmc : markChildren fuel
            (modifyPropAt s pl fun p => p.withReadOnly true)
            (propTypeLoc pl) PropFlag.readOnly false (some 1) 1 [] with
         | error e =>
           rw [hmc] at h
           exact Except.noConfusion h
         | ok s2 =>
           rw [hmc] at h
           simp only [] at h
           repeat' split at h
           all_goals
             first
             | exact Except.noConfusion h
             | exact (ih _ _ h).trans
                 (((markChildren_attributes fuel).1 _ _ _ _ _ _ _ _ hmc).trans
                   (modifyPropAt_attributes _ _ _))
             | exact (ih _ _ h).trans
                 ((modifyPropAt_attributes _ _ _).trans
                   (((markChildren_attributes fuel).1 _ _ _ _ _ _ _ _
                     hmc).trans (modifyPropAt_attributes _ _ _))))

theorem breadcrumbPaths_attributes (fuel : Nat) (paths : List String) :
    ∀ (s s' : BState), breadcrumbPaths fuel s paths = .ok s' →
      s'.attributes = s.attributes := by
  induction paths with
  | nil =>
    intro s s' h
    cases h
    rfl
  | cons p rest ih =>
    intro s s' h
    rw [breadcrumbPaths] at h
    split at h
    · exact Except.noConfusion h
    · rename_i props s2 heq
      split at h
      · exact Except.noConfusion h
      · rename_i s3 heq2
        exact (ih _ _ h).trans
          ((breadcrumbProps_attributes _ _ _ _ heq2).trans
            (findProperty_attributes _ _ _ _ _ _ heq))

theorem analyzePaths_attrInv (fuel : Nat) (s s' : BState)
    (hinv : attrRequiredInv s) (h : analyzePaths fuel s = .ok s') :
    attrRequiredInv s' := by
  rw [analyzePaths] at h
  split at h
  · cases h; exact hinv
  · split at h
    · cases h; exact hinv
    · split at h
      · exact Except.noConfusion h
      · split at h
        · exact Except.noConfusion h
        · rename_i s2 heq
          exact attrInv_of_eq (breadcrumbPaths_attributes _ _ _ _ h)
            (addAttributePaths_attrInv _ _ _ _ hinv heq)

/-- **C9.**  Attribute properties are never optional: (1) the initial state
satisfies the attributes invariant (every property name of the attributes
object appears in its required list); (2) `#addAttribute` — the only writer
of the attributes table, which appends each new attribute name to `required`
as it inserts the property — preserves it; (3)–(4) so do the whole
`#analyzePaths` pass and the `ExtraAttributes` pass; (5) the
attributes-mode projection of an object lists exactly its kept
(`isAttribute`) property names as `required`; (6) concretely, the round-trip
resource's built attributes type has its property names equal to its
required list. -/
theorem claim_C9_attributesRequired :
    (∀ (doc : Documenter) (schema : Json),
      attrRequiredInv (initialState doc schema)) ∧
    (∀ (fuel : Nat) (s : BState) (path : String) (ro : Bool) (s' : BState),
      attrRequiredInv s → addAttribute fuel s path ro = .ok s' →
      attrRequiredInv s') ∧
    (∀ (fuel : Nat) (s s' : BState), attrRequiredInv s →
      analyzePaths fuel s = .ok s' → attrRequiredInv s') ∧
    (∀ (fuel : Nat) (names : List String) (s s' : BState),
      attrRequiredInv s → addExtraAttributes fuel s names = .ok s' →
      attrRequiredInv s') ∧
    (∀ (fuel : Nat) (defs : List (String × TypeDefinition))
      (tagType : Option SymbolName) (i : String)
      (props : List (String × PropertyInfo)) (req : List String),
      simplifyType (fuel + 1) defs .attributes tagType (.object i props req) =
        .ok (.object i
          (props.filter (fun np => np.2.isAttribute = some true))
          ((props.filter (fun np => np.2.isAttribute = some true)).map
            Prod.fst))) ∧
    (∀ ad : TypeDefinition, c2State.attributes = some ad →
      objectPropNames ad.type = objectRequired ad.type) := by
  refine ⟨?_, ?_, ?_, ?_, ?_, ?_⟩
  · intro doc schema ad had
    exact Option.noConfusion had
  · intro fuel s path ro s' hinv h
    exact addAttribute_attrInv fuel s path ro s' hinv h
  · intro fuel s s' hinv h
    exact analyzePaths_attrInv fuel s s' hinv h
  · intro fuel names s s' hinv h
    exact addExtraAttributes_attrInv fuel names s s' hinv h
  · intro fuel defs tagType i props req
    rw [simplifyType]
    simp
  · intro ad had
    injection had with hh
    rw [← hh]
    rfl

theorem claim_C9_attributesRequired_witness :
    attrRequiredInv (initialState emptyDocumenter jsEmpty) :=
  claim_C9_attributesRequired.2.2.1 50 (initialState emptyDocumenter jsEmpty)
    (initialState emptyDocumenter jsEmpty)
    (claim_C9_attributesRequired.1 emptyDocumenter jsEmpty) rfl

/-! ### Claim C6 — the attributes projection and attribute eligibility -/

/-- The attributes projection, when present, is an `object` type. -/
def attrObjInv (s : BState) : Prop :=
  ∀ ad : TypeDefinition, s.attributes = some ad →
    ∃ i ap ar, ad.type = Ty.object i ap ar

/-- The generated attribute name for a `/properties/...` path. -/
def attrEntryName (path : String) : String :=
  strJoin "." (strSplitOn (path.drop "/properties/".length) (Char.ofNat 47))

theorem attrObjInv_of_eq {s1 s2 : BState}
    (h : s2.attributes = s1.attributes) (hinv : attrObjInv s1) :
    attrObjInv s2 := by
  intro ad had
  exact hinv ad (h ▸ had)

theorem attrState_update_objInv (sW : BState) (hinvW : attrObjInv sW)
    (docs0 : Option Json) (nm : String) (entry : PropertyInfo) :
    attrObjInv { sW with attributes := some (
      (fun (ad : TypeDefinition) =>
        match ad.type with
        | .object i aprops areq =>
          (⟨ad.documentation,
            .object i (setAssoc aprops nm entry) (areq ++ [nm])⟩ :
             TypeDefinition)
        | _ => ad)
      (match sW.attributes with
       | some ad => ad
       | none => ⟨docs0, .object "/attributes" [] []⟩)) } := by
  intro ad had
  simp only [Option.some.injEq] at had
  cases hatt : sW.attributes with
  | none =>
    rw [hatt] at had
    simp only [] at had
    subst had
    exact ⟨_, _, _, rfl⟩
  | some ad0 =>
    rw [hatt] at had
    simp only [] at had
    obtain ⟨i0, ap0, ar0, htype0⟩ := hinvW ad0 hatt
    rw [htype0] at had
    simp only [] at had
    subst had
    exact ⟨_, _, _, rfl⟩

theorem addAttribute_objInv (fuel : Nat) (s : BState) (path : String)
    (ro : Bool) (s' : BState) (hinv : attrObjInv s)
    (h : addAttribute fuel s path ro = .ok s') : attrObjInv s' := by
  rw [addAttribute] at h
  split at h
  · exact Except.noConfusion h
  · rename_i props s2 heq
    have hinv2 : attrObjInv s2 :=
      attrObjInv_of_eq (findProperty_attributes _ _ _ _ _ _ heq) hinv
    split at h
    · cases h
      exact attrObjInv_of_eq (warn_attributes _ _ _) hinv2
    · rename_i pl rest
      cases hml : addAttributeMarkLoop fuel s2 (pl :: rest)
          (strContainsChar path (Char.ofNat 42)) ro with
      | error e =>
        simp only [hml] at h
        exact Except.noConfusion h
      | ok s3 =>
        simp only [hml] at h
        have hinv3 : attrObjInv s3 :=
          attrObjInv_of_eq (addAttributeMarkLoop_attributes _ _ _ _ _ _ hml)
            hinv2
        split at h
        · exact Except.noConfusion h
        · rename_i prop hprop
          split at h
          · exact Except.noConfusion h
          · split at h
            · exact Except.noConfusion h
            · rename_i valid hvalid
              split at h
              · cases h
                exact attrState_update_objInv _
                  (by
                    split
                    · exact attrObjInv_of_eq (warn_attributes _ _ _) hinv3
                    · exact hinv3) _ _ _
              · cases h
                split
                · exact attrObjInv_of_eq (warn_attributes _ _ _) hinv3
                · exact hinv3


theorem addAttributePaths_objInv (fuel : Nat) (paths : List String) :
    ∀ (s : BState) (s' : BState), attrObjInv s →
      addAttributePaths fuel s paths = .ok s' → attrObjInv s' := by
  induction paths with
  | nil =>
    intro s s' hinv h
    cases h
    exact hinv
  | cons p rest ih =>
    intro s s' hinv h
    rw [addAttributePaths] at h
    split at h
    · exact Except.noConfusion h
    · rename_i s2 heq
      exact ih s2 s' (addAttribute_objInv _ _ _ _ _ hinv heq) h

theorem addExtraAttributes_objInv (fuel : Nat) (names : List String) :
    ∀ (s : BState) (s' : BState), attrObjInv s →
      addExtraAttributes fuel s names = .ok s' → attrObjInv s' := by
  induction names with
  | nil =>
    intro s s' hinv h
    cases h
    exact hinv
  | cons p rest ih =>
    intro s s' hinv h
    rw [addExtraAttributes] at h
    split at h
    · exact Except.noConfusion h
    · rename_i s2 heq
      exact ih s2 s' (addAttribute_objInv _ _ _ _ _ hinv heq) h

theorem analyzePaths_objInv (fuel : Nat) (s s' : BState)
    (hinv : attrObjInv s) (h : analyzePaths fuel s = .ok s') :
    attrObjInv s' := by
  rw [analyzePaths] at h
  split at h
  · cases h; exact hinv
  · split at h
    · cases h; exact hinv
    · split at h
      · exact Except.noConfusion h
      · split at h
        · exact Except.noConfusion h
        · rename_i s2 heq
          exact attrObjInv_of_eq (breadcrumbPaths_attributes _ _ _ _ h)
            (addAttributePaths_objInv _ _ _ _ hinv heq)

theorem setAssoc_lookup_self {α : Type} (l : List (String × α)) (k : String)
    (v : α) : (setAssoc l k v).lookup k = some v := by
  induction l with
  | nil => simp [setAssoc, List.lookup]
  | cons hd tl ih =>
    rw [setAssoc]
    split
    · rename_i hk
      simp [List.lookup, hk]
    · rename_i hk
      have : (k == hd.1) = false := by
        simp only [beq_eq_false_iff_ne, ne_eq]
        exact fun e => hk e.symm
      simp [List.lookup, this, ih]

theorem addAttribute_wildcard_attributes (fuel : Nat) (s : BState)
    (path : String) (ro : Bool) (s' : BState)
    (hw : strContainsChar path (Char.ofNat 42) = true)
    (h : addAttribute fuel s path ro = .ok s') :
    s'.attributes = s.attributes := by
  rw [addAttribute] at h
  split at h
  · exact Except.noConfusion h
  · rename_i props s2 heq
    have h2 := findProperty_attributes _ _ _ _ _ _ heq
    split at h
    · cases h
      exact (warn_attributes _ _ _).trans h2
    · rename_i pl rest
      cases hml : addAttributeMarkLoop fuel s2 (pl :: rest)
          (strContainsChar path (Char.ofNat 42)) ro with
      | error e =>
        simp only [hml] at h
        exact Except.noConfusion h
      | ok s3 =>
        simp only [hml] at h
        have h3 := (addAttributeMarkLoop_attributes _ _ _ _ _ _ hml).trans h2
        split at h
        · exact Except.noConfusion h
        · rename_i prop hprop
          split at h
          · exact Except.noConfusion h
          · split at h
            · exact Except.noConfusion h
            · rename_i valid hvalid
              split at h
              · rename_i hcond
                rw [hw] at hcond
                simp at hcond
              · cases h
                split
                · exact (warn_attributes _ _ _).trans h3
                · exact h3

theorem attrState_update_lookup (sW : BState) (hinvW : attrObjInv sW)
    (docs0 : Option Json) (nm : String) (entry : PropertyInfo) :
    ∃ ad, ({ sW with attributes := some (
      (fun (ad : TypeDefinition) =>
        match ad.type with
        | .object i aprops areq =>
          (⟨ad.documentation,
            .object i (setAssoc aprops nm entry) (areq ++ [nm])⟩ :
             TypeDefinition)
        | _ => ad)
      (match sW.attributes with
       | some ad => ad
       | none => ⟨docs0, .object "/attributes" [] []⟩)) } : BState).attributes
        = some ad ∧
      ∃ i ap ar, ad.type = .object i ap ar ∧
        ap.lookup nm = some entry ∧ nm ∈ ar := by
  cases hatt : sW.attributes with
  | none =>
    refine ⟨_, rfl, ?_⟩
    exact ⟨_, _, _, rfl, setAssoc_lookup_self _ _ _, by simp⟩
  | some ad0 =>
    obtain ⟨i0, ap0, ar0, htype0⟩ := hinvW ad0 hatt
    refine ⟨_, rfl, ?_⟩
    simp only []
    rw [htype0]
    exact ⟨_, _, _, rfl, setAssoc_lookup_self _ _ _, by simp⟩

/-- A type resolves — transitively through arrays, unions and references
looked up in the definitions table — to `object` or `record` structure. -/
inductive resolvesObjRec (defs : List (String × TypeDefinition)) : Ty → Prop
where
  | isObject (i : String) (props : List (String × PropertyInfo))
      (req : List String) : resolvesObjRec defs (.object i props req)
  | isRecord (i : String) (v : Ty) : resolvesObjRec defs (.record i v)
  | throughArray (i : String) (d : Option Json) (t : Ty) :
      resolvesObjRec defs t → resolvesObjRec defs (.array i (.mk d t))
  | throughRef (i name : String) (td : TypeDefinition) :
      defs.lookup name = some td → resolvesObjRec defs td.type →
      resolvesObjRec defs (.reference i (.str name))
  | throughUnion (i : String) (items : List Ty) (t : Ty) :
      t ∈ items → resolvesObjRec defs t →
      resolvesObjRec defs (.union i items)

/-- `#isValidAttributeType` consults the state only through its definitions
table. -/
theorem isValidAttributeType_defs_congr :
    ∀ (fuel : Nat) (s1 s2 : BState), s1.definitions = s2.definitions →
    (∀ t, isValidAttributeType fuel s1 t = isValidAttributeType fuel s2 t) ∧
    (∀ ts, isValidAttributeTypeList fuel s1 ts =
      isValidAttributeTypeList fuel s2 ts) := by
  intro fuel
  induction fuel with
  | zero => intro s1 s2 hd; exact ⟨fun t => rfl, fun ts => rfl⟩
  | succ f ih =>
    intro s1 s2 hd
    constructor
    · intro t
      cases t with
      | array i ii =>
        cases ii with
        | mk d ty => simpa only [isValidAttributeType] using (ih s1 s2 hd).1 ty
      | reference i name =>
        cases name with
        | str nm =>
          rw [isValidAttributeType, isValidAttributeType, hd]
          cases s2.definitions.lookup nm with
          | none => rfl
          | some target => exact (ih s1 s2 hd).1 target.type
        | objToken tok => rfl
      | union i items =>
        simpa only [isValidAttributeType] using (ih s1 s2 hd).2 items
      | any i => rfl
      | unknown i => rfl
      | boolean i => rfl
      | integer i => rfl
      | number i => rfl
      | null i => rfl
      | string i => rfl
      | const i v => rfl
      | enum i vs => rfl
      | object i ps rq => rfl
      | record i v => rfl
    · intro ts
      cases ts with
      | nil => rfl
      | cons t rest =>
        rw [isValidAttributeTypeList, isValidAttributeTypeList,
          (ih s1 s2 hd).1 t]
        cases isValidAttributeType f s2 t with
        | error e => rfl
        | ok b => cases b with
          | false => rfl
          | true => exact (ih s1 s2 hd).2 rest

theorem isValidList_member_ne_true (s : BState) (t : Ty)
    (hne : ∀ fuel, isValidAttributeType fuel s t ≠ .ok true) :
    ∀ (items : List Ty), t ∈ items → ∀ fuel,
      isValidAttributeTypeList fuel s items ≠ .ok true := by
  intro items
  induction items with
  | nil => intro hmem; cases hmem
  | cons u rest ih =>
    intro hmem fuel
    cases fuel with
    | zero => intro h; exact Except.noConfusion h
    | succ f =>
      rcases List.mem_cons.mp hmem with rfl | hmem2
      · cases hu : isValidAttributeType f s t with
        | error e => simp [isValidAttributeTypeList, hu]
        | ok b =>
          cases b with
          | false => simp [isValidAttributeTypeList, hu]
          | true => exact absurd hu (hne f)
      · cases hu : isValidAttributeType f s u with
        | error e => simp [isValidAttributeTypeList, hu]
        | ok b =>
          cases b with
          | false => simp [isValidAttributeTypeList, hu]
          | true =>
            rw [isValidAttributeTypeList, hu]
            exact ih hmem2 f

/-- A type that resolves to object or record structure through the
definitions table is never attribute-eligible, with any fuel. -/
theorem resolvesObjRec_not_valid {defs : List (String × TypeDefinition)}
    {t : Ty} (hres : resolvesObjRec defs t) :
    ∀ (fuel : Nat) (s : BState), s.definitions = defs →
      isValidAttributeType fuel s t ≠ .ok true := by
  induction hres with
  | isObject i props req =>
    intro fuel s hd
    cases fuel with
    | zero => intro h; exact Except.noConfusion h
    | succ f => simp [isValidAttributeType]
  | isRecord i v =>
    intro fuel s hd
    cases fuel with
    | zero => intro h; exact Except.noConfusion h
    | succ f => simp [isValidAttributeType]
  | throughArray i d t hsub ih =>
    intro fuel s hd
    cases fuel with
    | zero => intro h; exact Except.noConfusion h
    | succ f =>
      rw [isValidAttributeType]
      exact ih f s hd
  | throughRef i name td hlook hsub ih =>
    intro fuel s hd
    cases fuel with
    | zero => intro h; exact Except.noConfusion h
    | succ f =>
      rw [isValidAttributeType, hd, hlook]
      exact ih f s hd
  | throughUnion i items t hmem hsub ih =>
    intro fuel s hd
    cases fuel with
    | zero => intro h; exact Except.noConfusion h
    | succ f =>
      rw [isValidAttributeType]
      exact isValidList_member_ne_true s t (fun fu => ih fu s hd) items hmem f

theorem addAttribute_provenance (fuel : Nat) (s : BState) (path : String)
    (ro : Bool) (s' : BState) (hinv : attrObjInv s)
    (h : addAttribute fuel s path ro = .ok s') :
    s'.attributes = s.attributes ∨
    ∃ (pl : PropLoc) (rest : List PropLoc) (s2 s3 : BState)
      (prop : PropertyInfo),
      findProperty fuel s path (strStartsWith s.typeName "AWS::") =
        .ok (pl :: rest, s2) ∧
      addAttributeMarkLoop fuel s2 (pl :: rest)
        (strContainsChar path (Char.ofNat 42)) ro = .ok s3 ∧
      propAt s3 pl = some prop ∧
      strContainsChar path (Char.ofNat 42) = false ∧
      isValidAttributeType fuel s3 prop.type = .ok true ∧
      ¬ resolvesObjRec s3.definitions prop.type ∧
      ∃ ad, s'.attributes = some ad ∧
        ∃ i ap ar, ad.type = .object i ap ar ∧
          ∃ entry, ap.lookup (attrEntryName path) = some entry ∧
            entry.isAttribute = some true ∧ entry.type = prop.type ∧
            attrEntryName path ∈ ar := by
  rw [addAttribute] at h
  split at h
  · exact Except.noConfusion h
  · rename_i props s2 heq
    have h2 := findProperty_attributes _ _ _ _ _ _ heq
    split at h
    · cases h
      exact .inl ((warn_attributes _ _ _).trans h2)
    · rename_i pl rest
      cases hml : addAttributeMarkLoop fuel s2 (pl :: rest)
          (strContainsChar path (Char.ofNat 42)) ro with
      | error e =>
        simp only [hml] at h
        exact Except.noConfusion h
      | ok s3 =>
        simp only [hml] at h
        have h3 := (addAttributeMarkLoop_attributes _ _ _ _ _ _ hml).trans h2
        split at h
        · exact Except.noConfusion h
        · rename_i prop hprop
          split at h
          · exact Except.noConfusion h
          · split at h
            · exact Except.noConfusion h
            · rename_i valid hvalid
              split at h
              · rename_i hcond
                obtain ⟨hw, hv⟩ := Bool.and_eq_true_iff.mp hcond
                simp only [Bool.not_eq_true'] at hw
                subst hv
                cases h
                have hval3 : isValidAttributeType fuel s3 prop.type =
                    .ok true := by
                  rw [← (isValidAttributeType_defs_congr fuel
                    (if (!(propTypesAt s3 (pl :: rest)).all
                        fun x => isSameType prop.type x) = true then
                      warn s3 "/readOnlyProperties"
                        "attribute has multiple possible types"
                    else s3) s3 (by split <;> rfl)).1 prop.type]
                  exact hvalid
                have hnores : ¬ resolvesObjRec s3.definitions prop.type :=
                  fun hres => resolvesObjRec_not_valid hres fuel s3 rfl hval3
                refine .inr ⟨pl, rest, s2, s3, prop, heq, hml, hprop, hw,
                  hval3, hnores, ?_⟩
                have hinvW : attrObjInv
                    (if (!(propTypesAt s3 (pl :: rest)).all
                        fun x => isSameType prop.type x) = true then
                      warn s3 "/readOnlyProperties"
                        "attribute has multiple possible types"
                    else s3) := by
                  split
                  · exact attrObjInv_of_eq (warn_attributes _ _ _)
                      (attrObjInv_of_eq h3 hinv)
                  · exact attrObjInv_of_eq h3 hinv
                obtain ⟨ad, hads, i, ap, ar, htype, hlook, hmem⟩ :=
                  attrState_update_lookup _ hinvW _ (attrEntryName path) _
                exact ⟨ad, hads, i, ap, ar, htype, _, hlook, rfl, rfl, hmem⟩
              · cases h
                refine .inl ?_
                split
                · exact (warn_attributes _ _ _).trans h3
                · exact h3

/-- A resource state whose only root property `P` is an array of objects,
so that `/properties/P/*/X` is a wildcard attribute path. -/
def c6WState : BState :=
  { initialState emptyDocumenter (.obj [("typeName", .str "Test::Wild")]) with
    propertiesDef := ⟨none, .object "/"
      [("P", .mk none none none (.array "/properties/P" (.mk none
        (.object "/properties/P/items"
          [("X", .mk none none none
            (.string "/properties/P/items/X"))] []))))]
      []⟩ }

/-- The state after `#addAttribute("/properties/P/*/X", true)` (total
projection; the call succeeds). -/
def c6WResult : BState :=
  match addAttribute 20 c6WState "/properties/P/*/X" true with
  | .ok s => s
  | .error _ => c6WState

/-- **C6.**  The attributes projection and attribute eligibility:
(1) initially absent; (2) `#addAttribute` — its only writer — keeps it an
`object` type, as do (3) `#analyzePaths` and (4) the `ExtraAttributes`
pass; (5) a path containing a `*` wildcard segment never adds an attribute
(the attributes table is left untouched); (6) a property whose type resolves
— transitively through arrays, unions and references looked up in the
definitions table — to `object` or `record` structure is never
attribute-eligible, with any fuel; (7) whenever `#addAttribute` does change
the attributes table, the new entry comes from a property match produced by
`#findProperty` (which reaches the properties tree transitively through
arrays, records, unions and references), the path has no wildcard, the
matched property's type passed the eligibility check at the run's own state
— hence it resolves to no object or record structure through that state's
definitions table — and the entry — marked `isAttribute = true` and
carrying the matched property's type — is stored under the dotted path name
and listed in `required`. -/
theorem claim_C6_attributeEligibility :
    (∀ (doc : Documenter) (schema : Json),
      attrObjInv (initialState doc schema)) ∧
    (∀ (fuel : Nat) (s : BState) (path : String) (ro : Bool) (s' : BState),
      attrObjInv s → addAttribute fuel s path ro = .ok s' →
      attrObjInv s') ∧
    (∀ (fuel : Nat) (s s' : BState), attrObjInv s →
      analyzePaths fuel s = .ok s' → attrObjInv s') ∧
    (∀ (fuel : Nat) (names : List String) (s s' : BState),
      attrObjInv s → addExtraAttributes fuel s names = .ok s' →
      attrObjInv s') ∧
    (∀ (fuel : Nat) (s : BState) (path : String) (ro : Bool) (s' : BState),
      strContainsChar path (Char.ofNat 42) = true →
      addAttribute fuel s path ro = .ok s' →
      s'.attributes = s.attributes) ∧
    (∀ (defs : List (String × TypeDefinition)) (t : Ty),
      resolvesObjRec defs t →
      ∀ (fuel : Nat) (s : BState), s.definitions = defs →
        isValidAttributeType fuel s t ≠ .ok true) ∧
    (∀ (fuel : Nat) (s : BState) (path : String) (ro : Bool) (s' : BState),
      attrObjInv s → addAttribute fuel s path ro = .ok s' →
      s'.attributes = s.attributes ∨
      ∃ (pl : PropLoc) (rest : List PropLoc) (s2 s3 : BState)
        (prop : PropertyInfo),
        findProperty fuel s path (strStartsWith s.typeName "AWS::") =
          .ok (pl :: rest, s2) ∧
        addAttributeMarkLoop fuel s2 (pl :: rest)
          (strContainsChar path (Char.ofNat 42)) ro = .ok s3 ∧
        propAt s3 pl = some prop ∧
        strContainsChar path (Char.ofNat 42) = false ∧
        isValidAttributeType fuel s3 prop.type = .ok true ∧
        ¬ resolvesObjRec s3.definitions prop.type ∧
        ∃ ad, s'.attributes = some ad ∧
          ∃ i ap ar, ad.type = .object i ap ar ∧
            ∃ entry, ap.lookup (attrEntryName path) = some entry ∧
              entry.isAttribute = some true ∧ entry.type = prop.type ∧
              attrEntryName path ∈ ar) := by
  refine ⟨?_, ?_, ?_, ?_, ?_, ?_, ?_⟩
  · intro doc schema ad had
    exact Option.noConfusion had
  · intro fuel s path ro s' hinv h
    exact addAttribute_objInv fuel s path ro s' hinv h
  · intro fuel s s' hinv h
    exact analyzePaths_objInv fuel s s' hinv h
  · intro fuel names s s' hinv h
    exact addExtraAttributes_objInv fuel names s s' hinv h
  · intro fuel s path ro s' hw h
    exact addAttribute_wildcard_attributes fuel s path ro s' hw h
  · intro defs t hres fuel s hd
    exact resolvesObjRec_not_valid hres fuel s hd
  · intro fuel s path ro s' hinv h
    exact addAttribute_provenance fuel s path ro s' hinv h

theorem claim_C6_attributeEligibility_witness :
    c6WResult.attributes = c6WState.attributes :=
  claim_C6_attributeEligibility.2.2.2.2.1 20 c6WState "/properties/P/*/X"
    true c6WResult rfl rfl
